import Mathlib

/-!
# Mundo Sombrio: the turn, movement, deck and mounting engine

A shallow embedding of `public/js/game.js`, `public/js/characters.js` and
`public/js/supabaseManager.js`.  JS objects and `Map`s are insertion-ordered
association lists of their own entries, an absent key is `none`, and the game instance
(`MundoSombrioGame`) is a record passed from call to call.  Where the program indexes a
plain object by a name taken from the game data (a tile, a card id, a talent id), the read
goes through `objGet`, which also sees the members inherited from `Object.prototype`.
-/

namespace MundoSombrio

/-! ## Objects and maps -/

/-- The own entry of a key in a JS object, or the read `map.get(key)` of a `Map`; `none`
is `undefined`. -/
def mapGet {κ β : Type} [DecidableEq κ] : List (κ × β) → κ → Option β
  | [], _ => none
  | (k, v) :: rest, key => if k = key then some v else mapGet rest key

/-- Write of a key (`obj[key] = v`, `map.set(key, v)`): an existing key keeps its place. -/
def mapSet {κ β : Type} [DecidableEq κ] : List (κ × β) → κ → β → List (κ × β)
  | [], key, v => [(key, v)]
  | (k, w) :: rest, key, v =>
    if k = key then (k, v) :: rest else (k, w) :: mapSet rest key v

/-- The names every plain object inherits from `Object.prototype`.  A read `obj[key]` of
one of them on an object without an own entry gives the inherited member: a function, or
for `__proto__` the prototype object itself. -/
def objectPrototypeKeys : List String :=
  ["constructor", "__proto__", "hasOwnProperty", "isPrototypeOf", "propertyIsEnumerable",
   "toLocaleString", "toString", "valueOf", "__defineGetter__", "__defineSetter__",
   "__lookupGetter__", "__lookupSetter__"]

/-- Result of the read `obj[key]` on a plain object whose own entries have type `β`. -/
inductive Read (β : Type) where
  /-- The object has an own entry for the key. -/
  | own (v : β)
  /-- No own entry and the key names a member of `Object.prototype`: the value is a
  function or an object, so it is truthy, it is not iterable, and it converts to `NaN` as a
  number and to a string under `+`. -/
  | inherited
  /-- No own entry and no inherited member: `undefined`. -/
  | absent
  deriving DecidableEq, Repr

/-- The read `obj[key]` on a plain object. -/
def objGet {β : Type} (obj : List (String × β)) (key : String) : Read β :=
  match mapGet obj key with
  | some v => .own v
  | none => if key ∈ objectPrototypeKeys then .inherited else .absent

/-- The write `obj[key] = v` of a primitive `v` (a number or a string) on a plain object.
Without an own entry the key `__proto__` is the inherited setter, which ignores a
primitive: nothing is stored.  Every other inherited member is a writable data property,
so the write creates an own entry. -/
def objSet {β : Type} (obj : List (String × β)) (key : String) (v : β) : List (String × β) :=
  if key = "__proto__" ∧ (mapGet obj key).isNone then obj else mapSet obj key v

/-! ## Movement resolver: the breadth-first search of `calculateReachableTiles` -/

/-- The comparison `distance <= maxDistance`; it is false when `maxDistance` is `undefined`. -/
def jsLe (distance : Nat) : Option Int → Bool
  | some m => decide ((distance : Int) ≤ m)
  | none => false

/-- The comparison `distance < maxDistance`; it is false when `maxDistance` is `undefined`. -/
def jsLt (distance : Nat) : Option Int → Bool
  | some m => decide ((distance : Int) < m)
  | none => false

/-- The inner `for (const nextTile of connections)` loop of `calculateReachableTiles`
(game.js 1838-1843), on the pair (visited, queue). -/
def visitNeighbors {α : Type} [DecidableEq α] (distance : Nat) :
    List α → List α × List (α × Nat) → List α × List (α × Nat)
  | [], acc => acc
  | nextTile :: rest, (visited, queue) =>
    if nextTile ∈ visited then visitNeighbors distance rest (visited, queue)
    else visitNeighbors distance rest (visited ++ [nextTile], queue ++ [(nextTile, distance + 1)])

/-- The `while (queue.length > 0)` loop of `calculateReachableTiles` (game.js 1829-1845).
`adj tile` is the value `connections` of line 1837, `none` when it is not iterable: the
`for...of` of line 1838 then raises a `TypeError`, the method ends there, and the map is
left with the entries written so far.  `fuel` bounds the number of iterations; the result
`none` means the bound was hit with the queue still non-empty. -/
def bfsLoop {α : Type} [DecidableEq α] (adj : α → Option (List α)) (maxDistance : Option Int) :
    Nat → List α → List (α × Nat) → List (α × Nat) → Option (List (α × Nat))
  | _, _, [], reachable => some reachable
  | 0, _, _ :: _, _ => none
  | fuel + 1, visited, (tile, distance) :: queue, reachable =>
    let reachable1 :=
      if 0 < distance ∧ jsLe distance maxDistance = true then mapSet reachable tile distance
      else reachable
    if jsLt distance maxDistance = true then
      match adj tile with
      | none => some reachable1
      | some connections =>
        let vq := visitNeighbors distance connections (visited, queue)
        bfsLoop adj maxDistance fuel vq.1 vq.2 reachable1
    else
      bfsLoop adj maxDistance fuel visited queue reachable1

/-- Tiles at the end of a walk of exactly `n` steps from `start`. -/
def frontier {α : Type} (adj : α → List α) (start : α) : Nat → List α
  | 0 => [start]
  | n + 1 => (frontier adj start n).flatMap adj

/-- The shortest-path hop distance from `start` to `t` is `d`: some walk of `d` steps ends
at `t` and no shorter walk does. -/
def IsHopDistance {α : Type} (adj : α → List α) (start t : α) (d : Nat) : Prop :=
  t ∈ frontier adj start d ∧ ∀ n, n < d → t ∉ frontier adj start n

instance {α : Type} [DecidableEq α] (adj : α → List α) (start t : α) (d : Nat) :
    Decidable (IsHopDistance adj start t d) := by
  unfold IsHopDistance; infer_instance

/-! ## Data model -/

/-- A tile reference as the code holds it: a string id, or `undefined` (`none`) when a
handler stored a field the event did not carry. -/
abbrev Tile := Option String

/-- The value of a talent level, as the reads `talentLevels[talentId] || 0` give it: a
number, an inherited member of `Object.prototype` (read when the table has no own entry
under such a name), or the string that `currentLevel + 1` makes of such a member, which
`upgradeTalent` stores and extends by one more digit `1` at each later call. -/
inductive Level where
  /-- The number `n`. -/
  | num (n : Nat)
  /-- The source text of an inherited member followed by `ones` digits `1`. -/
  | text (ones : Nat)
  /-- An inherited member of `Object.prototype`: a function, or the prototype object. -/
  | member
  deriving DecidableEq, Repr

instance (n : Nat) : OfNat Level n := ⟨.num n⟩

/-- The object `player.state` (characters.js `createPlayerState`); a `none` field is an
absent key. -/
structure PlayerState where
  characterId : Option String
  currentHealth : Option Int
  maxHealth : Option Int
  movement : Option Int
  talentLevels : Option (List (String × Level))
  effects : Option (List String)
  deriving DecidableEq, Repr

/-- The object `card.mounting`. -/
structure Mounting where
  requiredTalents : Option (List String)
  deriving DecidableEq, Repr

/-- A card held by a player, as built by `drawCardFromDeck`.  `mounting = none` is the
value `null`, unless `mountingAbsent` says that the key is absent (`undefined`): the two
differ only under the test `card.mounting === null` of `groupCards`. -/
structure Card where
  id : Option String
  name : String
  type : String
  effect : String
  deck : String
  deckId : Option String
  mounted : Bool
  mountingProgress : Option Nat
  mounting : Option Mounting
  mountingAbsent : Bool := false
  deriving DecidableEq, Repr

/-- An entry of `game.players`.  `cards` is `none` while the key is absent (a player built
by `addRemotePlayer`); an entry of the array is `none` when it holds `null`.  The Phaser
`token` is presentation and is left out. -/
structure Player where
  id : String
  name : String
  characterId : String
  color : Option Nat
  position : Tile
  state : Option PlayerState
  cards : Option (List (Option Card))
  deriving DecidableEq, Repr

/-- The object `currentTurnActions`. -/
structure TurnActions where
  movementUsed : Bool
  mainActionUsed : Bool
  bonusActions : List String
  deriving DecidableEq, Repr

/-- A card definition of `decks.json`. -/
structure CardDef where
  id : String
  quantity : Option Nat
  requiredTalents : Option (List String)
  nameKey : Option String
  descriptionKey : Option String
  type : Option String
  deriving DecidableEq, Repr

/-- A deck definition of `decks.json`. -/
structure Deck where
  minRoll : Int
  maxRoll : Int
  cards : Option (List CardDef)
  nameKey : Option String
  color : Option String
  deriving DecidableEq, Repr

/-- A talent of a character definition. -/
structure Talent where
  id : String
  levels : List Int
  deriving DecidableEq, Repr

/-- A character definition of `characters.json`. -/
structure Character where
  id : String
  talents : List Talent
  deriving DecidableEq, Repr

/-- An entry of the table returned by `getPlayerTalents`, as `getBestMountingTalent`
reads it. -/
structure TalentInfo where
  level : Level
  value : Option Int
  mountingRounds : Option Nat
  deriving DecidableEq, Repr

/-- The table `playerTalents`, keyed by talent id. -/
abbrev PlayerTalents := List (String × TalentInfo)

/-- The state of a `MundoSombrioGame` instance (constructor, game.js 6-70), without the
Phaser and DOM handles. -/
structure Game where
  players : List Player
  currentPlayerIndex : Nat
  gameStarted : Bool
  connections : List (String × List String)
  decksData : Option (List (String × Deck))
  deckQuantities : List (String × Nat)
  cardQuantities : List (String × List (String × Nat))
  defaultMountingRounds : List (String × Nat)
  isMoving : Bool
  reachableTiles : List (Tile × Nat)
  selectedTile : Tile
  currentTurnActions : TurnActions
  selectedCharacterId : Option String
  isMultiplayer : Bool
  localPlayerId : Option String
  deriving DecidableEq, Repr

/-- The table `defaultMountingRounds` set by the constructor (game.js 19-25). -/
def defaultMountingRounds : List (String × Nat) :=
  [("inteligencia", 5), ("tecnologia", 6), ("dinheiro", 4), ("geografia", 3), ("traducao", 7)]

/-- The turn flags of a fresh turn. -/
def freshTurnActions : TurnActions :=
  { movementUsed := false, mainActionUsed := false, bonusActions := [] }

/-- The game as the constructor leaves it. -/
def newGame : Game :=
  { players := [], currentPlayerIndex := 0, gameStarted := false, connections := [],
    decksData := none, deckQuantities := [], cardQuantities := [],
    defaultMountingRounds := defaultMountingRounds, isMoving := false, reachableTiles := [],
    selectedTile := none, currentTurnActions := freshTurnActions,
    selectedCharacterId := none, isMultiplayer := false, localPlayerId := none }

/-- The read `this.players[this.currentPlayerIndex]`. -/
def currentPlayer (g : Game) : Option Player :=
  g.players[g.currentPlayerIndex]?

/-- Property key of a tile reference: `undefined` reads the key `"undefined"`. -/
def tileKey : Tile → String
  | some s => s
  | none => "undefined"

/-- The value `this.connections[tile] || []` of game.js 1837, as the `for...of` of the
next line sees it: the own adjacency list, the empty array when the read is `undefined`,
and `none` (not iterable) when the read is an inherited member of `Object.prototype`,
which is truthy and so is not replaced by `[]`. -/
def neighbors (connections : List (String × List String)) (tile : Tile) :
    Option (List Tile) :=
  match objGet connections (tileKey tile) with
  | .own l => some (l.map some)
  | .inherited => none
  | .absent => some []

/-- The adjacency lists of the graph: the own entry of a tile, and no neighbour for a tile
without an entry. -/
def adjacent (connections : List (String × List String)) (tile : Tile) : List Tile :=
  ((mapGet connections (tileKey tile)).getD []).map some

/-- Every tile named in some adjacency list. -/
def allNeighbors (connections : List (String × List String)) : List Tile :=
  (connections.flatMap (fun e => e.2)).map some

/-- Iteration bound for the search: each iteration dequeues a different tile, and a tile
is the start or is named in an adjacency list. -/
def bfsFuel (connections : List (String × List String)) : Nat :=
  (allNeighbors connections).length + 1

/-- The method `calculateReachableTiles` (game.js 1816-1846).  Reading `state.movement` of
a player without `state` throws, which leaves the game as it was; a throw inside the loop
leaves `reachableTiles` with the entries written before it. -/
def calculateReachableTiles (g : Game) : Game :=
  match currentPlayer g with
  | none => g
  | some p =>
    match p.state with
    | none => g
    | some st =>
      match bfsLoop (neighbors g.connections) st.movement (bfsFuel g.connections)
          [p.position] [(p.position, 0)] [] with
      | some r => { g with reachableTiles := r }
      | none => g

/-! ## Card acquisition: deck quantities and draws

The deck id these methods receive is a key of `decksData.decks`: `selectDeck` has one
caller (game.js 2245), which passes an entry of `getAvailableDecks`.  The reads
`deckQuantities[deckId]`, `cardQuantities[deckId]` and `decks[deckId]` are taken on own
entries; the card ids inside a deck are followed through `Object.prototype` as well. -/

/-- The collaborators the engine reads but does not own: the character definitions of
`window.characterManager` and the lookup `window.i18n.get` on a string key
(localization.js 50-75), which returns a string for every string: the translation, or the
key itself when there is none.  On a key that is `undefined` the method raises at
`key.split`; `makeCard` accounts for that. -/
structure Env where
  characters : List Character
  i18n : String → String

/-- The expression `x || dflt` on a string that may be `undefined` or empty. -/
def jsOrString (x : Option String) (dflt : String) : String :=
  match x with
  | some s => if s = "" then dflt else s
  | none => dflt

/-- The expression `card.quantity || 1` (game.js 649): a missing quantity and the quantity 0
both give 1. -/
def cardQty (card : CardDef) : Nat :=
  match card.quantity with
  | some (n + 1) => n + 1
  | _ => 1

/-- The inner loop of `resetDeckQuantities` (game.js 648-652) on the pair
(`totalQuantity`, `this.cardQuantities[key]`).  The write of line 651 stores nothing for the
card id `__proto__`, while line 650 adds its quantity to the total. -/
def resetDeckCards : List CardDef → Nat × List (String × Nat) → Nat × List (String × Nat)
  | [], acc => acc
  | card :: rest, (totalQuantity, qtys) =>
    resetDeckCards rest (totalQuantity + cardQty card, objSet qtys card.id (cardQty card))

/-- The outer loop of `resetDeckQuantities` (game.js 642-656) over `Object.entries(decks)`.
For the deck key `__proto__` the write of the total (line 655) stores nothing, and the
write of line 645 makes the fresh count object the prototype of `cardQuantities`: the read
`cardQuantities['__proto__']` then returns that object, which is kept here as the entry of
that key. -/
def resetDecks : List (String × Deck) → Game → Game
  | [], g => g
  | (key, deck) :: rest, g =>
    let r := resetDeckCards (deck.cards.getD []) (0, [])
    resetDecks rest
      { g with cardQuantities := mapSet g.cardQuantities key r.2
               deckQuantities := objSet g.deckQuantities key r.1 }

/-- The method `resetDeckQuantities` (game.js 638-660). -/
def resetDeckQuantities (g : Game) : Game :=
  resetDecks (g.decksData.getD []) { g with deckQuantities := [], cardQuantities := [] }

/-- The method `getDeckQuantity`: `this.deckQuantities[deckId] || 0`. -/
def getDeckQuantity (g : Game) (deckId : String) : Nat :=
  (mapGet g.deckQuantities deckId).getD 0

/-- The method `isDeckEmpty`. -/
def isDeckEmpty (g : Game) (deckId : String) : Bool :=
  getDeckQuantity g deckId == 0

/-- The method `decrementDeck` (game.js 666-674), with its boolean result. -/
def decrementDeck (g : Game) (deckId : String) : Game × Bool :=
  match mapGet g.deckQuantities deckId with
  | some (n + 1) => ({ g with deckQuantities := mapSet g.deckQuantities deckId n }, true)
  | _ => (g, false)

/-- The read `this.cardQuantities[deckId] || {}`. -/
def cardQtysOf (g : Game) (deckId : String) : List (String × Nat) :=
  (mapGet g.cardQuantities deckId).getD []

/-- The pool `availableCards` of `drawCardFromDeck` (game.js 2854-2862): each card definition
repeated by its remaining count. -/
def availableCards (cards : List CardDef) (cardQtys : List (String × Nat)) : List CardDef :=
  cards.flatMap (fun card => List.replicate ((mapGet cardQtys card.id).getD 0) card)

/-- The hard-coded cards `drawCardFromDeck` falls back to when `decksData` has no such deck
(game.js 2904-2940), as (name, type, effect). -/
def deckCards : List (String × List (String × String × String)) :=
  [("verde", [("Poção de Cura", "item", "+2 HP"), ("Tocha", "item", "Ilumina área"),
      ("Corda", "item", "Útil para exploração"), ("Comida", "item", "Recupera energia"),
      ("Mapa Parcial", "informação", "Revela caminho")]),
   ("amarelo", [("Arma Comum", "equipamento", "+1 Dano"),
      ("Armadura Leve", "equipamento", "+1 Defesa"), ("Poção Média", "item", "+4 HP"),
      ("Grimório Básico", "item", "+1 Magia"), ("Amuleto", "equipamento", "+1 Sorte")]),
   ("laranja", [("Arma Rara", "equipamento", "+2 Dano"),
      ("Armadura Média", "equipamento", "+2 Defesa"), ("Poção Grande", "item", "+6 HP"),
      ("Pergaminho Mágico", "magia", "Feitiço único"),
      ("Talismã", "equipamento", "+2 Resistência")]),
   ("russo", [("Arma Épica", "equipamento", "+3 Dano"),
      ("Armadura Pesada", "equipamento", "+3 Defesa"),
      ("Elixir Raro", "item", "+8 HP e +2 Energia"),
      ("Livro Antigo", "conhecimento", "Habilidade especial"),
      ("Relíquia", "equipamento", "Poder único")]),
   ("personagens", [("Aliado Misterioso", "personagem", "NPC ajuda em combate"),
      ("Mentor", "personagem", "+1 XP permanente"),
      ("Comerciante", "personagem", "Vende itens raros"),
      ("Informante", "personagem", "Revela segredos"),
      ("Guardião", "personagem", "Proteção especial")])]

/-- A card of the hard-coded table: it has no `id`, `mounted`, `mountingProgress` or
`mounting` key (`mounted` is read as false). -/
def hardcodedCard (c : String × String × String) (deckName : String) : Card :=
  { id := none, name := c.1, type := c.2.1, effect := c.2.2, deck := deckName, deckId := none,
    mounted := false, mountingProgress := none, mounting := none, mountingAbsent := true }

/-- The card object built by `drawCardFromDeck` for the definition `cardData`
(game.js 2875-2900).  The two calls of `window.i18n.get` come first: either raises a
`TypeError` when its key (`nameKey`, `descriptionKey`) is absent, and the result is then
`none`. -/
def makeCard (env : Env) (cardData : CardDef) (deckId deckName : String) : Option Card :=
  match cardData.nameKey, cardData.descriptionKey with
  | some nameKey, some descriptionKey =>
    some
      { id := some cardData.id
        name := jsOrString (some (env.i18n nameKey)) cardData.id
        type := jsOrString cardData.type "item"
        effect := jsOrString (some (env.i18n descriptionKey)) "Sem descrição"
        deck := deckName
        deckId := some deckId
        mounted := false
        mountingProgress := some 0
        mounting := cardData.requiredTalents.map (fun rt => { requiredTalents := some rt }) }
  | _, _ => none

/-- The card returned for a deck without card definitions (game.js 2843-2850): it has no
`id`, `deckId` or `mountingProgress` key. -/
def mysteryCard (deckName : String) : Card :=
  { id := none, name := "Carta Misteriosa", type := "item", effect := "Efeito desconhecido",
    deck := deckName, deckId := none, mounted := false, mountingProgress := none,
    mounting := none }

/-- Outcome of a call of `drawCardFromDeck`. -/
inductive Drawn where
  /-- The call returned `card`; `none` is the value `null`. -/
  | returned (card : Option Card)
  /-- The call raised a `TypeError`. -/
  | raised
  deriving DecidableEq, Repr

/-- The method `drawCardFromDeck` (game.js 2835-2947).  `rnd` stands for the random source:
the index `Math.floor(Math.random() * n)` ranges over `0 .. n-1` and is taken as `rnd % n`.
The count of the picked card is lowered (line 2870) before the card object is built, so a
call that raises there leaves the lowered count behind. -/
def drawCardFromDeck (env : Env) (g : Game) (deckId deckName : String) (rnd : Nat) :
    Game × Drawn :=
  match mapGet (g.decksData.getD []) deckId with
  | some deckData =>
    let cards := deckData.cards.getD []
    if cards.length = 0 then
      (g, .returned (some (mysteryCard deckName)))
    else
      let cardQtys := cardQtysOf g deckId
      let pool := availableCards cards cardQtys
      match pool[rnd % pool.length]? with
      | none => (g, .returned none)
      | some cardData =>
        let g1 :=
          match mapGet cardQtys cardData.id with
          | some (n + 1) =>
            { g with cardQuantities :=
                mapSet g.cardQuantities deckId (mapSet cardQtys cardData.id n) }
          | _ => g
        match makeCard env cardData deckId deckName with
        | some card => (g1, .returned (some card))
        | none => (g1, .raised)
  | none =>
    let cards := ((mapGet deckCards deckId).getD ((mapGet deckCards "verde").getD []))
    match cards[rnd % cards.length]? with
    | some c => (g, .returned (some (hardcodedCard c deckName)))
    | none => (g, .returned none)

/-- Replace the player at `idx`. -/
def setPlayer (g : Game) (idx : Nat) (p : Player) : Game :=
  { g with players := g.players.set idx p }

/-- The method `selectDeck` (game.js 2254-2299).  When `drawCardFromDeck` raises, the
method ends there: the deck total is not lowered and no card is pushed.  A `null` card is
pushed and the next statement, which reads `card.name`, throws: the main action is then not
marked as used. -/
def selectDeck (env : Env) (g : Game) (deckId deckName : String) (rnd : Nat) : Game :=
  match currentPlayer g with
  | none => g
  | some cur =>
    if isDeckEmpty g deckId then g
    else
      let drawn := drawCardFromDeck env g deckId deckName rnd
      match drawn.2 with
      | .raised => drawn.1
      | .returned card =>
        let dec := decrementDeck drawn.1 deckId
        if dec.2 = false then dec.1
        else
          let g2 := setPlayer dec.1 g.currentPlayerIndex
            { cur with cards := some (cur.cards.getD [] ++ [card]) }
          match card with
          | none => g2
          | some _ =>
            { g2 with currentTurnActions := { g2.currentTurnActions with mainActionUsed := true } }

/-- Sum of the remaining counts of a deck's cards. -/
def qtySum (qtys : List (String × Nat)) : Nat :=
  (qtys.map Prod.snd).sum

/-- A run of draws: each item is (deck id, deck name, random value). -/
def drawAll (env : Env) (g : Game) : List (String × String × Nat) → Game
  | [] => g
  | d :: rest => drawAll env (selectDeck env g d.1 d.2.1 d.2.2) rest

/-- The card definition carries both translation keys, `nameKey` and `descriptionKey`. -/
def hasNameKeys (c : CardDef) : Bool :=
  c.nameKey.isSome && c.descriptionKey.isSome

/-- Consistency of the counters of deck `deckId`: the total is the sum of the per-card
counts, the per-card map has one entry per key, every key is a card of the deck, and the
cards of the deck carry their translation keys. -/
structure DeckOk (g : Game) (deckId : String) : Prop where
  total : getDeckQuantity g deckId = qtySum (cardQtysOf g deckId)
  keys : ((cardQtysOf g deckId).map Prod.fst).Nodup
  known : ∀ k, k ∈ (cardQtysOf g deckId).map Prod.fst →
    ∃ deck, mapGet (g.decksData.getD []) deckId = some deck ∧
      ∃ c ∈ deck.cards.getD [], c.id = k
  named : ∀ deck, mapGet (g.decksData.getD []) deckId = some deck →
    ∀ c ∈ deck.cards.getD [], hasNameKeys c = true

/-- The cards of the current player (`[]` when there is no player or no `cards` key). -/
def playerCards (g : Game) : List (Option Card) :=
  ((currentPlayer g).bind (fun p => p.cards)).getD []

/-- Number of cards with id `k` in an inventory. -/
def countId (k : String) (cards : List (Option Card)) : Nat :=
  cards.countP (fun c => decide (c.bind (fun x => x.id) = some k))

/-! ## Turn and movement state machine -/

/-- The method `startMovementPhase` (game.js 1765-1782). -/
def startMovementPhase (g : Game) : Game :=
  match currentPlayer g with
  | none => g
  | some _ =>
    if g.currentTurnActions.movementUsed = false then
      calculateReachableTiles { g with isMoving := true, selectedTile := none }
    else g

/-- The method `startMovementAction` (game.js 1784-1814). -/
def startMovementAction (g : Game) : Game :=
  match currentPlayer g with
  | none => g
  | some _ =>
    if g.currentTurnActions.movementUsed = true then g
    else if g.gameStarted = false then g
    else calculateReachableTiles { g with isMoving := true, selectedTile := none }

/-- The method `finishMove` (game.js 2004-2018). -/
def finishMove (g : Game) : Game :=
  { g with isMoving := false, selectedTile := none, reachableTiles := [] }

/-- The method `onTileClick` (game.js 1911-1951); the awaited save of the position is
network output and the handler is taken as one step. -/
def onTileClick (g : Game) (tileId : Tile) : Game :=
  if g.isMoving = false then g
  else if (mapGet g.reachableTiles tileId).isNone then g
  else
    match currentPlayer g with
    | none => g
    | some cur =>
      finishMove
        { setPlayer g g.currentPlayerIndex { cur with position := tileId } with
          currentTurnActions := { g.currentTurnActions with movementUsed := true } }

/-- The loop of `processAutoMounting` (game.js 2790-2794) reads `card.mounting` of every
entry: it throws on a `null` entry, and changes nothing otherwise. -/
def processAutoMountingThrows (p : Player) : Bool :=
  match p.cards with
  | none => false
  | some cards => cards.any (fun c => c.isNone)

/-- The method `nextTurn` (game.js 2046-2063).  When `processAutoMounting` throws, the
rest of the method (the start of the movement phase) does not run. -/
def nextTurn (g : Game) : Game :=
  let g1 := { g with currentPlayerIndex := (g.currentPlayerIndex + 1) % g.players.length }
  match currentPlayer g1 with
  | none => g1
  | some p => if processAutoMountingThrows p then g1 else startMovementPhase g1

/-- The method `endTurn` (game.js 2020-2044). -/
def endTurn (g : Game) : Game :=
  if g.gameStarted = false then g
  else if g.players.length = 0 then g
  else nextTurn { g with currentTurnActions := freshTurnActions }

/-- A call of one of the three movement entry points. -/
inductive MoveOp where
  | startMovementPhase
  | startMovementAction
  | onTileClick (tileId : Tile)
  deriving DecidableEq, Repr

/-- Run one movement entry point. -/
def stepMove (g : Game) : MoveOp → Game
  | .startMovementPhase => startMovementPhase g
  | .startMovementAction => startMovementAction g
  | .onTileClick tileId => onTileClick g tileId

/-- Run a sequence of movement entry points. -/
def runMoves (g : Game) : List MoveOp → Game
  | [] => g
  | op :: rest => runMoves (stepMove g op) rest

/-! ## Mounting engine -/

/-- The expression `x || dflt` on a number that may be `undefined`: 0 is falsy. -/
def jsOrNat (x : Option Nat) (dflt : Nat) : Nat :=
  match x with
  | some (n + 1) => n + 1
  | _ => dflt

/-- The expression `talent.levels[level] || talent.levels[0]` (game.js 2588). -/
def talentValue (levels : List Int) (level : Nat) : Option Int :=
  match levels[level]? with
  | some v => if v = 0 then levels[0]? else some v
  | none => levels[0]?

/-- The value `x || 0` of a level read: `undefined` gives 0, every other value is kept (an
own 0 is 0 either way, a string of that kind is not empty, a member is truthy). -/
def levelOrZero : Read Level → Level
  | .own level => level
  | .inherited => .member
  | .absent => .num 0

/-- The read `player.state?.talentLevels?.[talentId] || 0` (game.js 2585). -/
def playerLevel (player : Player) (talentId : String) : Level :=
  match player.state.bind (fun st => st.talentLevels) with
  | none => .num 0
  | some talentLevels => levelOrZero (objGet talentLevels talentId)

/-- The expression `talent.levels[level] || talent.levels[0]` (game.js 2588) on a level of
any kind: a level that is not a number indexes nothing. -/
def levelValue (levels : List Int) : Level → Option Int
  | .num n => talentValue levels n
  | _ => levels[0]?

/-- The method `getPlayerTalents` (game.js 2578-2592): an entry holds `level` and `value`
only, never `mountingRounds`.  For a talent with the id `__proto__` the write of line 2586
replaces the prototype of the table and stores no entry. -/
def getPlayerTalents (characters : List Character) (player : Player) : PlayerTalents :=
  match characters.find? (fun c => c.id == player.characterId) with
  | none => []
  | some character =>
    character.talents.foldl
      (fun talents talent =>
        objSet talents talent.id
          { level := playerLevel player talent.id
            value := levelValue talent.levels (playerLevel player talent.id)
            mountingRounds := none })
      []

/-- The candidate round count of one required talent (game.js 2606-2614): the entry's
`mountingRounds` when the table has the talent with that field defined, else
`defaultMountingRounds[talentId] || 5`.  The result `none` is a value that is not a number:
for a talent named like a member of `Object.prototype`, without an entry of its own in the
defaults, the read gives that member, which is truthy and so is not replaced by 5.  (An
inherited member read from `playerTalents` has no `mountingRounds`, so it leads to the
defaults like an absent entry.) -/
def candidateRounds (defaults : List (String × Nat)) (playerTalents : PlayerTalents)
    (talentId : String) : Option Nat :=
  match (mapGet playerTalents talentId).bind (fun info => info.mountingRounds) with
  | some rounds => some rounds
  | none =>
    match objGet defaults talentId with
    | .own (n + 1) => some (n + 1)
    | .own 0 => some 5
    | .inherited => none
    | .absent => some 5

/-- The variable `bestRounds` of `getBestMountingTalent`. -/
inductive BestRounds where
  | infinity
  | num (n : Nat)
  | nan
  deriving DecidableEq, Repr

/-- The update `bestRounds = Math.min(bestRounds, rounds)`: an argument that is not a
number gives `NaN`, and `NaN` stays. -/
def jsMin : BestRounds → Option Nat → BestRounds
  | _, none => .nan
  | .nan, some _ => .nan
  | .infinity, some rounds => .num rounds
  | .num best, some rounds => .num (min best rounds)

/-- The loop of `getBestMountingTalent` (game.js 2605-2618) on `bestRounds`. -/
def bestRoundsLoop (defaults : List (String × Nat)) (playerTalents : PlayerTalents) :
    List String → BestRounds → BestRounds
  | [], best => best
  | talentId :: rest, best =>
    bestRoundsLoop defaults playerTalents rest
      (jsMin best (candidateRounds defaults playerTalents talentId))

/-- The method `getBestMountingTalent` (game.js 2600-2621); the result `none` is `NaN`. -/
def getBestMountingTalent (defaults : List (String × Nat))
    (requiredTalents : Option (List String)) (playerTalents : PlayerTalents) : Option Nat :=
  match requiredTalents with
  | none => some 1
  | some talents =>
    if talents.length = 0 then some 1
    else
      match bestRoundsLoop defaults playerTalents talents .infinity with
      | .infinity => some 1
      | .num best => some best
      | .nan => none

/-- The method `calculateMountingRounds` (game.js 2623-2630); the result `none` is `NaN`. -/
def calculateMountingRounds (defaults : List (String × Nat)) (card : Card)
    (playerTalents : PlayerTalents) : Option Nat :=
  match card.mounting with
  | none => some 1
  | some mounting =>
    match mounting.requiredTalents with
    | none => some 1
    | some talents => getBestMountingTalent defaults (some talents) playerTalents

/-- The comparison `progress >= totalRounds`; it is false when `totalRounds` is `NaN`. -/
def jsGe (progress : Nat) : Option Nat → Bool
  | some totalRounds => decide (totalRounds ≤ progress)
  | none => false

/-- The method `isPlayerInLocation` (game.js 513-519): a position that is set and does not
start with `path`. -/
def isPlayerInLocation (player : Player) : Bool :=
  match player.position with
  | none => false
  | some pos => if pos = "" then false else !("path".toList.isPrefixOf pos.toList)

/-- Store `card` at `cardIndex` of the current player's cards. -/
def setCard (g : Game) (cur : Player) (cards : List (Option Card)) (cardIndex : Nat)
    (card : Card) : Game :=
  setPlayer g g.currentPlayerIndex { cur with cards := some (cards.set cardIndex (some card)) }

/-- The body of `startMounting` (game.js 2638-2717), with the table returned by
`this.getPlayerTalents(currentPlayer)` taken through `talentsOf`.  Indexing the cards of a
player without `cards` throws, which leaves the game as it was. -/
def startMountingWith (talentsOf : Player → PlayerTalents) (g : Game) (cardIndex : Nat) :
    Game :=
  match currentPlayer g with
  | none => g
  | some cur =>
    match cur.cards with
    | none => g
    | some cards =>
      match cards[cardIndex]? with
      | some (some card) =>
        if isPlayerInLocation cur = false then g
        else if card.mounted = true then g
        else if 0 < card.mountingProgress.getD 0 then g
        else if calculateMountingRounds g.defaultMountingRounds card (talentsOf cur)
            = some 0 then
          setCard g cur cards cardIndex { card with mounted := true, mountingProgress := some 0 }
        else if g.currentTurnActions.mainActionUsed = true then g
        else if jsGe 1 (calculateMountingRounds g.defaultMountingRounds card (talentsOf cur))
            = true then
          setCard { g with currentTurnActions :=
                      { g.currentTurnActions with mainActionUsed := true } }
            cur cards cardIndex { card with mounted := true, mountingProgress := some 0 }
        else
          setCard { g with currentTurnActions :=
                      { g.currentTurnActions with mainActionUsed := true } }
            cur cards cardIndex { card with mountingProgress := some 1 }
      | _ => g

/-- The body of `advanceMounting` (game.js 2719-2779), with the talents table taken through
`talentsOf`. -/
def advanceMountingWith (talentsOf : Player → PlayerTalents) (g : Game) (cardIndex : Nat) :
    Game :=
  match currentPlayer g with
  | none => g
  | some cur =>
    match cur.cards with
    | none => g
    | some cards =>
      match cards[cardIndex]? with
      | some (some card) =>
        if isPlayerInLocation cur = false then g
        else if g.currentTurnActions.mainActionUsed = true then g
        else if card.mounted = true then g
        else if card.mountingProgress.getD 0 = 0 then g
        else if jsGe (card.mountingProgress.getD 0 + 1)
            (calculateMountingRounds g.defaultMountingRounds card (talentsOf cur)) = true then
          setCard { g with currentTurnActions :=
                      { g.currentTurnActions with mainActionUsed := true } }
            cur cards cardIndex { card with mounted := true, mountingProgress := some 0 }
        else
          setCard { g with currentTurnActions :=
                      { g.currentTurnActions with mainActionUsed := true } }
            cur cards cardIndex
            { card with mountingProgress := some (card.mountingProgress.getD 0 + 1) }
      | _ => g

/-- The method `startMounting` as wired: the table comes from `getPlayerTalents`. -/
def startMounting (env : Env) (g : Game) (cardIndex : Nat) : Game :=
  startMountingWith (getPlayerTalents env.characters) g cardIndex

/-- The method `advanceMounting` as wired. -/
def advanceMounting (env : Env) (g : Game) (cardIndex : Nat) : Game :=
  advanceMountingWith (getPlayerTalents env.characters) g cardIndex

/-- A call that bears on mounting: the two mounting methods and the end of a turn. -/
inductive MountOp where
  | startMounting (cardIndex : Nat)
  | advanceMounting (cardIndex : Nat)
  | endTurn
  deriving DecidableEq, Repr

/-- Run one such call. -/
def stepMount (env : Env) (g : Game) : MountOp → Game
  | .startMounting cardIndex => startMounting env g cardIndex
  | .advanceMounting cardIndex => advanceMounting env g cardIndex
  | .endTurn => endTurn g

/-- Run a sequence of such calls. -/
def runMount (env : Env) (g : Game) : List MountOp → Game
  | [] => g
  | op :: rest => runMount env (stepMount env g op) rest

/-- The card in slot `cardIndex` of a player (`none` for no such slot or a `null` entry). -/
def cardSlot (p : Player) (cardIndex : Nat) : Option Card :=
  match p.cards with
  | none => none
  | some cards => (cards[cardIndex]?).join

/-- The card in slot `cardIndex` of player number `playerIndex`. -/
def cardAt (g : Game) (playerIndex cardIndex : Nat) : Option Card :=
  match g.players[playerIndex]? with
  | none => none
  | some p => cardSlot p cardIndex

/-- The round count `startMounting` and `advanceMounting` compute for card `c` of player `p`:
`calculateMountingRounds(card, getPlayerTalents(player))`; `none` is `NaN`. -/
def roundsRequired (env : Env) (g : Game) (p : Player) (c : Card) : Option Nat :=
  calculateMountingRounds g.defaultMountingRounds c (getPlayerTalents env.characters p)

/-- What one mounting call may do to a card when `rounds` rounds are required: nothing, or
(on a card not yet mounted) complete it, resetting the stored progress to 0, when the
progress plus one reaches `rounds`, or else add one to the progress. -/
def StepLaw (rounds : Option Nat) (c c1 : Card) : Prop :=
  c1 = c ∨ (c.mounted = false ∧
    ((jsGe (c.mountingProgress.getD 0 + 1) rounds = true ∧
        c1 = { c with mounted := true, mountingProgress := some 0 }) ∨
     (jsGe (c.mountingProgress.getD 0 + 1) rounds = false ∧
        c1 = { c with mountingProgress := some (c.mountingProgress.getD 0 + 1) })))

/-- Relation between the game before and after a call: every player keeps its slot,
character and state, and every card changes as `StepLaw` allows. -/
def MountView (rounds : Player → Card → Option Nat) (g g1 : Game) : Prop :=
  ∀ (pi : Nat) (p : Player), g.players[pi]? = some p →
    ∃ p1, g1.players[pi]? = some p1 ∧
      p1.characterId = p.characterId ∧ p1.state = p.state ∧
      ∀ ci c, cardSlot p ci = some c →
        ∃ c1, cardSlot p1 ci = some c1 ∧ StepLaw (rounds p c) c c1

/-- Invariant of a run of mounting calls and turn ends for the card in slot `ci` of player
number `pi`, when `rounds` rounds are required: the player keeps the character and state of
`p0`, the card keeps the mounting requirements of `c0`, and its stored progress stays below
`rounds`. -/
def MountInv (env : Env) (defaults : List (String × Nat)) (p0 : Player) (c0 : Card)
    (rounds pi ci : Nat) (g : Game) : Prop :=
  g.defaultMountingRounds = defaults ∧
  calculateMountingRounds defaults c0 (getPlayerTalents env.characters p0) = some rounds ∧
  ∃ p c, g.players[pi]? = some p ∧ p.characterId = p0.characterId ∧ p.state = p0.state ∧
    cardSlot p ci = some c ∧ c.mounting = c0.mounting ∧
    c.mountingProgress.getD 0 < rounds

/-! ## Player registry and synchronization reconciler -/

/-- The room row delivered with `roomUpdated`; a `none` field is `null` or absent. -/
structure RoomRow where
  current_player_index : Option Nat
  current_turn_actions : Option TurnActions
  deck_quantities : Option (List (String × Nat))
  card_quantities : Option (List (String × List (String × Nat)))
  deriving DecidableEq, Repr

/-- The object `playerData.inventory`. -/
structure Inventory where
  cards : Option (List (Option Card))
  deriving DecidableEq, Repr

/-- The player object delivered with `playerAdded` and `playerUpdated`
(supabaseManager.js `dbPlayerToGamePlayer`, or the data of a `playerAdded` broadcast). -/
structure PlayerData where
  id : String
  name : String
  characterId : String
  color : Option Nat
  position : Option String
  state : Option PlayerState
  cards : Option (List (Option Card))
  inventory : Option Inventory
  deriving DecidableEq, Repr

/-- The data of a `movementConfirmed` broadcast, with the keys either side uses. -/
structure MovementData where
  playerId : String
  newPosition : Option String
  tileId : Option String
  deriving DecidableEq, Repr

/-- The data `SupabaseManager.confirmMove(tileId, playerId)` broadcasts
(supabaseManager.js 653-655): `{ tileId, playerId }`. -/
def confirmMove (tileId playerId : String) : MovementData :=
  { playerId := playerId, newPosition := none, tileId := some tileId }

/-- The state object without any key. -/
def emptyState : PlayerState :=
  { characterId := none, currentHealth := none, maxHealth := none, movement := none,
    talentLevels := none, effects := none }

/-- The spread `{ ...player.state, ...patch }`: a key of `patch` wins, an absent key keeps
the old value. -/
def mergeState (old patch : Option PlayerState) : PlayerState :=
  { characterId := (patch.getD emptyState).characterId <|> (old.getD emptyState).characterId
    currentHealth := (patch.getD emptyState).currentHealth <|> (old.getD emptyState).currentHealth
    maxHealth := (patch.getD emptyState).maxHealth <|> (old.getD emptyState).maxHealth
    movement := (patch.getD emptyState).movement <|> (old.getD emptyState).movement
    talentLevels := (patch.getD emptyState).talentLevels <|> (old.getD emptyState).talentLevels
    effects := (patch.getD emptyState).effects <|> (old.getD emptyState).effects }

/-- Mutation of the player returned by `this.players.find(p => p.id === playerId)`: the first
player with that id is replaced by `f` of it. -/
def updateFirst (playerId : String) (f : Player → Player) : List Player → List Player
  | [] => []
  | p :: rest => if p.id = playerId then f p :: rest else p :: updateFirst playerId f rest

/-- The call `this.players.findIndex(p => p.id === playerId)`; `none` is `-1`. -/
def findIndex (playerId : String) : List Player → Option Nat
  | [] => none
  | p :: rest => if p.id = playerId then some 0 else (findIndex playerId rest).map (· + 1)

/-- The method `isLocalPlayer` (game.js 498-500). -/
def isLocalPlayer (g : Game) (playerId : String) : Bool :=
  g.localPlayerId == some playerId

/-- The method `isMyTurn` (game.js 502-511). -/
def isMyTurn (g : Game) : Bool :=
  if g.isMultiplayer = false then true
  else
    match currentPlayer g with
    | none => false
    | some p => isLocalPlayer g p.id

/-- The method `addRemotePlayer` (game.js 384-404). -/
def addRemotePlayer (g : Game) (playerData : PlayerData) : Game :=
  { g with players := g.players ++
      [{ id := playerData.id, name := playerData.name, characterId := playerData.characterId,
         color := playerData.color, position := some (jsOrString playerData.position "path001"),
         state := playerData.state, cards := none }] }

/-- The method `removePlayerById` (game.js 406-429). -/
def removePlayerById (g : Game) (playerId : String) : Game :=
  match findIndex playerId g.players with
  | none => g
  | some playerIndex =>
    { g with
      players := g.players.eraseIdx playerIndex
      currentPlayerIndex :=
        if g.currentPlayerIndex ≥ (g.players.eraseIdx playerIndex).length then 0
        else g.currentPlayerIndex }

/-- The method `clearHighlights` (game.js 455-462). -/
def clearHighlights (g : Game) : Game :=
  { g with isMoving := false, selectedTile := none, reachableTiles := [] }

/-- The `roomUpdated` handler (game.js 142-162). -/
def onRoomUpdated (g : Game) (room : RoomRow) : Game :=
  let g1 := { g with
    currentPlayerIndex := room.current_player_index.getD 0
    currentTurnActions := room.current_turn_actions.getD freshTurnActions }
  let g2 := match room.deck_quantities with
    | some q => { g1 with deckQuantities := q }
    | none => g1
  match room.card_quantities with
  | some q => { g2 with cardQuantities := q }
  | none => g2

/-- The `playerAdded` handler (game.js 165-170). -/
def onPlayerAdded (g : Game) (player : PlayerData) : Game :=
  if g.players.any (fun p => p.id == player.id) then g else addRemotePlayer g player

/-- What the `playerUpdated` handler does to the player it found (game.js 176-193). -/
def applyPlayerData (playerData : PlayerData) (player : Player) : Player :=
  let p1 := match playerData.position with
    | some pos =>
      if pos ≠ "" ∧ some pos ≠ player.position then { player with position := some pos }
      else player
    | none => player
  let p2 := match playerData.state with
    | some st => { p1 with state := some (mergeState p1.state (some st)) }
    | none => p1
  let p3 := match playerData.cards with
    | some cards => { p2 with cards := some cards }
    | none => p2
  match playerData.inventory with
  | some inventory => { p3 with cards := some (inventory.cards.getD []) }
  | none => p3

/-- The `playerUpdated` handler (game.js 173-201). -/
def onPlayerUpdated (g : Game) (playerData : PlayerData) : Game :=
  { g with players := updateFirst playerData.id (applyPlayerData playerData) g.players }

/-- The `movementConfirmed` handler (game.js 224-235): it reads `data.newPosition`. -/
def onMovementConfirmed (g : Game) (data : MovementData) : Game :=
  { g with players :=
      updateFirst data.playerId (fun p => { p with position := data.newPosition }) g.players }

/-- The `mainActionExecuted` handler (game.js 245-252). -/
def onMainActionExecuted (g : Game) : Game :=
  { g with currentTurnActions := { g.currentTurnActions with mainActionUsed := true } }

/-- The `turnEnded` handler (game.js 263-288). -/
def onTurnEnded (g : Game) (currentPlayerIndex : Nat) : Game :=
  let g1 := clearHighlights
    { g with currentPlayerIndex := currentPlayerIndex, currentTurnActions := freshTurnActions }
  match currentPlayer g1 with
  | none => g1
  | some p => if isLocalPlayer g1 p.id then startMovementPhase g1 else g1

/-- The `playerStateUpdated` handler (game.js 291-300). -/
def onPlayerStateUpdated (g : Game) (playerId : String) (state : Option PlayerState) : Game :=
  { g with players :=
      (updateFirst playerId (fun p => { p with state := some (mergeState p.state state) })
        g.players) }

/-- The remote events whose handlers change the registry. -/
inductive RemoteEvent where
  | roomUpdated (room : RoomRow)
  | playerAdded (player : PlayerData)
  | playerUpdated (playerData : PlayerData)
  | playerRemoved (playerId : String)
  | movementConfirmed (data : MovementData)
  | mainActionExecuted (playerId action : String)
  | turnEnded (currentPlayerIndex : Nat)
  | playerStateUpdated (playerId : String) (state : Option PlayerState)
  deriving DecidableEq, Repr

/-- Run the handler of a remote event. -/
def applyEvent (g : Game) : RemoteEvent → Game
  | .roomUpdated room => onRoomUpdated g room
  | .playerAdded player => onPlayerAdded g player
  | .playerUpdated playerData => onPlayerUpdated g playerData
  | .playerRemoved playerId => removePlayerById g playerId
  | .movementConfirmed data => onMovementConfirmed g data
  | .mainActionExecuted _ _ => onMainActionExecuted g
  | .turnEnded currentPlayerIndex => onTurnEnded g currentPlayerIndex
  | .playerStateUpdated playerId state => onPlayerStateUpdated g playerId state

/-- The game with other values of the two fields `isMyTurn` reads besides the current
player: `isMultiplayer` and `localPlayerId`. -/
def setLocal (g : Game) (isMultiplayer : Bool) (localPlayerId : Option String) : Game :=
  { g with isMultiplayer := isMultiplayer, localPlayerId := localPlayerId }

/-! ## Event bus of the synchronization layer (supabaseManager.js) -/

/-- A value carried by a broadcast: a JSON value, or `undefined`. -/
inductive Js where
  | undefined
  | null
  | bool (b : Bool)
  | num (n : Int)
  | str (s : String)
  | arr (items : List Js)
  | obj (fields : List (String × Js))

/-- The payload of a `game_action` broadcast, as `broadcastAction` builds it
(supabaseManager.js 572-585); the `timestamp` is not read by the receiver. -/
structure Action where
  type : Js
  data : Js
  senderId : Js

/-- The test `action.senderId === this.playerId`; `this.playerId` is `null` before
`init` and a string afterwards. -/
def isOwnAction (senderId : Js) (playerId : Option String) : Bool :=
  match senderId, playerId with
  | .str s, some p => s == p
  | .null, none => true
  | _, _ => false

/-- The read `action.data.playerId`: `none` is the `TypeError` raised when `data` is
`undefined` or `null`; a value without that key reads `undefined`. -/
def dataPlayerId : Js → Option Js
  | .undefined => none
  | .null => none
  | .obj fields => some ((mapGet fields "playerId").getD .undefined)
  | _ => some .undefined

/-- The table `eventHandlers`: event name to the handlers registered with `on`, each a
change of the listener state `σ` by the event's data. -/
abbrev EventHandlers (σ : Type) := List (String × List (Js → σ → σ))

/-- The method `emit` (supabaseManager.js 707-711). -/
def emit {σ : Type} (eventHandlers : EventHandlers σ) (event : String) (data : Js) (s : σ) : σ :=
  match mapGet eventHandlers event with
  | some handlers => handlers.foldl (fun acc handler => handler data acc) s
  | none => s

/-- The method `handleGameAction` (supabaseManager.js 524-568); `none` is the `TypeError`
of `action.data.playerId`. -/
def handleGameAction {σ : Type} (eventHandlers : EventHandlers σ) (playerId : Option String)
    (action : Action) (s : σ) : Option σ :=
  if isOwnAction action.senderId playerId then some s
  else
    match action.type with
    | .str type =>
      if type = "playerAdded" then some (emit eventHandlers "playerAdded" action.data s)
      else if type = "playerRemoved" then
        (dataPlayerId action.data).map (fun playerId => emit eventHandlers "playerRemoved" playerId s)
      else if type = "movementStarted" then
        some (emit eventHandlers "movementStarted" action.data s)
      else if type = "movementConfirmed" then
        some (emit eventHandlers "movementConfirmed" action.data s)
      else if type = "movementCancelled" then
        some (emit eventHandlers "movementCancelled" action.data s)
      else if type = "mainActionExecuted" then
        some (emit eventHandlers "mainActionExecuted" action.data s)
      else if type = "bonusActionExecuted" then
        some (emit eventHandlers "bonusActionExecuted" action.data s)
      else if type = "turnEnded" then some (emit eventHandlers "turnEnded" action.data s)
      else if type = "playerStateUpdated" then
        some (emit eventHandlers "playerStateUpdated" action.data s)
      else if type = "gameStarted" then some (emit eventHandlers "gameStarted" action.data s)
      else if type = "gameReset" then some (emit eventHandlers "gameReset" .undefined s)
      else if type = "chatMessage" then some (emit eventHandlers "chatMessage" action.data s)
      else some s
    | _ => some s

/-- The action types `handleGameAction` knows. -/
def knownActionTypes : List String :=
  ["playerAdded", "playerRemoved", "movementStarted", "movementConfirmed",
   "movementCancelled", "mainActionExecuted", "bonusActionExecuted", "turnEnded",
   "playerStateUpdated", "gameStarted", "gameReset", "chatMessage"]

/-- A row of the table `room_players`, with the columns `dbPlayerToGamePlayer` reads. -/
structure DbPlayer where
  player_id : String
  player_name : String
  character_id : String
  color : Option Nat
  position : Option String
  player_state : Option PlayerState
  inventory : Option Inventory
  deriving DecidableEq, Repr

/-- The method `dbPlayerToGamePlayer` (supabaseManager.js 494-507): `state`, `cards` and
`inventory` are always set.  The keys `odPlayerId` and `turnOrder`, which no handler of the
game reads, are left out. -/
def dbPlayerToGamePlayer (dbPlayer : DbPlayer) : PlayerData :=
  { id := dbPlayer.player_id
    name := dbPlayer.player_name
    characterId := dbPlayer.character_id
    color := dbPlayer.color
    position := dbPlayer.position
    state := some (dbPlayer.player_state.getD emptyState)
    cards := some ((dbPlayer.inventory.bind (fun inventory => inventory.cards)).getD [])
    inventory := some (dbPlayer.inventory.getD { cards := some [] }) }

/-- The argument of `syncGameState`: the server's view of the game. -/
structure ServerState where
  currentPlayerIndex : Nat
  gameStarted : Bool
  currentTurnActions : TurnActions
  players : List PlayerData
  deriving DecidableEq, Repr

/-- One round of the `state.players.forEach` loop of `syncGameState` (game.js 352-361): a
player not yet known is added, a known one takes the server's position and state. -/
def syncPlayer (g : Game) (serverPlayer : PlayerData) : Game :=
  if g.players.any (fun p => p.id == serverPlayer.id) then
    { g with players :=
        (updateFirst serverPlayer.id
          (fun p => { p with position := serverPlayer.position, state := serverPlayer.state })
          g.players) }
  else addRemotePlayer g serverPlayer

/-- The method `syncGameState` (game.js 345-382). -/
def syncGameState (g : Game) (state : ServerState) : Game :=
  let g1 := state.players.foldl syncPlayer
    { g with
      currentPlayerIndex := state.currentPlayerIndex
      gameStarted := state.gameStarted
      currentTurnActions := state.currentTurnActions }
  { g1 with
    players := g1.players.filter (fun p => state.players.any (fun sp => sp.id == p.id)) }

/-- The object `supabaseManager.currentRoom`: the room row and its `status`. -/
structure Room extends RoomRow where
  status : Option String
  deriving DecidableEq, Repr

/-- The player `loadGameState` re-creates from a row (game.js 3603-3629).  `tileCenters`
holds the keys of `this.tileCenters`; a set position that is no such key is reset to
`path001`.  Positions are strings here, so the migration of numeric positions (also to
`path001`) has no counterpart. -/
def loadedPlayer (tileCenters : List String) (dbPlayer : DbPlayer) : Player :=
  let p := dbPlayerToGamePlayer dbPlayer
  { id := p.id, name := p.name, characterId := p.characterId, color := p.color,
    position :=
      match p.position with
      | some position =>
        if position ≠ "" ∧ position ∉ tileCenters then some "path001" else some position
      | none => none
    state := p.state
    cards := some (p.cards.getD []) }

/-- The method `loadGameState` (game.js 3571-3685) on the registry: `connected` is
`supabaseManager.isConnected()`, `currentRoom` the joined room and `dbPlayers` the rows
`getPlayersInRoom()` resolves to. -/
def loadGameState (tileCenters : List String) (connected : Bool) (currentRoom : Option Room)
    (dbPlayers : List DbPlayer) (g : Game) : Game :=
  if connected = false then g
  else
    match currentRoom with
    | none => g
    | some room =>
      let g1 := { g with
        currentPlayerIndex := room.current_player_index.getD 0
        currentTurnActions := room.current_turn_actions.getD freshTurnActions
        gameStarted := room.status == some "playing" }
      let g2 := match room.deck_quantities with
        | some q => { g1 with deckQuantities := q }
        | none => g1
      let g3 := match room.card_quantities with
        | some q => { g2 with cardQuantities := q }
        | none => g2
      { g3 with players := g3.players ++ dbPlayers.map (loadedPlayer tileCenters) }

/-! ## Character state (characters.js)

In the numeric fields `currentHealth`, `maxHealth` and `movement` of a `PlayerState`,
`none` stands for a value that is not a number: `undefined`, or the `NaN` that arithmetic
on `undefined` gives.  Every comparison of the program is false on both. -/

/-- The index `Math.max(0, Math.min(level, talent.levels.length - 1))` of `getTalentValue`. -/
def clampedLevel (level length : Nat) : Nat :=
  Int.toNat (max 0 (min (level : Int) ((length : Int) - 1)))

/-- The method `getTalentValue` (characters.js 72-77): 0 for an unknown talent, and
`undefined` for a talent whose level list is empty or for a level that is not a number
(the clamped index is then `NaN`). -/
def getTalentValue (character : Character) (talentId : String) (level : Level) :
    Option Int :=
  match character.talents.find? (fun t => t.id == talentId) with
  | none => some 0
  | some talent =>
    match level with
    | .num n => talent.levels[clampedLevel n talent.levels.length]?
    | _ => none

/-- The method `getMaxTalentLevel` (characters.js 80-84). -/
def getMaxTalentLevel (character : Character) (talentId : String) : Int :=
  match character.talents.find? (fun t => t.id == talentId) with
  | none => 0
  | some talent => (talent.levels.length : Int) - 1

/-- The method `createPlayerState` (characters.js 87-106).  The write of line 91 stores
nothing for a talent with the id `__proto__`. -/
def createPlayerState (character : Character) : PlayerState :=
  { characterId := some character.id
    currentHealth := getTalentValue character "max_health" 0
    maxHealth := getTalentValue character "max_health" 0
    movement := getTalentValue character "movement" 0
    talentLevels :=
      some (character.talents.foldl (fun talentLevels talent => objSet talentLevels talent.id 0) [])
    effects := some [] }

/-- The sum `a + b` of two numeric fields. -/
def jsAdd (a b : Option Int) : Option Int :=
  match a, b with
  | some x, some y => some (x + y)
  | _, _ => none

/-- The difference `a - b` of two numeric fields. -/
def jsSub (a b : Option Int) : Option Int :=
  match a, b with
  | some x, some y => some (x - y)
  | _, _ => none

/-- The comparison `currentLevel >= maxLevel` (characters.js 113); it is false when the
level is not a number. -/
def levelGe (level : Level) (maxLevel : Int) : Bool :=
  match level with
  | .num n => decide ((n : Int) ≥ maxLevel)
  | _ => false

/-- The comparison `level <= maxLevel`; it is false when the level is not a number. -/
def levelLe (level : Level) (maxLevel : Int) : Bool :=
  match level with
  | .num n => decide ((n : Int) ≤ maxLevel)
  | _ => false

/-- The value `currentLevel + 1` (characters.js 117): the next number, or the string that
`+` makes of a member or of a string. -/
def nextLevel : Level → Level
  | .num n => .num (n + 1)
  | .text ones => .text (ones + 1)
  | .member => .text 1

/-- The method `upgradeTalent` (characters.js 109-130) with its boolean result; `none` is
the `TypeError` of reading `playerState.talentLevels[talentId]` when the state has no
`talentLevels`. -/
def upgradeTalent (playerState : PlayerState) (character : Character) (talentId : String) :
    Option (Bool × PlayerState) :=
  match playerState.talentLevels with
  | none => none
  | some talentLevels =>
    let maxLevel := getMaxTalentLevel character talentId
    let currentLevel := levelOrZero (objGet talentLevels talentId)
    if levelGe currentLevel maxLevel = true then some (false, playerState)
    else
      let upgraded :=
        { playerState with
          talentLevels := some (objSet talentLevels talentId (nextLevel currentLevel)) }
      if talentId = "max_health" then
        let newMaxHealth := getTalentValue character "max_health" (nextLevel currentLevel)
        let healthDiff := jsSub newMaxHealth playerState.maxHealth
        some (true, { upgraded with
          maxHealth := newMaxHealth
          currentHealth := jsAdd playerState.currentHealth healthDiff })
      else if talentId = "movement" then
        some (true, { upgraded with
          movement := getTalentValue character "movement" (nextLevel currentLevel) })
      else some (true, upgraded)

/-- The method `modifyHealth` (characters.js 139-145), as the state it leaves. -/
def modifyHealth (playerState : PlayerState) (amount : Int) : PlayerState :=
  { playerState with
    currentHealth :=
      match playerState.maxHealth, playerState.currentHealth with
      | some maxHealth, some currentHealth => some (max 0 (min maxHealth (currentHealth + amount)))
      | _, _ => none }

/-- A call that changes a player state. -/
inductive StateOp where
  | upgradeTalent (talentId : String)
  | modifyHealth (amount : Int)
  deriving DecidableEq, Repr

/-- Run a sequence of calls on a player state; `none` if one of them raises. -/
def runStateOps (character : Character) : PlayerState → List StateOp → Option PlayerState
  | s, [] => some s
  | s, .upgradeTalent talentId :: rest =>
    match upgradeTalent s character talentId with
    | none => none
    | some r => runStateOps character r.2 rest
  | s, .modifyHealth amount :: rest => runStateOps character (modifyHealth s amount) rest

/-- The stored level of a talent, as `getTalentValue` receives it: the read
`talentLevels[talentId]`, an absent level being the default 0 of the parameter. -/
def storedLevel (s : PlayerState) (talentId : String) : Level :=
  levelOrZero (objGet (s.talentLevels.getD []) talentId)

/-- The state has a level table, and `maxHealth` and `movement` are the talent values at
the stored levels. -/
def DerivedOk (character : Character) (s : PlayerState) : Prop :=
  s.talentLevels.isSome = true ∧
  s.maxHealth = getTalentValue character "max_health" (storedLevel s "max_health") ∧
  s.movement = getTalentValue character "movement" (storedLevel s "movement")

/-! ## Card grouping for display -/

/-- The status `groupCards` derives for a card (game.js 3035-3043). -/
def statusKey (card : Card) : String :=
  if card.mounting = none ∧ card.mountingAbsent = false then "ready"
  else if card.mounted = true then "mounted"
  else if 0 < card.mountingProgress.getD 0 then "mounting"
  else "unmounted"

/-- The text of `card.id` inside a template string: an absent id reads `undefined`. -/
def idText : Option String → String
  | some id => id
  | none => "undefined"

/-- The map key of `groupCards`: the template string that joins `card.id` and the status
with an underscore (game.js 3046). -/
def groupKey (card : Card) : String :=
  idText card.id ++ "_" ++ statusKey card

/-- A group built by `groupCards`. -/
structure CardGroup where
  cards : List Card
  indices : List Nat
  statusKey : String
  deriving DecidableEq, Repr

/-- One round of the `cards.forEach` loop of `groupCards` (game.js 3034-3058) on the map
`groups`. -/
def addToGroup (groups : List (String × CardGroup)) (card : Card) (index : Nat) :
    List (String × CardGroup) :=
  let grp := (mapGet groups (groupKey card)).getD
    { cards := [], indices := [], statusKey := statusKey card }
  mapSet groups (groupKey card)
    { grp with cards := grp.cards ++ [card], indices := grp.indices ++ [index] }

/-- The `cards.forEach` loop of `groupCards` from position `index` on; `none` is the
`TypeError` of reading `card.mounting` on a `null` entry. -/
def groupCardsLoop : List (Option Card) → Nat → List (String × CardGroup) →
    Option (List (String × CardGroup))
  | [], _, groups => some groups
  | none :: _, _, _ => none
  | some card :: rest, index, groups =>
    groupCardsLoop rest (index + 1) (addToGroup groups card index)

/-- The method `groupCards` (game.js 3031-3061): the groups in the order of their first
card. -/
def groupCards (cards : List (Option Card)) : Option (List CardGroup) :=
  (groupCardsLoop cards 0 []).map (fun groups => groups.map Prod.snd)

/-- The cards of `cards` with key `key`, each with its position counted from `index`. -/
def keyMembers (key : String) : List Card → Nat → List (Nat × Card)
  | [], _ => []
  | card :: rest, index =>
    if groupKey card = key then (index, card) :: keyMembers key rest (index + 1)
    else keyMembers key rest (index + 1)

/-- The group stored under a key once the cards `members` (with their positions) have
been pushed to the group `og` found there before; an absent group starts empty with the
status of the first card pushed. -/
def extendGroup (og : Option CardGroup) (members : List (Nat × Card)) : Option CardGroup :=
  match members with
  | [] => og
  | (_, card) :: _ =>
    some { cards := (og.getD { cards := [], indices := [], statusKey := statusKey card }).cards
             ++ members.map Prod.snd
           indices :=
             (og.getD { cards := [], indices := [], statusKey := statusKey card }).indices
             ++ members.map Prod.fst
           statusKey :=
             (og.getD { cards := [], indices := [], statusKey := statusKey card }).statusKey }

/-! ## Deck choice, bonus actions and setup -/

/-- An entry of the list returned by `getAvailableDecks`. -/
structure DeckChoice where
  id : String
  name : Option String
  color : Option String
  range : String
  quantity : Nat
  isEmpty : Bool
  deriving DecidableEq, Repr

/-- The table `deckMapping` of `getAvailableDecks` (game.js 2808-2814). -/
def deckMapping : List (String × String) :=
  [("verde", "Verde"), ("amarelo", "Amarelo"), ("laranja", "Laranja"), ("russo", "Russo"),
   ("personagens", "Personagens")]

/-- The entry `getAvailableDecks` pushes for a deck in range (game.js 2818-2828). -/
def deckChoice (g : Game) (key : String) (deck : Deck) : DeckChoice :=
  { id := key
    name := (mapGet deckMapping key) <|> deck.nameKey
    color := deck.color
    range := toString deck.minRoll
      ++ (if deck.minRoll ≠ deck.maxRoll then "-" ++ toString deck.maxRoll else "")
    quantity := getDeckQuantity g key
    isEmpty := getDeckQuantity g key == 0 }

/-- The loop over `Object.entries(this.decksData.decks)` of `getAvailableDecks`
(game.js 2816-2830). -/
def availableDecksLoop (g : Game) (result : Int) : List (String × Deck) → List DeckChoice
  | [] => []
  | (key, deck) :: rest =>
    if result ≥ deck.minRoll ∧ result ≤ deck.maxRoll then
      deckChoice g key deck :: availableDecksLoop g result rest
    else availableDecksLoop g result rest

/-- The method `getAvailableDecks` (game.js 2803-2833). -/
def getAvailableDecks (g : Game) (result : Int) : List DeckChoice :=
  match g.decksData with
  | none => []
  | some decks => availableDecksLoop g result decks

/-- The method `executeBonusAction` (game.js 3380-3403); `selected` is the value of the
element `bonusActionSelect`, `none` when the element is missing. -/
def executeBonusAction (g : Game) (selected : Option String) : Game :=
  match selected with
  | none => g
  | some action =>
    if action = "" then g
    else
      match currentPlayer g with
      | none => g
      | some _ =>
        if action ∈ g.currentTurnActions.bonusActions then g
        else
          { g with currentTurnActions :=
              { g.currentTurnActions with
                bonusActions := g.currentTurnActions.bonusActions ++ [action] } }

/-- A sequence of `executeBonusAction` calls with the given selections. -/
def runBonusActions (g : Game) (actions : List String) : Game :=
  actions.foldl (fun acc action => executeBonusAction acc (some action)) g

/-- The method `removePlayerFromSetup` (game.js 1463-1479) on the registry. -/
def removePlayerFromSetup (g : Game) (playerId : String) : Game :=
  { g with players := g.players.filter (fun p => p.id != playerId) }

/-- A player standing on `position` with movement budget `movement`. -/
def samplePlayer (id : String) (position : Tile) (movement : Int) : Player :=
  { id := id, name := id, characterId := "c-" ++ id, color := none, position := position,
    state := some { characterId := some ("c-" ++ id), currentHealth := some 5,
                    maxHealth := some 5, movement := some movement,
                    talentLevels := some [], effects := some [] },
    cards := some [] }

/-- The scenario graph `{A:[B], B:[A,C], C:[B]}` with one player on `A` and budget 2. -/
def lineGame : Game :=
  { newGame with
    players := [samplePlayer "p1" (some "A") 2]
    gameStarted := true
    connections := [("A", ["B"]), ("B", ["A", "C"]), ("C", ["B"])] }

/-- The graph `{A:[constructor, B], B:[A]}` with one player on `A` and budget 2: the tile
`constructor` has no adjacency list of its own. -/
def inheritedNameGame : Game :=
  { newGame with
    players := [samplePlayer "p1" (some "A") 2]
    gameStarted := true
    connections := [("A", ["constructor", "B"]), ("B", ["A"])] }

/-- A card definition with an id, a quantity and the two translation keys. -/
def cardDef (id : String) (quantity : Option Nat) : CardDef :=
  { id := id, quantity := quantity, requiredTalents := none, nameKey := some "cards.name",
    descriptionKey := some "cards.description", type := none }

/-- A card definition with an id and a quantity only: it has no `nameKey` and no
`descriptionKey`. -/
def namelessCard (id : String) (quantity : Option Nat) : CardDef :=
  { id := id, quantity := quantity, requiredTalents := none, nameKey := none,
    descriptionKey := none, type := none }

/-- A deck with roll range 1-20 and the given cards. -/
def deckOf (cards : List CardDef) : Deck :=
  { minRoll := 1, maxRoll := 20, cards := some cards, nameKey := none, color := none }

/-- Collaborators with no character and no translation loaded: the lookup returns the key
it is given. -/
def sampleEnv : Env :=
  { characters := [], i18n := fun key => key }

/-- A started one-player game whose only deck is `verde` with the given cards. -/
def deckGame (cards : List CardDef) : Game :=
  { newGame with
    players := [samplePlayer "p1" (some "ArthurHouse") 2]
    gameStarted := true
    decksData := some [("verde", deckOf cards)] }

/-- Scenario 2: deck `verde` with `x` (quantity 2) and `y` (quantity 1). -/
def verdeGame : Game :=
  deckGame [cardDef "x" (some 2), cardDef "y" (some 1)]

/-- A started one-player game whose only deck has the key `__proto__` and the card `x`
(quantity 2). -/
def protoDeckGame : Game :=
  { newGame with
    players := [samplePlayer "p1" (some "ArthurHouse") 2]
    gameStarted := true
    decksData := some [("__proto__", deckOf [cardDef "x" (some 2)])] }

/-- The deck of scenario 2 with card definitions that carry no translation key. -/
def namelessGame : Game :=
  deckGame [namelessCard "x" (some 2), namelessCard "y" (some 1)]

/-- `n` draws from `verde` with the given random values. -/
def verdeDraws (rnds : List Nat) : List (String × String × Nat) :=
  rnds.map (fun r => ("verde", "Verde", r))

/-- A started game with three players on the scenario graph; the second player is the
current one and has already used the movement and the main action. -/
def threePlayerGame : Game :=
  { lineGame with
    players := [samplePlayer "p1" (some "A") 2, samplePlayer "p2" (some "B") 1,
                samplePlayer "p3" (some "C") 3]
    currentPlayerIndex := 1
    currentTurnActions := { movementUsed := true, mainActionUsed := true, bonusActions := ["x"] } }

/-- The scenario graph after `startMovementPhase`: player `p1` on `A` may click `B` or `C`. -/
def movingGame : Game :=
  startMovementPhase lineGame

/-- A fresh card of deck `verde` that needs the given talents to be mounted. -/
def mountableCard (id : String) (requiredTalents : List String) : Card :=
  { id := some id, name := id, type := "item", effect := "Sem descrição", deck := "Verde",
    deckId := some "verde", mounted := false, mountingProgress := some 0,
    mounting := some { requiredTalents := some requiredTalents } }

/-- A started one-player game: the player stands on the location `ArthurHouse` and holds
one fresh card that requires `geografia` (default: 3 rounds). -/
def mountingGame : Game :=
  { newGame with
    players := [{ samplePlayer "p1" (some "ArthurHouse") 2 with
                  cards := some [some (mountableCard "radio" ["geografia"])] }]
    gameStarted := true }

/-- The mounting game with a card that requires the talent `constructor`, for which no
default round count is configured. -/
def inheritedTalentGame : Game :=
  { newGame with
    players := [{ samplePlayer "p1" (some "ArthurHouse") 2 with
                  cards := some [some (mountableCard "radio" ["constructor"])] }]
    gameStarted := true }

/-- A character with the talent `tecnologia`, whose values by level are 6, 5, 4 and 2. -/
def techCharacter : Character :=
  { id := "tech", talents := [{ id := "tecnologia", levels := [6, 5, 4, 2] }] }

/-- Collaborators that know the character `tech`. -/
def techEnv : Env :=
  { characters := [techCharacter], i18n := fun key => key }

/-- A player of the character `tech` who holds `tecnologia` at the given level. -/
def techPlayer (level : Nat) : Player :=
  { id := "p1", name := "p1", characterId := "tech", color := none,
    position := some "ArthurHouse",
    state := some { characterId := some "tech", currentHealth := some 5, maxHealth := some 5,
                    movement := some 2, talentLevels := some [("tecnologia", .num level)],
                    effects := some [] },
    cards := some [some (mountableCard "radio" ["tecnologia"])] }

/-- A talents table whose `geografia` entry grants `mountingRounds: 0`. -/
def zeroRoundTalents (_ : Player) : PlayerTalents :=
  [("geografia", { level := 1, value := some 1, mountingRounds := some 0 })]

/-- A registry of two players on the scenario graph; `p1` is the local player. -/
def twoPlayerGame : Game :=
  { lineGame with
    players := [samplePlayer "p1" (some "A") 2, samplePlayer "p2" (some "B") 1]
    isMultiplayer := true
    localPlayerId := some "p1" }

/-- A registry in which two entries carry the id `p1`. -/
def duplicateIdGame : Game :=
  { lineGame with
    players := [samplePlayer "p1" (some "A") 2, samplePlayer "p1" (some "B") 1] }

/-- The scenario deck after its three cards have been drawn. -/
def emptiedVerdeGame : Game :=
  drawAll sampleEnv (resetDeckQuantities verdeGame) (verdeDraws [0, 5, 1])

/-- A game whose deck `verde` defines the card `x` only, while the stored counters (as a
`roomUpdated` row may set them) hold one remaining card under the id `z`: the deck total
equals the sum of the counts. -/
def strangeCountGame : Game :=
  { deckGame [cardDef "x" (some 1)] with
    deckQuantities := [("verde", 1)]
    cardQuantities := [("verde", [("z", 1)])] }

/-- The mounting game with the player standing on the path tile `path001`. -/
def pathMountingGame : Game :=
  { newGame with
    players := [{ samplePlayer "p1" (some "path001") 2 with
                  cards := some [some (mountableCard "radio" ["geografia"])] }]
    gameStarted := true }

/-- The mounting game after `startMounting(0)` and the end of the turn: the card has
progress 1 of 3 and the main action is free again. -/
def startedMountingGame : Game :=
  runMount sampleEnv mountingGame [.startMounting 0, .endTurn]

/-- The two-player multiplayer game on the turn of `p2`, who is not the local player, with
the movement phase of `p2` started (as `nextTurn` does after the local player's
`endTurn`). -/
def otherTurnGame : Game :=
  startMovementPhase { twoPlayerGame with currentPlayerIndex := 1 }

/-- A listener on every known event that appends what it receives to a log. -/
def logHandlers : EventHandlers (List (String × Js)) :=
  knownActionTypes.map (fun event => (event, [fun data log => log ++ [(event, data)]]))

/-- The broadcast another client sends with `removePlayer("p2")`
(supabaseManager.js 640-642). -/
def removalAction : Action :=
  { type := .str "playerRemoved", data := .obj [("playerId", .str "p2")],
    senderId := .str "client-b" }

/-- An update for `p1` that carries neither position nor state nor cards, only an
`inventory` object without a `cards` key. -/
def inventoryOnlyUpdate : PlayerData :=
  { id := "p1", name := "p1", characterId := "c-p1", color := none, position := none,
    state := none, cards := none, inventory := some { cards := none } }

/-- An update for `p2` of the two-player game that carries a new position and the single
state key `currentHealth`. -/
def healthUpdate : PlayerData :=
  { id := "p2", name := "p2", characterId := "c-p2", color := none, position := some "C",
    state := some { emptyState with currentHealth := some 3 }, cards := none,
    inventory := none }

/-- A room in play whose row carries no counters. -/
def playingRoom : Room :=
  { current_player_index := some 0, current_turn_actions := none, deck_quantities := none,
    card_quantities := none, status := some "playing" }

/-- The row of player `id` standing on `path001`. -/
def playerRow (id : String) : DbPlayer :=
  { player_id := id, player_name := id, character_id := "c-" ++ id, color := none,
    position := some "path001", player_state := none, inventory := none }

/-- A character whose `max_health` grows 5, 6, 8 and whose `movement` grows 2, 3. -/
def scenarioCharacter : Character :=
  { id := "arthur",
    talents := [{ id := "max_health", levels := [5, 6, 8] }, { id := "movement", levels := [2, 3] }] }

/-- Raise `max_health`, lose 20 health, gain 3, then try to raise `movement` three times. -/
def scenarioOps : List StateOp :=
  [.upgradeTalent "max_health", .modifyHealth (-20), .modifyHealth 3,
   .upgradeTalent "movement", .upgradeTalent "movement", .upgradeTalent "movement"]

/-- A character whose `max_health` value drops from 5 to 3 at level 1. -/
def shrinkingCharacter : Character :=
  { id := "c1",
    talents := [{ id := "max_health", levels := [5, 3] }, { id := "movement", levels := [2] }] }

/-- A character with `max_health` 5 and a talent named `__proto__` that has one level. -/
def protoCharacter : Character :=
  { id := "c2",
    talents := [{ id := "max_health", levels := [5] }, { id := "__proto__", levels := [1] }] }

/-- A ready card (its `mounting` is `null`) with the given id. -/
def readyCard (id : Option String) : Card :=
  { id := id, name := "Carta", type := "item", effect := "Sem descrição", deck := "Verde",
    deckId := some "verde", mounted := false, mountingProgress := some 0, mounting := none }

/-- Four cards of one player: a fresh `radio`, a ready `mapa`, another fresh `radio` and
a `radio` with two rounds of progress. -/
def scenarioCards : List (Option Card) :=
  [some (mountableCard "radio" ["geografia"]), some (readyCard (some "mapa")),
   some (mountableCard "radio" ["geografia"]),
   some { mountableCard "radio" ["geografia"] with mountingProgress := some 2 }]

/-- Loop invariant of the search.  `done` lists the entries already dequeued, in order;
it is ghost state, the loop itself only holds `visited`, `queue` and `reachable`. -/
structure BfsInv {α : Type} [DecidableEq α] (adj : α → List α) (start : α) (m : Nat)
    (done : List (α × Nat)) (visited : List α) (queue reachable : List (α × Nat)) : Prop where
  nodup : ((done ++ queue).map Prod.fst).Nodup
  vis : ∀ t, t ∈ visited ↔ ∃ d, (t, d) ∈ done ∨ (t, d) ∈ queue
  sortedQ : queue.Pairwise (fun a b => a.2 ≤ b.2)
  walk : ∀ t d, ((t, d) ∈ done ∨ (t, d) ∈ queue) → t ∈ frontier adj start d ∧ d ≤ m
  closed : ∀ u du, (u, du) ∈ done → du < m → ∀ t ∈ adj u,
    ∃ d, ((t, d) ∈ done ∨ (t, d) ∈ queue) ∧ d ≤ du + 1
  near : ∀ t d, ((t, d) ∈ done ∨ (t, d) ∈ queue) → ∀ q ∈ queue, d ≤ q.2 + 1
  hasStart : (start, 0) ∈ done ∨ (start, 0) ∈ queue
  reach : ∀ t d, mapGet reachable t = some d ↔ ((t, d) ∈ done ∧ 0 < d)
  reachKeys : (reachable.map Prod.fst).Nodup

/-! # Theorems -/

section Maps

variable {κ β : Type} [DecidableEq κ]

theorem mapGet_mapSet_self (m : List (κ × β)) (k : κ) (v : β) :
    mapGet (mapSet m k v) k = some v := by
  induction m with
  | nil => simp [mapSet, mapGet]
  | cons e rest ih =>
    obtain ⟨k0, w⟩ := e
    by_cases h : k0 = k
    · simp [mapSet, mapGet, h]
    · simp [mapSet, mapGet, h, ih]

theorem mapGet_mapSet_of_ne (m : List (κ × β)) (k k1 : κ) (v : β) (hne : k ≠ k1) :
    mapGet (mapSet m k v) k1 = mapGet m k1 := by
  induction m with
  | nil => simp [mapSet, mapGet, hne]
  | cons e rest ih =>
    obtain ⟨k0, w⟩ := e
    by_cases h : k0 = k
    · subst h; simp [mapSet, mapGet, hne]
    · by_cases h1 : k0 = k1
      · subst h1; simp [mapSet, mapGet, h]
      · simp [mapSet, mapGet, h, h1, ih]

theorem mem_keys_mapSet (m : List (κ × β)) (k k1 : κ) (v : β) :
    k1 ∈ (mapSet m k v).map Prod.fst ↔ k1 = k ∨ k1 ∈ m.map Prod.fst := by
  induction m with
  | nil => simp [mapSet]
  | cons e rest ih =>
    obtain ⟨k0, w⟩ := e
    by_cases h : k0 = k
    · subst h; simp [mapSet]
    · simp only [mapSet, h, if_false, List.map_cons, List.mem_cons, ih]
      tauto

theorem mapSet_keys_nodup (m : List (κ × β)) (k : κ) (v : β)
    (hm : (m.map Prod.fst).Nodup) : ((mapSet m k v).map Prod.fst).Nodup := by
  induction m with
  | nil => simp [mapSet]
  | cons e rest ih =>
    obtain ⟨k0, w⟩ := e
    have hm1 := List.nodup_cons.1 hm
    by_cases h : k0 = k
    · subst h; simpa [mapSet] using hm
    · simp only [mapSet, h, if_false, List.map_cons]
      refine List.nodup_cons.2 ⟨?_, ih hm1.2⟩
      intro hmem
      rcases (mem_keys_mapSet rest k k0 v).1 hmem with h2 | h2
      · exact h h2
      · exact hm1.1 h2

theorem mapGet_eq_some_of_mem (m : List (κ × β)) (k : κ) (v : β)
    (hm : (m.map Prod.fst).Nodup) (h : (k, v) ∈ m) : mapGet m k = some v := by
  induction m with
  | nil => cases h
  | cons e rest ih =>
    obtain ⟨k0, w⟩ := e
    have hm1 := List.nodup_cons.1 hm
    rcases List.mem_cons.1 h with h1 | h1
    · cases h1; simp [mapGet]
    · have hne : k0 ≠ k := by
        intro hk; subst hk
        exact hm1.1 (List.mem_map.2 ⟨(k0, v), h1, rfl⟩)
      simp [mapGet, hne, ih hm1.2 h1]

theorem mem_of_mapGet_eq_some (m : List (κ × β)) (k : κ) (v : β)
    (h : mapGet m k = some v) : (k, v) ∈ m := by
  induction m with
  | nil => simp [mapGet] at h
  | cons e rest ih =>
    obtain ⟨k0, w⟩ := e
    by_cases hk : k0 = k
    · subst hk; simp [mapGet] at h; subst h; exact List.mem_cons_self _ _
    · simp [mapGet, hk] at h; exact List.mem_cons_of_mem _ (ih h)

end Maps

section Bfs

variable {α : Type} [DecidableEq α]

theorem visitNeighbors_spec (d : Nat) (ns visited : List α) (queue : List (α × Nat)) :
    ∃ fresh : List α,
      visitNeighbors d ns (visited, queue)
        = (visited ++ fresh, queue ++ fresh.map (fun t => (t, d + 1))) ∧
      fresh.Nodup ∧ (∀ t ∈ fresh, t ∈ ns ∧ t ∉ visited) ∧
      (∀ t ∈ ns, t ∈ visited ∨ t ∈ fresh) := by
  induction ns generalizing visited queue with
  | nil => exact ⟨[], by simp [visitNeighbors]⟩
  | cons n rest ih =>
    by_cases h : n ∈ visited
    · obtain ⟨fresh, he, hn, h1, h2⟩ := ih visited queue
      refine ⟨fresh, by simp [visitNeighbors, h, he], hn, ?_, ?_⟩
      · intro t ht; exact ⟨List.mem_cons_of_mem _ (h1 t ht).1, (h1 t ht).2⟩
      · intro t ht
        rcases List.mem_cons.1 ht with rfl | ht
        · exact Or.inl h
        · exact h2 t ht
    · obtain ⟨fresh, he, hn, h1, h2⟩ := ih (visited ++ [n]) (queue ++ [(n, d + 1)])
      refine ⟨n :: fresh, ?_, ?_, ?_, ?_⟩
      · simp [visitNeighbors, h, he]
      · exact List.nodup_cons.2 ⟨fun hm => (h1 n hm).2 (by simp), hn⟩
      · intro t ht
        rcases List.mem_cons.1 ht with rfl | ht
        · exact ⟨List.mem_cons_self _ _, h⟩
        · exact ⟨List.mem_cons_of_mem _ (h1 t ht).1,
            fun hv => (h1 t ht).2 (List.mem_append_left _ hv)⟩
      · intro t ht
        rcases List.mem_cons.1 ht with rfl | ht
        · exact Or.inr (List.mem_cons_self _ _)
        · rcases h2 t ht with hv | hf
          · rcases List.mem_append.1 hv with hv | hv
            · exact Or.inl hv
            · rw [List.mem_singleton] at hv
              subst hv
              exact Or.inr (List.mem_cons_self _ _)
          · exact Or.inr (List.mem_cons_of_mem _ hf)

theorem label_unique (l : List (α × Nat)) (hl : (l.map Prod.fst).Nodup) (t : α) (d d1 : Nat)
    (h : (t, d) ∈ l) (h1 : (t, d1) ∈ l) : d = d1 := by
  have e := mapGet_eq_some_of_mem l t d hl h
  have e1 := mapGet_eq_some_of_mem l t d1 hl h1
  rw [e] at e1
  exact Option.some.inj e1

theorem BfsInv.init (adj : α → List α) (start : α) (m : Nat) :
    BfsInv adj start m [] [start] [(start, 0)] [] where
  nodup := by simp
  vis := by intro t; simp
  sortedQ := by simp
  walk := by
    intro t d h
    simp at h
    obtain ⟨rfl, rfl⟩ := h
    simp [frontier]
  closed := by intro u du h; cases h
  near := by
    intro t d h q hq
    simp at h
    omega
  hasStart := by simp
  reach := by intro t d; simp [mapGet]
  reachKeys := by simp

theorem reach_step (done R : List (α × Nat)) (u : α) (du : Nat)
    (hR : ∀ t d, mapGet R t = some d ↔ ((t, d) ∈ done ∧ 0 < d))
    (hfresh : ∀ d, (u, d) ∉ done) (t : α) (d : Nat) :
    mapGet (if 0 < du then mapSet R u du else R) t = some d
      ↔ ((t, d) ∈ done ++ [(u, du)] ∧ 0 < d) := by
  by_cases hpos : 0 < du
  · rw [if_pos hpos]
    by_cases htu : u = t
    · subst htu
      rw [mapGet_mapSet_self]
      constructor
      · intro h
        have hd : du = d := Option.some.inj h
        subst hd
        exact ⟨by simp, hpos⟩
      · rintro ⟨h, _⟩
        rcases List.mem_append.1 h with h | h
        · exact absurd h (hfresh d)
        · simp at h; rw [h]
    · rw [mapGet_mapSet_of_ne _ _ _ _ htu, hR]
      constructor
      · rintro ⟨h, hd⟩; exact ⟨List.mem_append_left _ h, hd⟩
      · rintro ⟨h, hd⟩
        rcases List.mem_append.1 h with h | h
        · exact ⟨h, hd⟩
        · simp at h; exact absurd h.1.symm htu
  · rw [if_neg hpos, hR]
    constructor
    · rintro ⟨h, hd⟩; exact ⟨List.mem_append_left _ h, hd⟩
    · rintro ⟨h, hd⟩
      rcases List.mem_append.1 h with h | h
      · exact ⟨h, hd⟩
      · simp at h; omega

theorem BfsInv.advance {adj : α → List α} {start : α} {m : Nat} {done : List (α × Nat)}
    {visited : List α} {queue R : List (α × Nat)} {u : α} {du : Nat}
    (h : BfsInv adj start m done visited ((u, du) :: queue) R) (fresh : List α)
    (hnd : fresh.Nodup)
    (hfr : ∀ t ∈ fresh, t ∉ visited ∧ t ∈ adj u ∧ du < m)
    (hcov : du < m → ∀ t ∈ adj u, t ∈ visited ∨ t ∈ fresh) :
    BfsInv adj start m (done ++ [(u, du)]) (visited ++ fresh)
      (queue ++ fresh.map (fun t => (t, du + 1)))
      (if 0 < du then mapSet R u du else R) := by
  have hu : (u, du) ∈ (u, du) :: queue := List.mem_cons_self _ _
  have hwu := h.walk u du (Or.inr hu)
  have hsq := List.pairwise_cons.1 h.sortedQ
  have mem_fe : ∀ t d, (t, d) ∈ fresh.map (fun t => (t, du + 1)) ↔ (t ∈ fresh ∧ d = du + 1) := by
    intro t d
    simp only [List.mem_map, Prod.mk.injEq]
    constructor
    · rintro ⟨a, ha, rfl, rfl⟩; exact ⟨ha, rfl⟩
    · rintro ⟨ha, rfl⟩; exact ⟨t, ha, rfl, rfl⟩
  -- membership in the new history is membership in the old one or in the fresh entries
  have old_or_new : ∀ t d, ((t, d) ∈ done ++ [(u, du)] ∨
      (t, d) ∈ queue ++ fresh.map (fun t => (t, du + 1))) →
      (((t, d) ∈ done ∨ (t, d) ∈ (u, du) :: queue) ∨ (t ∈ fresh ∧ d = du + 1)) := by
    intro t d hm
    rcases hm with hm | hm
    · rcases List.mem_append.1 hm with hm | hm
      · exact Or.inl (Or.inl hm)
      · rw [List.mem_singleton] at hm
        rw [hm]; exact Or.inl (Or.inr hu)
    · rcases List.mem_append.1 hm with hm | hm
      · exact Or.inl (Or.inr (List.mem_cons_of_mem _ hm))
      · exact Or.inr ((mem_fe t d).1 hm)
  have old_to_new : ∀ t d, ((t, d) ∈ done ∨ (t, d) ∈ (u, du) :: queue) →
      ((t, d) ∈ done ++ [(u, du)] ∨ (t, d) ∈ queue ++ fresh.map (fun t => (t, du + 1))) := by
    intro t d hm
    rcases hm with hm | hm
    · exact Or.inl (List.mem_append_left _ hm)
    · rcases List.mem_cons.1 hm with hm | hm
      · rw [hm]; exact Or.inl (List.mem_append_right _ (List.mem_singleton_self _))
      · exact Or.inr (List.mem_append_left _ hm)
  have le_top : ∀ t d, ((t, d) ∈ done ++ [(u, du)] ∨
      (t, d) ∈ queue ++ fresh.map (fun t => (t, du + 1))) → d ≤ du + 1 := by
    intro t d hm
    rcases old_or_new t d hm with hm | ⟨_, rfl⟩
    · exact h.near t d hm (u, du) hu
    · exact Nat.le_refl _
  refine ⟨?_, ?_, ?_, ?_, ?_, ?_, ?_, ?_, ?_⟩
  · -- nodup
    have e1 : (done ++ [(u, du)]) ++ (queue ++ fresh.map (fun t => (t, du + 1)))
        = (done ++ (u, du) :: queue) ++ fresh.map (fun t => (t, du + 1)) := by simp
    have e2 : (fresh.map (fun t => (t, du + 1))).map Prod.fst = fresh := by
      rw [List.map_map]
      exact List.map_id _
    rw [e1, List.map_append, e2]
    refine List.nodup_append.2 ⟨h.nodup, hnd, ?_⟩
    intro a ha hb
    obtain ⟨e, he, rfl⟩ := List.mem_map.1 ha
    have : e.1 ∈ visited := (h.vis e.1).2 ⟨e.2, List.mem_append.1 he⟩
    exact (hfr e.1 hb).1 this
  · -- visited
    intro t
    constructor
    · intro ht
      rcases List.mem_append.1 ht with ht | ht
      · obtain ⟨d, hd⟩ := (h.vis t).1 ht
        exact ⟨d, old_to_new t d hd⟩
      · exact ⟨du + 1, Or.inr (List.mem_append_right _ ((mem_fe t _).2 ⟨ht, rfl⟩))⟩
    · rintro ⟨d, hd⟩
      rcases old_or_new t d hd with hd | ⟨hd, _⟩
      · exact List.mem_append_left _ ((h.vis t).2 ⟨d, hd⟩)
      · exact List.mem_append_right _ hd
  · -- queue sorted
    refine List.pairwise_append.2 ⟨hsq.2, ?_, ?_⟩
    · apply List.pairwise_of_forall_mem_list
      intro a ha b hb
      obtain ⟨a1, a2⟩ := a
      obtain ⟨b1, b2⟩ := b
      have := ((mem_fe a1 a2).1 ha).2
      have := ((mem_fe b1 b2).1 hb).2
      simp only
      omega
    · intro a ha b hb
      obtain ⟨a1, a2⟩ := a
      obtain ⟨b1, b2⟩ := b
      have h1 := h.near a1 a2 (Or.inr (List.mem_cons_of_mem _ ha)) (u, du) hu
      have := ((mem_fe b1 b2).1 hb).2
      simp only at h1 ⊢
      omega
  · -- walks
    intro t d hm
    rcases old_or_new t d hm with hm1 | ⟨hm1, rfl⟩
    · exact h.walk t d hm1
    · have hf := hfr t hm1
      refine ⟨?_, hf.2.2⟩
      show t ∈ (frontier adj start du).flatMap adj
      exact List.mem_flatMap.2 ⟨u, hwu.1, hf.2.1⟩
  · -- closed
    intro u1 du1 hm hlt t ht
    rcases List.mem_append.1 hm with hm | hm
    · obtain ⟨d, hd, hle⟩ := h.closed u1 du1 hm hlt t ht
      exact ⟨d, old_to_new t d hd, hle⟩
    · rw [List.mem_singleton] at hm
      cases hm
      rcases hcov hlt t ht with hv | hf
      · obtain ⟨d, hd⟩ := (h.vis t).1 hv
        exact ⟨d, old_to_new t d hd, h.near t d hd (u, du) hu⟩
      · exact ⟨du + 1, Or.inr (List.mem_append_right _ ((mem_fe t _).2 ⟨hf, rfl⟩)),
          Nat.le_refl _⟩
  · -- near
    intro t d hm q hq
    have h1 := le_top t d hm
    have h2 : du ≤ q.2 := by
      rcases List.mem_append.1 hq with hq | hq
      · exact hsq.1 q hq
      · obtain ⟨q1, q2⟩ := q
        have := ((mem_fe q1 q2).1 hq).2
        simp only
        omega
    omega
  · -- start
    exact old_to_new start 0 h.hasStart
  · -- reachable
    intro t d
    apply reach_step done R u du h.reach
    intro d1 hd1
    have hn := h.nodup
    rw [List.map_append] at hn
    have hdis := (List.nodup_append.1 hn).2.2
    exact hdis (List.mem_map.2 ⟨(u, d1), hd1, rfl⟩) (List.mem_map.2 ⟨(u, du), hu, rfl⟩)
  · -- reachable keys
    by_cases hpos : 0 < du
    · rw [if_pos hpos]; exact mapSet_keys_nodup _ _ _ h.reachKeys
    · rw [if_neg hpos]; exact h.reachKeys

omit [DecidableEq α] in
theorem frontier_subset (adj : α → List α) (start : α) (univ : List α)
    (huniv : ∀ t x, x ∈ adj t → x ∈ univ) :
    ∀ n t, t ∈ frontier adj start n → t ∈ start :: univ
  | 0, t, h => by
    simp only [frontier, List.mem_singleton] at h
    rw [h]; exact List.mem_cons_self _ _
  | n + 1, t, h => by
    obtain ⟨a, _, ha⟩ := List.mem_flatMap.1 h
    exact List.mem_cons_of_mem _ (huniv a t ha)

theorem BfsInv.length_le {adj : α → List α} {start : α} {m : Nat} {done : List (α × Nat)}
    {visited : List α} {queue R : List (α × Nat)}
    (h : BfsInv adj start m done visited queue R) (univ : List α)
    (huniv : ∀ t x, x ∈ adj t → x ∈ univ) :
    done.length + queue.length ≤ univ.length + 1 := by
  have hsub : (done ++ queue).map Prod.fst ⊆ start :: univ := by
    intro t ht
    obtain ⟨e, he, rfl⟩ := List.mem_map.1 ht
    exact frontier_subset adj start univ huniv e.2 e.1
      (h.walk e.1 e.2 (List.mem_append.1 he)).1
  have hlen := (List.subperm_of_subset h.nodup hsub).length_le
  simpa using hlen

theorem bfsLoop_runs (adj : α → List α) (start : α) (m : Nat) (univ : List α)
    (huniv : ∀ t x, x ∈ adj t → x ∈ univ) :
    ∀ (fuel : Nat) (done : List (α × Nat)) (visited : List α) (queue R : List (α × Nat)),
      BfsInv adj start m done visited queue R →
      univ.length + 1 ≤ fuel + done.length →
      ∃ R1 done1 visited1,
        bfsLoop (fun t => some (adj t)) (some (m : Int)) fuel visited queue R = some R1 ∧
        BfsInv adj start m done1 visited1 [] R1 := by
  intro fuel
  induction fuel with
  | zero =>
    intro done visited queue R h hf
    cases queue with
    | nil => exact ⟨R, done, visited, by simp [bfsLoop], h⟩
    | cons e q =>
      have := h.length_le univ huniv
      simp at this hf
      omega
  | succ fuel ih =>
    intro done visited queue R h hf
    cases queue with
    | nil => exact ⟨R, done, visited, by simp [bfsLoop], h⟩
    | cons e q =>
      obtain ⟨u, du⟩ := e
      have hwu := h.walk u du (Or.inr (List.mem_cons_self _ _))
      have hR : (if 0 < du ∧ jsLe du (some (m : Int)) = true then mapSet R u du else R)
          = (if 0 < du then mapSet R u du else R) := by
        simp [jsLe, hwu.2]
      by_cases hlt : du < m
      · obtain ⟨fresh, he, hn, h1, h2⟩ := visitNeighbors_spec du (adj u) visited q
        have hinv := h.advance fresh hn
          (fun t ht => ⟨(h1 t ht).2, (h1 t ht).1, hlt⟩) (fun _ t ht => h2 t ht)
        obtain ⟨R1, d1, v1, hrun, hfin⟩ := ih _ _ _ _ hinv (by simp; omega)
        refine ⟨R1, d1, v1, ?_, hfin⟩
        have hlt1 : ((du : Int) < (m : Int)) := by exact_mod_cast hlt
        rw [bfsLoop]
        simp only [jsLt, hlt1, decide_True, if_true, he, hR]
        exact hrun
      · have hinv := h.advance [] List.nodup_nil (by simp) (fun hl => absurd hl hlt)
        simp only [List.append_nil, List.map_nil] at hinv
        obtain ⟨R1, d1, v1, hrun, hfin⟩ := ih _ _ _ _ hinv (by simp; omega)
        refine ⟨R1, d1, v1, ?_, hfin⟩
        have hlt1 : ¬ ((du : Int) < (m : Int)) := by exact_mod_cast hlt
        rw [bfsLoop]
        simp only [jsLt, hlt1, decide_False, hR]
        exact hrun

theorem BfsInv.minimal {adj : α → List α} {start : α} {m : Nat} {done : List (α × Nat)}
    {visited : List α} {R : List (α × Nat)}
    (h : BfsInv adj start m done visited [] R) :
    ∀ n, n ≤ m → ∀ t, t ∈ frontier adj start n → ∃ d, d ≤ n ∧ (t, d) ∈ done
  | 0, _, t, ht => by
    simp only [frontier, List.mem_singleton] at ht
    subst ht
    rcases h.hasStart with hs | hs
    · exact ⟨0, Nat.le_refl _, hs⟩
    · cases hs
  | n + 1, hn, t, ht => by
    obtain ⟨a, ha, hta⟩ := List.mem_flatMap.1 ht
    obtain ⟨da, hda, hmem⟩ := BfsInv.minimal h n (by omega) a ha
    obtain ⟨d, hd, hle⟩ := h.closed a da hmem (by omega) t hta
    rcases hd with hd | hd
    · exact ⟨d, by omega, hd⟩
    · cases hd

theorem BfsInv.final {adj : α → List α} {start : α} {m : Nat} {done : List (α × Nat)}
    {visited : List α} {R : List (α × Nat)}
    (h : BfsInv adj start m done visited [] R) (t : α) (d : Nat) :
    mapGet R t = some d ↔ (1 ≤ d ∧ d ≤ m ∧ IsHopDistance adj start t d) := by
  rw [h.reach]
  have hnd : (done.map Prod.fst).Nodup := by simpa using h.nodup
  constructor
  · rintro ⟨hmem, hpos⟩
    have hw := h.walk t d (Or.inl hmem)
    refine ⟨hpos, hw.2, hw.1, ?_⟩
    intro n hn hfn
    obtain ⟨d1, hd1, hm1⟩ := h.minimal n (by omega) t hfn
    have := label_unique done hnd t d d1 hmem hm1
    omega
  · rintro ⟨hpos, hle, hfd, hmin⟩
    obtain ⟨d1, hd1, hm1⟩ := h.minimal d hle t hfd
    have hw := h.walk t d1 (Or.inl hm1)
    have hdd : d1 = d := by
      by_contra hne
      exact hmin d1 (by omega) hw.1
    subst hdd
    exact ⟨hm1, hpos⟩

/-- Breadth-first search from `start` with budget `m` over iterable adjacency lists, run
with enough fuel, returns a map with one entry per key that sends `t` to `d` exactly when
`d` is the hop distance of `t` and `1 ≤ d ≤ m`. -/
theorem bfsLoop_correct (adj : α → List α) (start : α) (m : Nat) (univ : List α)
    (huniv : ∀ t x, x ∈ adj t → x ∈ univ) (fuel : Nat) (hfuel : univ.length + 1 ≤ fuel) :
    ∃ R, bfsLoop (fun t => some (adj t)) (some (m : Int)) fuel [start] [(start, 0)] []
        = some R ∧
      (R.map Prod.fst).Nodup ∧
      ∀ t d, mapGet R t = some d ↔ (1 ≤ d ∧ d ≤ m ∧ IsHopDistance adj start t d) := by
  obtain ⟨R, done, visited, hrun, hfin⟩ :=
    bfsLoop_runs adj start m univ huniv fuel [] [start] [(start, 0)] []
      (BfsInv.init adj start m) (by simpa using hfuel)
  exact ⟨R, hrun, hfin.reachKeys, hfin.final⟩

/-- The search reads the adjacency only at the tiles it dequeues: two adjacency functions
that agree on a set of tiles closed under the first give the same run from a queue inside
that set. -/
theorem bfsLoop_congr (adj adj1 : α → Option (List α)) (univ : List α)
    (hagree : ∀ t ∈ univ, adj t = adj1 t)
    (hclosed : ∀ t ∈ univ, ∀ l, adj t = some l → ∀ x ∈ l, x ∈ univ)
    (maxDistance : Option Int) :
    ∀ (fuel : Nat) (visited : List α) (queue R : List (α × Nat)),
      (∀ e ∈ queue, e.1 ∈ univ) →
      bfsLoop adj maxDistance fuel visited queue R
        = bfsLoop adj1 maxDistance fuel visited queue R := by
  intro fuel
  induction fuel with
  | zero =>
    intro visited queue R _
    cases queue <;> simp [bfsLoop]
  | succ fuel ih =>
    intro visited queue R hq
    cases queue with
    | nil => simp [bfsLoop]
    | cons e q =>
      obtain ⟨u, du⟩ := e
      have hu : u ∈ univ := hq (u, du) (List.mem_cons_self _ _)
      have hq1 : ∀ e ∈ q, e.1 ∈ univ := fun e he => hq e (List.mem_cons_of_mem _ he)
      rw [bfsLoop, bfsLoop, ← hagree u hu]
      by_cases hlt : jsLt du maxDistance = true
      · simp only [hlt, if_true]
        cases hadj : adj u with
        | none => rfl
        | some l =>
          simp only
          obtain ⟨fresh, he, _, h1, _⟩ := visitNeighbors_spec du l visited q
          rw [he]
          apply ih
          intro e he1
          rcases List.mem_append.1 he1 with h | h
          · exact hq1 e h
          · obtain ⟨t, ht, rfl⟩ := List.mem_map.1 h
            exact hclosed u hu l hadj t (h1 t ht).1
      · simp only [hlt]
        exact ih _ _ _ hq1

end Bfs

section Movement

theorem adjacent_subset_allNeighbors (connections : List (String × List String))
    (t x : Tile) (h : x ∈ adjacent connections t) : x ∈ allNeighbors connections := by
  unfold adjacent at h
  obtain ⟨y, hy, rfl⟩ := List.mem_map.1 h
  cases hg : mapGet connections (tileKey t) with
  | none => rw [hg] at hy; simp at hy
  | some l =>
    rw [hg] at hy
    have hmem := mem_of_mapGet_eq_some connections (tileKey t) l hg
    exact List.mem_map.2 ⟨y, List.mem_flatMap.2 ⟨(tileKey t, l), hmem, hy⟩, rfl⟩

/-- An iterable lookup is the adjacency list of the graph. -/
theorem neighbors_eq_adjacent (connections : List (String × List String)) (t : Tile)
    (h : neighbors connections t ≠ none) :
    neighbors connections t = some (adjacent connections t) := by
  unfold neighbors objGet at *
  unfold adjacent
  cases hg : mapGet connections (tileKey t) with
  | some l => simp
  | none =>
    rw [hg] at h
    by_cases hk : tileKey t ∈ objectPrototypeKeys
    · simp [hk] at h
    · simp [hk]

/-- A tile that has an own adjacency list, or whose name is not a member of
`Object.prototype`, has an iterable lookup. -/
theorem neighbors_ne_none (connections : List (String × List String)) (t : Tile)
    (h : (mapGet connections (tileKey t)).isSome ∨ tileKey t ∉ objectPrototypeKeys) :
    neighbors connections t ≠ none := by
  unfold neighbors objGet
  cases hg : mapGet connections (tileKey t) with
  | some l => simp
  | none =>
    rw [hg] at h
    rcases h with h | h
    · simp at h
    · simp [h]

/-- When every lookup the search can make is iterable, `calculateReachableTiles` runs to
the end within its iteration bound and stores the map of hop distances `1 .. m`. -/
theorem calculateReachableTiles_spec (g : Game) (p : Player) (st : PlayerState) (m : Nat)
    (hp : currentPlayer g = some p) (hst : p.state = some st)
    (hm : st.movement = some (m : Int))
    (hiter : ∀ t ∈ p.position :: allNeighbors g.connections, neighbors g.connections t ≠ none) :
    ∃ r, calculateReachableTiles g = { g with reachableTiles := r } ∧
      (r.map Prod.fst).Nodup ∧
      ∀ t d, mapGet r t = some d ↔
        (1 ≤ d ∧ d ≤ m ∧ IsHopDistance (adjacent g.connections) p.position t d) := by
  obtain ⟨r, hrun, hnd, hspec⟩ :=
    bfsLoop_correct (adjacent g.connections) p.position m (allNeighbors g.connections)
      (adjacent_subset_allNeighbors g.connections) (bfsFuel g.connections) (Nat.le_refl _)
  have hcongr := bfsLoop_congr (neighbors g.connections)
    (fun t => some (adjacent g.connections t)) (p.position :: allNeighbors g.connections)
    (fun t ht => neighbors_eq_adjacent g.connections t (hiter t ht))
    (fun t ht l hl x hx => by
      rw [neighbors_eq_adjacent g.connections t (hiter t ht)] at hl
      cases hl
      exact List.mem_cons_of_mem _ (adjacent_subset_allNeighbors g.connections t x hx))
    (some (m : Int)) (bfsFuel g.connections) [p.position] [(p.position, 0)] []
    (by simp)
  refine ⟨r, ?_, hnd, hspec⟩
  simp only [calculateReachableTiles, hp, hst, hm, hcongr, hrun]

/-- C1: when every lookup `connections[tile]` the search can make is iterable (the tile has
its own adjacency list or is not named like a member of `Object.prototype`),
`calculateReachableTiles` maps `t` to `d` exactly when `d` is the hop distance from the
position to `t` and `1 ≤ d ≤ m`, with one entry per key; on `{A:[B], B:[A,C], C:[B]}` from
`A` with budget 2 it gives `{B:1, C:2}`.  But on `{A:[constructor, B], B:[A]}` from `A`
with budget 2 the lookup of the neighbour `constructor` is the inherited function, the
loop raises there, and `reachableTiles` is left as `{constructor:1}`: the tile `B`, at hop
distance 1, is missing. -/
theorem calculateReachableTiles_inherited_neighbour :
    (∀ (g : Game) (p : Player) (st : PlayerState) (m : Nat),
      currentPlayer g = some p → p.state = some st → st.movement = some (m : Int) →
      (∀ t ∈ p.position :: allNeighbors g.connections, neighbors g.connections t ≠ none) →
      ((calculateReachableTiles g).reachableTiles.map Prod.fst).Nodup ∧
      ∀ t d, mapGet (calculateReachableTiles g).reachableTiles t = some d ↔
        (1 ≤ d ∧ d ≤ m ∧ IsHopDistance (adjacent g.connections) p.position t d)) ∧
    (calculateReachableTiles lineGame).reachableTiles = [(some "B", 1), (some "C", 2)] ∧
    currentPlayer inheritedNameGame = some (samplePlayer "p1" (some "A") 2) ∧
    inheritedNameGame.connections = [("A", ["constructor", "B"]), ("B", ["A"])] ∧
    neighbors inheritedNameGame.connections (some "constructor") = none ∧
    (calculateReachableTiles inheritedNameGame).reachableTiles = [(some "constructor", 1)] ∧
    IsHopDistance (adjacent inheritedNameGame.connections) (some "A") (some "B") 1 ∧
    mapGet (calculateReachableTiles inheritedNameGame).reachableTiles (some "B") = none := by
  refine ⟨?_, by decide, rfl, rfl, by decide, by decide, by decide, by decide⟩
  intro g p st m hp hst hm hiter
  obtain ⟨r, hcalc, hnd, hspec⟩ := calculateReachableTiles_spec g p st m hp hst hm hiter
  rw [hcalc]
  exact ⟨hnd, hspec⟩

end Movement

section Decks

theorem objSet_eq_mapSet {β : Type} (obj : List (String × β)) (key : String) (v : β)
    (h : key ≠ "__proto__") : objSet obj key v = mapSet obj key v := by
  simp [objSet, h]

theorem qtySum_mapSet_fresh (m : List (String × Nat)) (k : String) (v : Nat)
    (hk : k ∉ m.map Prod.fst) : qtySum (mapSet m k v) = qtySum m + v := by
  induction m with
  | nil => simp [mapSet, qtySum]
  | cons e rest ih =>
    obtain ⟨k0, w⟩ := e
    have hne : k0 ≠ k := by
      intro h; apply hk; simp [h]
    have hk1 : k ∉ rest.map Prod.fst := by
      intro h; apply hk; simp only [List.map_cons, List.mem_cons]; exact Or.inr h
    have := ih hk1
    simp only [qtySum, mapSet, hne, if_false, List.map_cons, List.sum_cons] at this ⊢
    omega

theorem qtySum_mapSet_of_get (m : List (String × Nat)) (k : String) (n v : Nat)
    (hk : mapGet m k = some n) : qtySum (mapSet m k v) + n = qtySum m + v := by
  induction m with
  | nil => simp [mapGet] at hk
  | cons e rest ih =>
    obtain ⟨k0, w⟩ := e
    by_cases hne : k0 = k
    · subst hne
      simp only [mapGet, if_true, Option.some.injEq] at hk
      subst hk
      simp only [qtySum, mapSet, if_true, List.map_cons, List.sum_cons]
      omega
    · simp only [mapGet, hne, if_false] at hk
      have := ih hk
      simp only [qtySum, mapSet, hne, if_false, List.map_cons, List.sum_cons] at this ⊢
      omega

theorem exists_pos_of_qtySum_pos (m : List (String × Nat)) (h : 0 < qtySum m) :
    ∃ k n, (k, n + 1) ∈ m := by
  induction m with
  | nil => simp [qtySum] at h
  | cons e rest ih =>
    obtain ⟨k0, w⟩ := e
    cases w with
    | zero =>
      have h1 : 0 < qtySum rest := by simpa [qtySum] using h
      obtain ⟨k, n, hm⟩ := ih h1
      exact ⟨k, n, List.mem_cons_of_mem _ hm⟩
    | succ n => exact ⟨k0, n, List.mem_cons_self _ _⟩

/-- The inner loop of `resetDeckQuantities` on cards with distinct ids, none of them
`__proto__`, keeps the total equal to the sum of the counts, and records every card under
its id. -/
theorem resetDeckCards_spec (cards : List CardDef) :
    ∀ (acc : Nat × List (String × Nat)), (cards.map CardDef.id).Nodup →
      (∀ c ∈ cards, c.id ≠ "__proto__") →
      (∀ c ∈ cards, c.id ∉ acc.2.map Prod.fst) →
      (acc.2.map Prod.fst).Nodup → acc.1 = qtySum acc.2 →
      (resetDeckCards cards acc).1 = qtySum (resetDeckCards cards acc).2 ∧
      ((resetDeckCards cards acc).2.map Prod.fst).Nodup ∧
      (∀ k, k ∈ (resetDeckCards cards acc).2.map Prod.fst ↔
        (k ∈ acc.2.map Prod.fst ∨ ∃ c ∈ cards, c.id = k)) := by
  induction cards with
  | nil =>
    intro acc _ _ _ hn ht
    simp [resetDeckCards, hn, ht]
  | cons card rest ih =>
    intro acc hids hproto hfresh hn ht
    obtain ⟨total, qtys⟩ := acc
    have hids1 := List.nodup_cons.1 hids
    have hcf : card.id ∉ qtys.map Prod.fst := hfresh card (List.mem_cons_self _ _)
    have hset : objSet qtys card.id (cardQty card) = mapSet qtys card.id (cardQty card) :=
      objSet_eq_mapSet _ _ _ (hproto card (List.mem_cons_self _ _))
    have hstep := ih (total + cardQty card, mapSet qtys card.id (cardQty card)) hids1.2
      (fun c hc => hproto c (List.mem_cons_of_mem _ hc))
      (by
        intro c hc hmem
        rcases (mem_keys_mapSet qtys card.id c.id (cardQty card)).1 hmem with h | h
        · exact hids1.1 (List.mem_map.2 ⟨c, hc, h⟩)
        · exact hfresh c (List.mem_cons_of_mem _ hc) h)
      (mapSet_keys_nodup _ _ _ hn)
      (by
        simp only at ht ⊢
        rw [qtySum_mapSet_fresh qtys card.id (cardQty card) hcf, ht])
    obtain ⟨h1, h2, h3⟩ := hstep
    simp only [resetDeckCards, hset]
    refine ⟨h1, h2, ?_⟩
    intro k
    rw [h3 k, mem_keys_mapSet]
    constructor
    · rintro (h | h)
      · rcases h with h | h
        · exact Or.inr ⟨card, List.mem_cons_self _ _, h.symm⟩
        · exact Or.inl h
      · obtain ⟨c, hc, hck⟩ := h
        exact Or.inr ⟨c, List.mem_cons_of_mem _ hc, hck⟩
    · rintro (h | ⟨c, hc, hck⟩)
      · exact Or.inl (Or.inr h)
      · rcases List.mem_cons.1 hc with hc | hc
        · subst hc; exact Or.inl (Or.inl hck.symm)
        · exact Or.inr ⟨c, hc, hck⟩

theorem mapGet_objSet_of_ne {β : Type} (obj : List (String × β)) (key key1 : String) (v : β)
    (hne : key ≠ key1) : mapGet (objSet obj key v) key1 = mapGet obj key1 := by
  unfold objSet
  split_ifs
  · rfl
  · exact mapGet_mapSet_of_ne _ _ _ _ hne

theorem resetDecks_frame (rest : List (String × Deck)) :
    ∀ g : Game, (resetDecks rest g).players = g.players ∧
      (resetDecks rest g).currentPlayerIndex = g.currentPlayerIndex ∧
      (resetDecks rest g).decksData = g.decksData ∧
      (resetDecks rest g).currentTurnActions = g.currentTurnActions := by
  induction rest with
  | nil => intro g; simp [resetDecks]
  | cons e rest ih =>
    intro g
    obtain ⟨key, deck⟩ := e
    simp only [resetDecks]
    obtain ⟨h1, h2, h3, h4⟩ := ih
      { g with
        cardQuantities := mapSet g.cardQuantities key
          (resetDeckCards (deck.cards.getD []) (0, [])).2
        deckQuantities := objSet g.deckQuantities key
          (resetDeckCards (deck.cards.getD []) (0, [])).1 }
    exact ⟨h1, h2, h3, h4⟩

theorem resetDecks_other (rest : List (String × Deck)) (d : String) :
    ∀ g : Game, d ∉ rest.map Prod.fst →
      cardQtysOf (resetDecks rest g) d = cardQtysOf g d ∧
      getDeckQuantity (resetDecks rest g) d = getDeckQuantity g d := by
  induction rest with
  | nil => intro g _; simp [resetDecks]
  | cons e rest ih =>
    intro g hd
    obtain ⟨key, deck⟩ := e
    have hne : key ≠ d := by
      intro h; apply hd; simp [h]
    have hd1 : d ∉ rest.map Prod.fst := by
      intro h; apply hd; simp only [List.map_cons, List.mem_cons]; exact Or.inr h
    simp only [resetDecks]
    obtain ⟨h1, h2⟩ := ih
      { g with
        cardQuantities := mapSet g.cardQuantities key
          (resetDeckCards (deck.cards.getD []) (0, [])).2
        deckQuantities := objSet g.deckQuantities key
          (resetDeckCards (deck.cards.getD []) (0, [])).1 } hd1
    rw [h1, h2]
    simp only [cardQtysOf, getDeckQuantity]
    rw [mapGet_mapSet_of_ne _ _ _ _ hne, mapGet_objSet_of_ne _ _ _ _ hne]
    exact ⟨rfl, rfl⟩

theorem resetDecks_present (rest : List (String × Deck)) (d : String) (deck : Deck)
    (hproto : d ≠ "__proto__") :
    ∀ g : Game, (rest.map Prod.fst).Nodup → (d, deck) ∈ rest →
      cardQtysOf (resetDecks rest g) d = (resetDeckCards (deck.cards.getD []) (0, [])).2 ∧
      getDeckQuantity (resetDecks rest g) d
        = (resetDeckCards (deck.cards.getD []) (0, [])).1 := by
  induction rest with
  | nil => intro g _ h; cases h
  | cons e rest ih =>
    intro g hn hmem
    obtain ⟨key, deck0⟩ := e
    have hn1 := List.nodup_cons.1 hn
    rcases List.mem_cons.1 hmem with h | h
    · cases h
      simp only [resetDecks]
      obtain ⟨h1, h2⟩ := resetDecks_other rest d
        { g with
          cardQuantities := mapSet g.cardQuantities d
            (resetDeckCards (deck.cards.getD []) (0, [])).2
          deckQuantities := objSet g.deckQuantities d
            (resetDeckCards (deck.cards.getD []) (0, [])).1 } hn1.1
      rw [h1, h2]
      simp [cardQtysOf, getDeckQuantity, objSet_eq_mapSet _ _ _ hproto, mapGet_mapSet_self]
    · simp only [resetDecks]
      exact ih _ hn1.2 h

/-- After `resetDeckQuantities`, on definitions whose deck keys differ from `__proto__`,
with distinct card ids inside each deck, none of them `__proto__`, and with the translation
keys on every card, the counters of every deck are consistent. -/
theorem resetDeckQuantities_ok (g0 : Game)
    (hkeys : ((g0.decksData.getD []).map Prod.fst).Nodup ∧
      "__proto__" ∉ (g0.decksData.getD []).map Prod.fst)
    (d : String)
    (hids : ∀ deck, mapGet (g0.decksData.getD []) d = some deck →
      ((deck.cards.getD []).map CardDef.id).Nodup ∧
      ∀ c ∈ deck.cards.getD [], c.id ≠ "__proto__" ∧ hasNameKeys c = true) :
    DeckOk (resetDeckQuantities g0) d := by
  have hdata : (resetDeckQuantities g0).decksData = g0.decksData :=
    (resetDecks_frame _ _).2.2.1
  have hnamed : ∀ deck, mapGet ((resetDeckQuantities g0).decksData.getD []) d = some deck →
      ∀ c ∈ deck.cards.getD [], hasNameKeys c = true := by
    rw [hdata]
    intro deck hdeck c hc
    exact ((hids deck hdeck).2 c hc).2
  cases hget : mapGet (g0.decksData.getD []) d with
  | none =>
    have hnot : d ∉ (g0.decksData.getD []).map Prod.fst := by
      intro h
      obtain ⟨e, he, hed⟩ := List.mem_map.1 h
      have := mapGet_eq_some_of_mem _ e.1 e.2 hkeys.1 he
      rw [hed, hget] at this
      cases this
    obtain ⟨h1, h2⟩ := resetDecks_other (g0.decksData.getD []) d
      { g0 with deckQuantities := [], cardQuantities := [] } hnot
    have e1 : cardQtysOf (resetDeckQuantities g0) d = [] := by
      unfold resetDeckQuantities; rw [h1]; rfl
    have e2 : getDeckQuantity (resetDeckQuantities g0) d = 0 := by
      unfold resetDeckQuantities; rw [h2]; rfl
    refine ⟨by rw [e1, e2]; rfl, by rw [e1]; exact List.nodup_nil, ?_, hnamed⟩
    intro k hk
    rw [e1] at hk
    cases hk
  | some deck =>
    have hmem := mem_of_mapGet_eq_some _ d deck hget
    have hproto : d ≠ "__proto__" := by
      intro h
      apply hkeys.2
      rw [← h]
      exact List.mem_map.2 ⟨(d, deck), hmem, rfl⟩
    obtain ⟨h1, h2⟩ := resetDecks_present (g0.decksData.getD []) d deck hproto
      { g0 with deckQuantities := [], cardQuantities := [] } hkeys.1 hmem
    have e1 : cardQtysOf (resetDeckQuantities g0) d
        = (resetDeckCards (deck.cards.getD []) (0, [])).2 := by
      unfold resetDeckQuantities; rw [h1]
    have e2 : getDeckQuantity (resetDeckQuantities g0) d
        = (resetDeckCards (deck.cards.getD []) (0, [])).1 := by
      unfold resetDeckQuantities; rw [h2]
    obtain ⟨s1, s2, s3⟩ := resetDeckCards_spec (deck.cards.getD []) (0, [])
      (hids deck hget).1 (fun c hc => ((hids deck hget).2 c hc).1)
      (by intro c _ h; cases h) List.nodup_nil rfl
    refine ⟨by rw [e1, e2]; exact s1, by rw [e1]; exact s2, ?_, hnamed⟩
    intro k hk
    rw [e1] at hk
    rw [hdata]
    refine ⟨deck, hget, ?_⟩
    rcases (s3 k).1 hk with h | h
    · cases h
    · exact h

theorem mem_availableCards (cards : List CardDef) (cardQtys : List (String × Nat))
    (c : CardDef) :
    c ∈ availableCards cards cardQtys ↔ (c ∈ cards ∧ 0 < (mapGet cardQtys c.id).getD 0) := by
  unfold availableCards
  simp only [List.mem_flatMap, List.mem_replicate]
  constructor
  · rintro ⟨a, ha, hn, rfl⟩; exact ⟨ha, Nat.pos_of_ne_zero hn⟩
  · rintro ⟨hc, hp⟩; exact ⟨c, hc, Nat.pos_iff_ne_zero.1 hp, rfl⟩

/-- A card definition with both translation keys gives a card object: not mounted, with
progress 0 and the id of the definition. -/
theorem makeCard_of_named (env : Env) (cardData : CardDef) (d name : String)
    (h : hasNameKeys cardData = true) :
    ∃ card, makeCard env cardData d name = some card ∧ card.id = some cardData.id ∧
      card.mounted = false ∧ card.mountingProgress = some 0 := by
  unfold hasNameKeys at h
  unfold makeCard
  cases hn : cardData.nameKey with
  | none => simp [hn] at h
  | some nk =>
    cases hd : cardData.descriptionKey with
    | none => simp [hd] at h
    | some dk => exact ⟨_, rfl, rfl, rfl, rfl⟩

/-- One `selectDeck` by the current player on a deck with a positive total, whose cards
carry their translation keys and one of which has a positive remaining count: a card of
the deck with a positive count is drawn, its count and the deck total both drop by one,
and the card object is appended to the current player. -/
theorem selectDeck_draw_eq (env : Env) (g : Game) (d name : String) (r : Nat) (cur : Player)
    (deck : Deck) (c0 : CardDef)
    (hcur : currentPlayer g = some cur) (hpos : 0 < getDeckQuantity g d)
    (hdeck : mapGet (g.decksData.getD []) d = some deck)
    (hnamed : ∀ c ∈ deck.cards.getD [], hasNameKeys c = true)
    (hc0 : c0 ∈ deck.cards.getD [])
    (hc0q : 0 < (mapGet (cardQtysOf g d) c0.id).getD 0) :
    ∃ (cardData : CardDef) (card : Card) (n t : Nat),
      cardData ∈ deck.cards.getD [] ∧
      makeCard env cardData d name = some card ∧
      mapGet (cardQtysOf g d) cardData.id = some (n + 1) ∧
      getDeckQuantity g d = t + 1 ∧
      selectDeck env g d name r =
        { g with
          cardQuantities := mapSet g.cardQuantities d (mapSet (cardQtysOf g d) cardData.id n)
          deckQuantities := mapSet g.deckQuantities d t
          players := g.players.set g.currentPlayerIndex
            { cur with cards := some (cur.cards.getD [] ++ [some card]) }
          currentTurnActions := { g.currentTurnActions with mainActionUsed := true } } := by
  have hemp : getDeckQuantity g d ≠ 0 := by omega
  have hcpool : c0 ∈ availableCards (deck.cards.getD []) (cardQtysOf g d) :=
    (mem_availableCards _ _ _).2 ⟨hc0, hc0q⟩
  have hlen : 0 < (availableCards (deck.cards.getD []) (cardQtysOf g d)).length :=
    List.length_pos_of_mem hcpool
  have hidx := Nat.mod_lt r hlen
  obtain ⟨cardData, hcd⟩ : ∃ cd, (availableCards (deck.cards.getD []) (cardQtysOf g d))[
      r % (availableCards (deck.cards.getD []) (cardQtysOf g d)).length]? = some cd :=
    ⟨_, List.getElem?_eq_getElem hidx⟩
  have hcdmem := List.getElem?_mem hcd
  obtain ⟨hcdc, hcdq⟩ := (mem_availableCards _ _ _).1 hcdmem
  obtain ⟨card, hcard, _⟩ := makeCard_of_named env cardData d name (hnamed cardData hcdc)
  obtain ⟨n, hn⟩ : ∃ n, mapGet (cardQtysOf g d) cardData.id = some (n + 1) := by
    cases h : mapGet (cardQtysOf g d) cardData.id with
    | none => simp [h] at hcdq
    | some v =>
      cases v with
      | zero => simp [h] at hcdq
      | succ n => exact ⟨n, rfl⟩
  obtain ⟨t, ht⟩ : ∃ t, mapGet g.deckQuantities d = some (t + 1) := by
    unfold getDeckQuantity at hemp
    cases h : mapGet g.deckQuantities d with
    | none => simp [h] at hemp
    | some v =>
      cases v with
      | zero => simp [h] at hemp
      | succ t => exact ⟨t, rfl⟩
  have hcards : (deck.cards.getD []).length ≠ 0 := by
    intro h
    have := List.length_pos_of_mem hc0
    omega
  refine ⟨cardData, card, n, t, hcdc, hcard, hn, by simp [getDeckQuantity, ht], ?_⟩
  simp [selectDeck, hcur, isDeckEmpty, hemp, drawCardFromDeck, hdeck, hcards, hcd, hn,
    hcard, decrementDeck, ht, setPlayer]

theorem selectDeck_noPlayer (env : Env) (g : Game) (d name : String) (r : Nat)
    (hcur : currentPlayer g = none) : selectDeck env g d name r = g := by
  simp [selectDeck, hcur]

theorem selectDeck_empty (env : Env) (g : Game) (d name : String) (r : Nat)
    (hemp : getDeckQuantity g d = 0) : selectDeck env g d name r = g := by
  cases hcur : currentPlayer g with
  | none => exact selectDeck_noPlayer env g d name r hcur
  | some cur => simp [selectDeck, hcur, isDeckEmpty, hemp]

/-- One `selectDeck` on a deck with consistent counters, with a current player: either the
deck is empty and nothing changes, or one card whose count is positive is drawn, its count
and the deck total both drop by one, and the card is appended to the current player. -/
theorem selectDeck_step (env : Env) (g : Game) (d name : String) (r : Nat) (cur : Player)
    (hcur : currentPlayer g = some cur) (hok : DeckOk g d) :
    (getDeckQuantity g d = 0 ∧ selectDeck env g d name r = g) ∨
    (∃ (cardData : CardDef) (card : Card) (n : Nat) (deck : Deck) (t : Nat),
        mapGet (g.decksData.getD []) d = some deck ∧ cardData ∈ deck.cards.getD [] ∧
        mapGet (cardQtysOf g d) cardData.id = some (n + 1) ∧
        getDeckQuantity g d = t + 1 ∧
        selectDeck env g d name r =
          { g with
            cardQuantities := mapSet g.cardQuantities d (mapSet (cardQtysOf g d) cardData.id n)
            deckQuantities := mapSet g.deckQuantities d t
            players := g.players.set g.currentPlayerIndex
              { cur with cards := some (cur.cards.getD [] ++ [some card]) }
            currentTurnActions := { g.currentTurnActions with mainActionUsed := true } }) := by
  by_cases hemp : getDeckQuantity g d = 0
  · left
    exact ⟨hemp, selectDeck_empty env g d name r hemp⟩
  · right
    have hpos : 0 < qtySum (cardQtysOf g d) := by rw [← hok.total]; omega
    obtain ⟨k, n0, hkn⟩ := exists_pos_of_qtySum_pos _ hpos
    obtain ⟨deck, hdeck, c, hc, hck⟩ := hok.known k (List.mem_map.2 ⟨(k, n0 + 1), hkn, rfl⟩)
    have hgetk : mapGet (cardQtysOf g d) k = some (n0 + 1) :=
      mapGet_eq_some_of_mem _ _ _ hok.keys hkn
    obtain ⟨cardData, card, n, t, hcd, _, hn, ht, he⟩ :=
      selectDeck_draw_eq env g d name r cur deck c hcur (by omega) hdeck
        (hok.named deck hdeck) hc (by rw [hck, hgetk]; simp)
    exact ⟨cardData, card, n, deck, t, hdeck, hcd, hn, ht, he⟩

theorem selectDeck_preserves (env : Env) (g : Game) (d name : String) (r : Nat) (x : String)
    (hd : DeckOk g d) (hx : DeckOk g x) : DeckOk (selectDeck env g d name r) x := by
  cases hcur : currentPlayer g with
  | none => rw [selectDeck_noPlayer env g d name r hcur]; exact hx
  | some cur =>
    rcases selectDeck_step env g d name r cur hcur hd with
      ⟨_, he⟩ | ⟨cardData, card, n, deck, t, hdeck, hcd, hn, ht, he⟩
    · rw [he]; exact hx
    · have hdata : (selectDeck env g d name r).decksData = g.decksData := by rw [he]
      by_cases hdx : d = x
      · subst hdx
        have hq : cardQtysOf (selectDeck env g d name r) d
            = mapSet (cardQtysOf g d) cardData.id n := by
          rw [he]; simp [cardQtysOf, mapGet_mapSet_self]
        have hdq : getDeckQuantity (selectDeck env g d name r) d = t := by
          rw [he]; simp [getDeckQuantity, mapGet_mapSet_self]
        refine ⟨?_, ?_, ?_, ?_⟩
        · rw [hq, hdq]
          have h1 := qtySum_mapSet_of_get _ _ _ n hn
          have h2 := hd.total
          omega
        · rw [hq]; exact mapSet_keys_nodup _ _ _ hd.keys
        · intro k hk
          rw [hq] at hk
          rw [hdata]
          rcases (mem_keys_mapSet _ _ _ _).1 hk with h | h
          · exact ⟨deck, hdeck, cardData, hcd, h.symm⟩
          · exact hd.known k h
        · rw [hdata]; exact hd.named
      · have hq : cardQtysOf (selectDeck env g d name r) x = cardQtysOf g x := by
          rw [he]; simp [cardQtysOf, mapGet_mapSet_of_ne _ _ _ _ hdx]
        have hdq : getDeckQuantity (selectDeck env g d name r) x = getDeckQuantity g x := by
          rw [he]; simp [getDeckQuantity, mapGet_mapSet_of_ne _ _ _ _ hdx]
        refine ⟨?_, ?_, ?_, ?_⟩
        · rw [hq, hdq]; exact hx.total
        · rw [hq]; exact hx.keys
        · intro k hk
          rw [hq] at hk
          rw [hdata]
          exact hx.known k hk
        · rw [hdata]; exact hx.named

theorem drawAll_preserves (env : Env) (draws : List (String × String × Nat)) :
    ∀ g : Game, (∀ x, DeckOk g x) → ∀ x, DeckOk (drawAll env g draws) x := by
  induction draws with
  | nil => intro g h x; exact h x
  | cons dr rest ih =>
    intro g h x
    simp only [drawAll]
    exact ih _ (fun y => selectDeck_preserves env g dr.1 dr.2.1 dr.2.2 y (h dr.1) (h y)) x

/-- C2 (amended): on deck definitions whose deck keys differ from `__proto__`, whose card
ids are distinct inside each deck and none of them `__proto__`, and whose cards all carry
`nameKey` and `descriptionKey`, after `resetDeckQuantities` and after every sequence of
`selectDeck` draws, the remaining total of every deck equals the sum of its per-card
remaining counts.  (`hkeys`: `decks` is a JS object, each key occurs once.  The deck is one
of the definitions, or at least no member of `Object.prototype` is read for its id.) -/
theorem deck_total_eq_sum (env : Env) (g0 : Game)
    (hkeys : ((g0.decksData.getD []).map Prod.fst).Nodup ∧
      "__proto__" ∉ (g0.decksData.getD []).map Prod.fst)
    (hids : ∀ e ∈ g0.decksData.getD [], ((e.2.cards.getD []).map CardDef.id).Nodup)
    (hcards : ∀ e ∈ g0.decksData.getD [], ∀ c ∈ e.2.cards.getD [],
      c.id ≠ "__proto__" ∧ hasNameKeys c = true)
    (draws : List (String × String × Nat)) (deckId : String) :
    (deckId ∈ (g0.decksData.getD []).map Prod.fst ∨ deckId ∉ objectPrototypeKeys) →
    getDeckQuantity (drawAll env (resetDeckQuantities g0) draws) deckId
      = qtySum (cardQtysOf (drawAll env (resetDeckQuantities g0) draws) deckId) :=
  fun _ => (drawAll_preserves env draws (resetDeckQuantities g0)
    (fun x => resetDeckQuantities_ok g0 hkeys x
      (fun deck hget =>
        ⟨hids (x, deck) (mem_of_mapGet_eq_some _ x deck hget),
          hcards (x, deck) (mem_of_mapGet_eq_some _ x deck hget)⟩)) deckId).total

/-- C2, witness of the amended claim: scenario deck `verde`, two draws. -/
theorem deck_total_eq_sum_witness :
    (((verdeGame.decksData.getD []).map Prod.fst).Nodup ∧
      "__proto__" ∉ (verdeGame.decksData.getD []).map Prod.fst) ∧
    (∀ e ∈ verdeGame.decksData.getD [], ((e.2.cards.getD []).map CardDef.id).Nodup) ∧
    (∀ e ∈ verdeGame.decksData.getD [], ∀ c ∈ e.2.cards.getD [],
      c.id ≠ "__proto__" ∧ hasNameKeys c = true) ∧
    "verde" ∈ (verdeGame.decksData.getD []).map Prod.fst ∧
    getDeckQuantity (drawAll sampleEnv (resetDeckQuantities verdeGame) (verdeDraws [0, 7]))
        "verde" = 1 ∧
    getDeckQuantity (drawAll sampleEnv (resetDeckQuantities verdeGame) (verdeDraws [0, 7]))
        "verde"
      = qtySum (cardQtysOf
          (drawAll sampleEnv (resetDeckQuantities verdeGame) (verdeDraws [0, 7])) "verde") :=
  ⟨by decide, by decide, by decide, by decide, by decide,
    deck_total_eq_sum sampleEnv verdeGame (by decide) (by decide) (by decide)
      (verdeDraws [0, 7]) "verde" (Or.inl (by decide))⟩

/-- C2 as stated fails, on four deck definitions.  A deck that lists the id `x` twice
(quantities 2 and 1) has total 3 right after `resetDeckQuantities`, while its per-card
counts sum to 1.  A deck whose only card has the id `__proto__` (quantity 2) has total 2
and no per-card count.  For a deck with the key `__proto__` and the card `x` (quantity 2)
no total is stored, while the count of `x` is 2.  On the deck `x` (quantity 2), `y`
(quantity 1) without translation keys, the first draw lowers the count of `x` and raises
before the total is lowered: the total is 3 and the counts sum to 2. -/
theorem deck_total_ne_sum :
    (getDeckQuantity
        (resetDeckQuantities (deckGame [cardDef "x" (some 2), cardDef "x" (some 1)])) "verde"
      = 3 ∧
     qtySum (cardQtysOf
        (resetDeckQuantities (deckGame [cardDef "x" (some 2), cardDef "x" (some 1)])) "verde")
      = 1) ∧
    (getDeckQuantity (resetDeckQuantities (deckGame [cardDef "__proto__" (some 2)])) "verde"
      = 2 ∧
     cardQtysOf (resetDeckQuantities (deckGame [cardDef "__proto__" (some 2)])) "verde"
      = []) ∧
    ((resetDeckQuantities protoDeckGame).deckQuantities = [] ∧
     cardQtysOf (resetDeckQuantities protoDeckGame) "__proto__" = [("x", 2)]) ∧
    (getDeckQuantity (selectDeck sampleEnv (resetDeckQuantities namelessGame)
        "verde" "Verde" 0) "verde" = 3 ∧
     cardQtysOf (selectDeck sampleEnv (resetDeckQuantities namelessGame)
        "verde" "Verde" 0) "verde" = [("x", 1), ("y", 1)] ∧
     playerCards (selectDeck sampleEnv (resetDeckQuantities namelessGame)
        "verde" "Verde" 0) = []) := by
  decide

theorem currentPlayer_lt (g : Game) (cur : Player) (hcur : currentPlayer g = some cur) :
    g.currentPlayerIndex < g.players.length := by
  unfold currentPlayer at hcur
  obtain ⟨h, _⟩ := List.getElem?_eq_some_iff.1 hcur
  exact h

/-- C3: the deck `x` (quantity 2), `y` (quantity 1) is exhausted by three draws, the fourth
changes nothing, and `x` is drawn twice and `y` once, as claimed.  But a card configured
with quantity 0 is counted once: after `resetDeckQuantities` the deck whose only card is
`x` with quantity 0 has total 1 and count 1 for `x`, where the configured total is 0, and
the first draw succeeds and takes `x`. -/
theorem zero_quantity_card_is_drawn :
    ((playerCards (drawAll sampleEnv (resetDeckQuantities verdeGame)
        (verdeDraws [0, 5, 1, 2]))).map (fun c => c.bind (fun x => x.id))
      = [some "x", some "y", some "x"]) ∧
    getDeckQuantity (drawAll sampleEnv (resetDeckQuantities verdeGame)
        (verdeDraws [0, 5, 1])) "verde" = 0 ∧
    (([cardDef "x" (some 0)].map (fun c => c.quantity.getD 0)).sum = 0) ∧
    getDeckQuantity (resetDeckQuantities (deckGame [cardDef "x" (some 0)])) "verde" = 1 ∧
    cardQtysOf (resetDeckQuantities (deckGame [cardDef "x" (some 0)])) "verde" = [("x", 1)] ∧
    (playerCards (drawAll sampleEnv (resetDeckQuantities (deckGame [cardDef "x" (some 0)]))
        (verdeDraws [0]))).map (fun c => c.bind (fun x => x.id)) = [some "x"] := by
  decide

end Decks

section Turns

theorem calculateReachableTiles_frame (g : Game) :
    (calculateReachableTiles g).players = g.players ∧
    (calculateReachableTiles g).currentPlayerIndex = g.currentPlayerIndex ∧
    (calculateReachableTiles g).gameStarted = g.gameStarted ∧
    (calculateReachableTiles g).currentTurnActions = g.currentTurnActions ∧
    (calculateReachableTiles g).isMoving = g.isMoving := by
  unfold calculateReachableTiles
  split
  · simp
  · split
    · simp
    · split <;> simp

theorem startMovementPhase_frame (g : Game) :
    (startMovementPhase g).players = g.players ∧
    (startMovementPhase g).currentPlayerIndex = g.currentPlayerIndex ∧
    (startMovementPhase g).gameStarted = g.gameStarted ∧
    (startMovementPhase g).currentTurnActions = g.currentTurnActions := by
  unfold startMovementPhase
  split
  · simp
  · split
    · obtain ⟨h1, h2, h3, h4, _⟩ :=
        calculateReachableTiles_frame { g with isMoving := true, selectedTile := none }
      exact ⟨h1, h2, h3, h4⟩
    · simp

theorem nextTurn_frame (g : Game) :
    (nextTurn g).players = g.players ∧
    (nextTurn g).currentPlayerIndex = (g.currentPlayerIndex + 1) % g.players.length ∧
    (nextTurn g).gameStarted = g.gameStarted ∧
    (nextTurn g).currentTurnActions = g.currentTurnActions := by
  have hf := startMovementPhase_frame
    { g with currentPlayerIndex := (g.currentPlayerIndex + 1) % g.players.length }
  unfold nextTurn
  simp only
  split
  · simp
  · split
    · simp
    · exact hf

theorem endTurn_spec (g : Game) (hs : g.gameStarted = true) (hn : 0 < g.players.length) :
    (endTurn g).players = g.players ∧
    (endTurn g).currentPlayerIndex = (g.currentPlayerIndex + 1) % g.players.length ∧
    (endTurn g).gameStarted = true ∧
    (endTurn g).currentTurnActions = freshTurnActions := by
  have hn0 : g.players.length ≠ 0 := by omega
  have hf := nextTurn_frame { g with currentTurnActions := freshTurnActions }
  have he : endTurn g = nextTurn { g with currentTurnActions := freshTurnActions } := by
    simp [endTurn, hs, hn0]
  rw [he]
  obtain ⟨h1, h2, h3, h4⟩ := hf
  exact ⟨h1, h2, by rw [h3]; exact hs, h4⟩

theorem endTurn_iterate (g : Game) (hs : g.gameStarted = true) (hn : 0 < g.players.length) :
    ∀ k, (endTurn^[k] g).players = g.players ∧ (endTurn^[k] g).gameStarted = true ∧
      (endTurn^[k] g).currentPlayerIndex % g.players.length
        = (g.currentPlayerIndex + k) % g.players.length ∧
      (0 < k → (endTurn^[k] g).currentTurnActions = freshTurnActions) := by
  intro k
  induction k with
  | zero => simp [hs]
  | succ j ihj =>
    rw [Function.iterate_succ_apply']
    obtain ⟨p1, p2, p3, _⟩ := ihj
    obtain ⟨e1, e2, e3, e4⟩ := endTurn_spec (endTurn^[j] g) p2 (by rw [p1]; exact hn)
    refine ⟨by rw [e1, p1], e3, ?_, fun _ => e4⟩
    rw [e2, p1, Nat.mod_mod, Nat.add_mod, p3, ← Nat.add_mod]
    rfl

/-- C4: in a started game with `N ≥ 1` players and a valid `currentPlayerIndex`, `N` calls
of `endTurn` bring `currentPlayerIndex` back to its original value, and after each of the
calls `currentTurnActions` is `{movementUsed: false, mainActionUsed: false,
bonusActions: []}`. -/
theorem endTurn_rotation (g : Game) (hs : g.gameStarted = true)
    (hn : 1 ≤ g.players.length) (hi : g.currentPlayerIndex < g.players.length) :
    (endTurn^[g.players.length] g).currentPlayerIndex = g.currentPlayerIndex ∧
    ∀ k, 1 ≤ k → k ≤ g.players.length →
      (endTurn^[k] g).currentTurnActions
        = { movementUsed := false, mainActionUsed := false, bonusActions := [] } := by
  constructor
  · have hN : 0 < g.players.length := hn
    obtain ⟨_, _, p3, _⟩ := endTurn_iterate g hs hN g.players.length
    -- the index after the last call is itself a remainder
    cases hlen : g.players.length with
    | zero => omega
    | succ m =>
      rw [hlen] at p3
      have hlast : (endTurn^[m + 1] g).currentPlayerIndex < m + 1 := by
        rw [Function.iterate_succ_apply']
        obtain ⟨q1, q2, _, _⟩ := endTurn_iterate g hs hN m
        obtain ⟨_, e2, _, _⟩ := endTurn_spec (endTurn^[m] g) q2 (by rw [q1]; exact hN)
        rw [e2, q1, hlen]
        exact Nat.mod_lt _ (by omega)
      rw [Nat.mod_eq_of_lt hlast, Nat.add_mod_right, Nat.mod_eq_of_lt (by omega)] at p3
      exact p3
  · intro k hk _
    exact (endTurn_iterate g hs hn k).2.2.2 (by omega)

/-- C4 on a three-player game whose current player is the second one. -/
theorem endTurn_rotation_witness :
    threePlayerGame.gameStarted = true ∧ 1 ≤ threePlayerGame.players.length ∧
    threePlayerGame.currentPlayerIndex < threePlayerGame.players.length ∧
    (endTurn^[3] threePlayerGame).currentPlayerIndex = 1 ∧
    ∀ k, 1 ≤ k → k ≤ 3 →
      (endTurn^[k] threePlayerGame).currentTurnActions
        = { movementUsed := false, mainActionUsed := false, bonusActions := [] } :=
  ⟨rfl, by decide, by decide,
    (endTurn_rotation threePlayerGame rfl (by decide) (by decide)).1,
    (endTurn_rotation threePlayerGame rfl (by decide) (by decide)).2⟩

theorem stepMove_stable (g : Game) (op : MoveOp) (hm : g.isMoving = false)
    (hu : g.currentTurnActions.movementUsed = true) : stepMove g op = g := by
  cases op with
  | startMovementPhase =>
    simp only [stepMove, startMovementPhase, hu]
    split <;> simp
  | startMovementAction =>
    simp only [stepMove, startMovementAction, hu]
    split <;> simp
  | onTileClick tileId => simp [stepMove, onTileClick, hm]

theorem runMoves_stable (ops : List MoveOp) (g : Game) (hm : g.isMoving = false)
    (hu : g.currentTurnActions.movementUsed = true) : runMoves g ops = g := by
  induction ops with
  | nil => rfl
  | cons op rest ih =>
    simp only [runMoves]
    rw [stepMove_stable g op hm hu]
    exact ih

/-- C5: after one `onTileClick` has moved the current player (a movement phase was active
and the tile was a key of `reachableTiles`), every further sequence of `startMovementPhase`,
`startMovementAction` and `onTileClick` calls in the same turn leaves the whole game state,
and so every player's position, unchanged: the click ended the phase (`isMoving` false) and
set `movementUsed`, and no entry point re-enters the phase while `movementUsed` is true. -/
theorem one_move_per_turn (g : Game) (tileId : Tile) (cur : Player)
    (hmov : g.isMoving = true) (hreach : (mapGet g.reachableTiles tileId).isSome = true)
    (hcur : currentPlayer g = some cur) (ops : List MoveOp) :
    (onTileClick g tileId).players
      = g.players.set g.currentPlayerIndex { cur with position := tileId } ∧
    (onTileClick g tileId).isMoving = false ∧
    (onTileClick g tileId).currentTurnActions.movementUsed = true ∧
    runMoves (onTileClick g tileId) ops = onTileClick g tileId ∧
    (runMoves (onTileClick g tileId) ops).players.map (fun p => p.position)
      = (onTileClick g tileId).players.map (fun p => p.position) := by
  have hnone : (mapGet g.reachableTiles tileId).isNone = false := by
    cases h : mapGet g.reachableTiles tileId with
    | none => rw [h] at hreach; cases hreach
    | some v => rfl
  have h1 : (onTileClick g tileId).isMoving = false := by
    simp [onTileClick, hmov, hnone, hcur, finishMove]
  have h2 : (onTileClick g tileId).currentTurnActions.movementUsed = true := by
    simp [onTileClick, hmov, hnone, hcur, finishMove]
  have h3 := runMoves_stable ops (onTileClick g tileId) h1 h2
  refine ⟨?_, h1, h2, h3, by rw [h3]⟩
  simp [onTileClick, hmov, hnone, hcur, finishMove, setPlayer]

/-- C5 on the scenario graph: `p1` moves from `A` to `C`; clicking `B`, asking for a new
movement phase and clicking `A` afterwards leave `p1` on `C`. -/
theorem one_move_per_turn_witness :
    movingGame.isMoving = true ∧
    (mapGet movingGame.reachableTiles (some "C")).isSome = true ∧
    currentPlayer movingGame = some (samplePlayer "p1" (some "A") 2) ∧
    (runMoves (onTileClick movingGame (some "C"))
        [.onTileClick (some "B"), .startMovementAction, .startMovementPhase,
         .onTileClick (some "A")]).players.map (fun p => p.position)
      = [some "C"] :=
  ⟨by decide, by decide, by decide,
    ((one_move_per_turn movingGame (some "C") (samplePlayer "p1" (some "A") 2)
      (by decide) (by decide) (by decide)
      [.onTileClick (some "B"), .startMovementAction, .startMovementPhase,
       .onTileClick (some "A")]).2.2.2.2).trans (by decide)⟩

end Turns

section Mounting

/-- C8, the code at the failing input: the card requires `tecnologia`, and the character of
the current player has that talent with the values 6, 5, 4, 2.  For the player holding it
at level 3 (value 2) `getPlayerTalents` builds the entry `{level: 3, value: 2}`, without
`mountingRounds`, and the round count is the default 6, the same as at level 0; the entry's
own round count is used only by the branch of line 2609, for a table that carries
`mountingRounds` (it then gives 2), and no table of `getPlayerTalents` does. -/
theorem holder_gets_default_rounds :
    getPlayerTalents techEnv.characters (techPlayer 3)
      = [("tecnologia", { level := 3, value := some 2, mountingRounds := none })] ∧
    calculateMountingRounds defaultMountingRounds (mountableCard "radio" ["tecnologia"])
      (getPlayerTalents techEnv.characters (techPlayer 3)) = some 6 ∧
    calculateMountingRounds defaultMountingRounds (mountableCard "radio" ["tecnologia"])
      (getPlayerTalents techEnv.characters (techPlayer 0)) = some 6 ∧
    calculateMountingRounds defaultMountingRounds (mountableCard "radio" ["tecnologia"])
      [("tecnologia", { level := 3, value := some 2, mountingRounds := some 2 })] = some 2 := by
  decide

/-- C9: for a card that is not mounted and has progress 0, held by the current player
standing on a location tile, if the round count evaluates to 0 then the body of
`startMounting` completes the card at once (`mounted = true`, `mountingProgress = 0`),
changes nothing else and leaves `currentTurnActions`, so also `mainActionUsed`, as it was. -/
theorem startMounting_zero_rounds (talentsOf : Player → PlayerTalents) (g : Game)
    (cardIndex : Nat) (cur : Player) (cards : List (Option Card)) (card : Card)
    (hcur : currentPlayer g = some cur) (hcards : cur.cards = some cards)
    (hcard : cards[cardIndex]? = some (some card))
    (hloc : isPlayerInLocation cur = true) (hnm : card.mounted = false)
    (hprog : card.mountingProgress.getD 0 = 0)
    (hzero : calculateMountingRounds g.defaultMountingRounds card (talentsOf cur) = some 0) :
    startMountingWith talentsOf g cardIndex
      = setCard g cur cards cardIndex { card with mounted := true, mountingProgress := some 0 } ∧
    cardAt (startMountingWith talentsOf g cardIndex) g.currentPlayerIndex cardIndex
      = some { card with mounted := true, mountingProgress := some 0 } ∧
    (startMountingWith talentsOf g cardIndex).currentTurnActions = g.currentTurnActions ∧
    (g.currentTurnActions.mainActionUsed = false →
      (startMountingWith talentsOf g cardIndex).currentTurnActions.mainActionUsed = false) := by
  have he : startMountingWith talentsOf g cardIndex
      = setCard g cur cards cardIndex { card with mounted := true, mountingProgress := some 0 } := by
    simp [startMountingWith, hcur, hcards, hcard, hloc, hnm, hprog, hzero]
  have hlt := currentPlayer_lt g cur hcur
  have hci : cardIndex < cards.length := by
    obtain ⟨h, _⟩ := List.getElem?_eq_some_iff.1 hcard
    exact h
  refine ⟨he, ?_, ?_, ?_⟩
  · rw [he]
    simp [cardAt, cardSlot, setCard, setPlayer, List.getElem?_set_self hlt,
      List.getElem?_set_self hci]
  · rw [he]; rfl
  · intro h; rw [he]; exact h

/-- C9 on a card requiring `geografia`, with a talents table granting 0 rounds: the card is
mounted at once and `mainActionUsed` stays false. -/
theorem startMounting_zero_rounds_witness :
    currentPlayer mountingGame
      = some { samplePlayer "p1" (some "ArthurHouse") 2 with
               cards := some [some (mountableCard "radio" ["geografia"])] } ∧
    calculateMountingRounds mountingGame.defaultMountingRounds
      (mountableCard "radio" ["geografia"])
      (zeroRoundTalents { samplePlayer "p1" (some "ArthurHouse") 2 with
               cards := some [some (mountableCard "radio" ["geografia"])] }) = some 0 ∧
    cardAt (startMountingWith zeroRoundTalents mountingGame 0) 0 0
      = some { mountableCard "radio" ["geografia"] with
               mounted := true, mountingProgress := some 0 } ∧
    (startMountingWith zeroRoundTalents mountingGame 0).currentTurnActions.mainActionUsed
      = false :=
  ⟨by decide, by decide,
    (startMounting_zero_rounds zeroRoundTalents mountingGame 0
      { samplePlayer "p1" (some "ArthurHouse") 2 with
        cards := some [some (mountableCard "radio" ["geografia"])] }
      [some (mountableCard "radio" ["geografia"])] (mountableCard "radio" ["geografia"])
      (by decide) rfl rfl (by decide) rfl rfl (by decide)).2.1,
    (startMounting_zero_rounds zeroRoundTalents mountingGame 0
      { samplePlayer "p1" (some "ArthurHouse") 2 with
        cards := some [some (mountableCard "radio" ["geografia"])] }
      [some (mountableCard "radio" ["geografia"])] (mountableCard "radio" ["geografia"])
      (by decide) rfl rfl (by decide) rfl rfl (by decide)).2.2.2 (by decide)⟩

/-- C6 as stated fails: with 3 rounds required, the stored progress of the card goes
1, 2 and then back to 0 at the call that completes it.  And for a card requiring the
talent `constructor` the round count is not a number: the stored progress goes on to 6
over six calls and the card is never mounted. -/
theorem mounting_progress_resets :
    (roundsRequired sampleEnv mountingGame
        { samplePlayer "p1" (some "ArthurHouse") 2 with
          cards := some [some (mountableCard "radio" ["geografia"])] }
        (mountableCard "radio" ["geografia"]) = some 3 ∧
     (cardAt (runMount sampleEnv mountingGame [.startMounting 0]) 0 0).map
        (fun c => (c.mounted, c.mountingProgress)) = some (false, some 1) ∧
     (cardAt (runMount sampleEnv mountingGame
        [.startMounting 0, .endTurn, .advanceMounting 0]) 0 0).map
        (fun c => (c.mounted, c.mountingProgress)) = some (false, some 2) ∧
     (cardAt (runMount sampleEnv mountingGame
        [.startMounting 0, .endTurn, .advanceMounting 0, .endTurn, .advanceMounting 0]) 0 0).map
        (fun c => (c.mounted, c.mountingProgress)) = some (true, some 0)) ∧
    (roundsRequired sampleEnv inheritedTalentGame
        { samplePlayer "p1" (some "ArthurHouse") 2 with
          cards := some [some (mountableCard "radio" ["constructor"])] }
        (mountableCard "radio" ["constructor"]) = none ∧
     (cardAt (runMount sampleEnv inheritedTalentGame
        [.startMounting 0, .endTurn, .advanceMounting 0, .endTurn, .advanceMounting 0,
         .endTurn, .advanceMounting 0, .endTurn, .advanceMounting 0, .endTurn,
         .advanceMounting 0]) 0 0).map
        (fun c => (c.mounted, c.mountingProgress)) = some (false, some 6)) := by
  decide

theorem setCard_view (g g1 : Game) (cur : Player) (cards : List (Option Card))
    (cardIndex : Nat) (card card1 : Card)
    (hcur : currentPlayer g = some cur) (hcards : cur.cards = some cards)
    (hcard : cards[cardIndex]? = some (some card))
    (hp1 : g1.players = g.players) (hi1 : g1.currentPlayerIndex = g.currentPlayerIndex)
    (rounds : Player → Card → Option Nat) (hlaw : StepLaw (rounds cur card) card card1) :
    MountView rounds g (setCard g1 cur cards cardIndex card1) := by
  intro pi p hp
  have hlt := currentPlayer_lt g cur hcur
  have hci : cardIndex < cards.length := by
    obtain ⟨h, _⟩ := List.getElem?_eq_some_iff.1 hcard
    exact h
  by_cases hpi : g.currentPlayerIndex = pi
  · subst hpi
    have hpc : p = cur := by
      unfold currentPlayer at hcur
      rw [hcur] at hp
      exact (Option.some.inj hp).symm
    subst hpc
    refine ⟨{ p with cards := some (cards.set cardIndex (some card1)) }, ?_, rfl, rfl, ?_⟩
    · simp [setCard, setPlayer, hp1, hi1, List.getElem?_set_self hlt]
    · intro ci c hc
      by_cases hcc : cardIndex = ci
      · subst hcc
        have hce : c = card := by
          simp [cardSlot, hcards, hcard] at hc
          exact hc.symm
        subst hce
        exact ⟨card1, by simp [cardSlot, List.getElem?_set_self hci], hlaw⟩
      · refine ⟨c, ?_, Or.inl rfl⟩
        simp only [cardSlot, hcards] at hc ⊢
        rw [List.getElem?_set_ne hcc]
        exact hc
  · refine ⟨p, ?_, rfl, rfl, fun ci c hc => ⟨c, hc, Or.inl rfl⟩⟩
    simp only [setCard, setPlayer, hp1, hi1]
    rw [List.getElem?_set_ne hpi]
    exact hp

theorem MountView.refl (rounds : Player → Card → Option Nat) (g : Game) :
    MountView rounds g g :=
  fun _ p hp => ⟨p, hp, rfl, rfl, fun _ c hc => ⟨c, hc, Or.inl rfl⟩⟩

theorem MountView.of_players (rounds : Player → Card → Option Nat) (g g1 : Game)
    (h : g1.players = g.players) : MountView rounds g g1 := by
  intro pi p hp
  exact ⟨p, by rw [h]; exact hp, rfl, rfl, fun _ c hc => ⟨c, hc, Or.inl rfl⟩⟩

theorem startMountingWith_view (talentsOf : Player → PlayerTalents) (g : Game)
    (cardIndex : Nat) :
    (startMountingWith talentsOf g cardIndex).defaultMountingRounds = g.defaultMountingRounds ∧
    MountView (fun p c => calculateMountingRounds g.defaultMountingRounds c (talentsOf p)) g
      (startMountingWith talentsOf g cardIndex) := by
  cases hcur : currentPlayer g with
  | none => simp only [startMountingWith, hcur]; exact ⟨trivial, MountView.refl _ g⟩
  | some cur =>
    cases hcards : cur.cards with
    | none => simp only [startMountingWith, hcur, hcards]; exact ⟨trivial, MountView.refl _ g⟩
    | some cards =>
      cases hcard : cards[cardIndex]? with
      | none =>
        simp only [startMountingWith, hcur, hcards, hcard]; exact ⟨trivial, MountView.refl _ g⟩
      | some oc =>
        cases oc with
        | none =>
          simp only [startMountingWith, hcur, hcards, hcard]; exact ⟨trivial, MountView.refl _ g⟩
        | some card =>
          simp only [startMountingWith, hcur, hcards, hcard]
          split_ifs with h1 h2 h3 h4 h5 h6
          · exact ⟨rfl, MountView.refl _ g⟩
          · exact ⟨rfl, MountView.refl _ g⟩
          · exact ⟨rfl, MountView.refl _ g⟩
          · refine ⟨rfl, setCard_view g g cur cards cardIndex card _ hcur hcards hcard rfl rfl _ ?_⟩
            refine Or.inr ⟨by simpa using h2, Or.inl ⟨?_, rfl⟩⟩
            simp only [h4, jsGe]
            simp
          · exact ⟨rfl, MountView.refl _ g⟩
          · refine ⟨rfl, setCard_view g _ cur cards cardIndex card _ hcur hcards hcard rfl rfl _ ?_⟩
            have hp0 : card.mountingProgress.getD 0 = 0 := by omega
            refine Or.inr ⟨by simpa using h2, Or.inl ⟨?_, rfl⟩⟩
            rw [hp0]; exact h6
          · refine ⟨rfl, setCard_view g _ cur cards cardIndex card _ hcur hcards hcard rfl rfl _ ?_⟩
            have hp0 : card.mountingProgress.getD 0 = 0 := by omega
            refine Or.inr ⟨by simpa using h2, Or.inr ⟨?_, ?_⟩⟩
            · rw [hp0]; simpa using h6
            · rw [hp0]

theorem advanceMountingWith_view (talentsOf : Player → PlayerTalents) (g : Game)
    (cardIndex : Nat) :
    (advanceMountingWith talentsOf g cardIndex).defaultMountingRounds
      = g.defaultMountingRounds ∧
    MountView (fun p c => calculateMountingRounds g.defaultMountingRounds c (talentsOf p)) g
      (advanceMountingWith talentsOf g cardIndex) := by
  cases hcur : currentPlayer g with
  | none => simp only [advanceMountingWith, hcur]; exact ⟨trivial, MountView.refl _ g⟩
  | some cur =>
    cases hcards : cur.cards with
    | none => simp only [advanceMountingWith, hcur, hcards]; exact ⟨trivial, MountView.refl _ g⟩
    | some cards =>
      cases hcard : cards[cardIndex]? with
      | none =>
        simp only [advanceMountingWith, hcur, hcards, hcard]; exact ⟨trivial, MountView.refl _ g⟩
      | some oc =>
        cases oc with
        | none =>
          simp only [advanceMountingWith, hcur, hcards, hcard]
          exact ⟨trivial, MountView.refl _ g⟩
        | some card =>
          simp only [advanceMountingWith, hcur, hcards, hcard]
          split_ifs with h1 h2 h3 h4 h5
          · exact ⟨rfl, MountView.refl _ g⟩
          · exact ⟨rfl, MountView.refl _ g⟩
          · exact ⟨rfl, MountView.refl _ g⟩
          · exact ⟨rfl, MountView.refl _ g⟩
          · refine ⟨rfl, setCard_view g _ cur cards cardIndex card _ hcur hcards hcard rfl rfl _ ?_⟩
            exact Or.inr ⟨by simpa using h3, Or.inl ⟨h5, rfl⟩⟩
          · refine ⟨rfl, setCard_view g _ cur cards cardIndex card _ hcur hcards hcard rfl rfl _ ?_⟩
            exact Or.inr ⟨by simpa using h3, Or.inr ⟨by simpa using h5, rfl⟩⟩

theorem roundsRequired_congr (env : Env) (g g1 : Game) (p p1 : Player) (c c1 : Card)
    (hg : g.defaultMountingRounds = g1.defaultMountingRounds)
    (hp : p.characterId = p1.characterId) (hs : p.state = p1.state)
    (hc : c.mounting = c1.mounting) :
    roundsRequired env g p c = roundsRequired env g1 p1 c1 := by
  unfold roundsRequired calculateMountingRounds getPlayerTalents playerLevel
  rw [hg, hp, hs, hc]

theorem endTurn_players_defaults (g : Game) :
    (endTurn g).players = g.players ∧
    (endTurn g).defaultMountingRounds = g.defaultMountingRounds := by
  have hcalc : ∀ x : Game, (calculateReachableTiles x).players = x.players ∧
      (calculateReachableTiles x).defaultMountingRounds = x.defaultMountingRounds := by
    intro x
    unfold calculateReachableTiles
    split
    · simp
    · split
      · simp
      · split <;> simp
  have hphase : ∀ x : Game, (startMovementPhase x).players = x.players ∧
      (startMovementPhase x).defaultMountingRounds = x.defaultMountingRounds := by
    intro x
    unfold startMovementPhase
    split
    · simp
    · split
      · exact hcalc { x with isMoving := true, selectedTile := none }
      · simp
  have hnext : ∀ x : Game, (nextTurn x).players = x.players ∧
      (nextTurn x).defaultMountingRounds = x.defaultMountingRounds := by
    intro x
    have hf := hphase
      { x with currentPlayerIndex := (x.currentPlayerIndex + 1) % x.players.length }
    unfold nextTurn
    simp only
    split
    · simp
    · split
      · simp
      · exact hf
  unfold endTurn
  split_ifs
  · simp
  · simp
  · exact hnext { g with currentTurnActions := freshTurnActions }

theorem stepMount_view (env : Env) (g : Game) (op : MountOp) :
    (stepMount env g op).defaultMountingRounds = g.defaultMountingRounds ∧
    MountView (fun p c => roundsRequired env g p c) g (stepMount env g op) := by
  cases op with
  | startMounting i => exact startMountingWith_view (getPlayerTalents env.characters) g i
  | advanceMounting i => exact advanceMountingWith_view (getPlayerTalents env.characters) g i
  | endTurn =>
    obtain ⟨h1, h2⟩ := endTurn_players_defaults g
    exact ⟨h2, MountView.of_players _ g (endTurn g) h1⟩

theorem StepLaw.keeps (rounds : Nat) (c c1 : Card) (h : StepLaw (some rounds) c c1)
    (hlt : c.mountingProgress.getD 0 < rounds) :
    c1.mounting = c.mounting ∧ c1.mountingProgress.getD 0 < rounds := by
  rcases h with h | ⟨_, ⟨_, h⟩ | ⟨hl, h⟩⟩
  · subst h; exact ⟨rfl, hlt⟩
  · subst h
    refine ⟨rfl, ?_⟩
    simp only [Option.getD_some]
    omega
  · subst h
    refine ⟨rfl, ?_⟩
    simp only [jsGe, decide_eq_false_iff_not, not_le] at hl
    simpa using hl

theorem MountInv.step (env : Env) (defaults : List (String × Nat)) (p0 : Player) (c0 : Card)
    (rounds pi ci : Nat) (g : Game) (op : MountOp)
    (h : MountInv env defaults p0 c0 rounds pi ci g) :
    MountInv env defaults p0 c0 rounds pi ci (stepMount env g op) ∧
    ∃ c c1, cardAt g pi ci = some c ∧ cardAt (stepMount env g op) pi ci = some c1 ∧
      StepLaw (some rounds) c c1 ∧ c.mountingProgress.getD 0 < rounds := by
  obtain ⟨hdm, hrounds, p, c, hp, hch, hst, hslot, hmt, hlt⟩ := h
  obtain ⟨hdm1, hview⟩ := stepMount_view env g op
  obtain ⟨p1, hp1, hch1, hst1, hcards⟩ := hview pi p hp
  obtain ⟨c1, hslot1, hlaw⟩ := hcards ci c hslot
  have hR : roundsRequired env g p c = some rounds := by
    rw [← hrounds]
    unfold roundsRequired calculateMountingRounds getPlayerTalents playerLevel
    rw [hdm, hch, hst, hmt]
  simp only [hR] at hlaw
  obtain ⟨k1, k2⟩ := StepLaw.keeps _ c c1 hlaw hlt
  refine ⟨⟨by rw [hdm1, hdm], hrounds, p1, c1, hp1, by rw [hch1, hch], by rw [hst1, hst],
    hslot1, by rw [k1, hmt], k2⟩, c, c1, ?_, ?_, hlaw, hlt⟩
  · simp [cardAt, hp, hslot]
  · simp [cardAt, hp1, hslot1]

theorem MountInv.run (env : Env) (defaults : List (String × Nat)) (p0 : Player) (c0 : Card)
    (rounds pi ci : Nat) (ops : List MountOp) :
    ∀ g : Game, MountInv env defaults p0 c0 rounds pi ci g →
      MountInv env defaults p0 c0 rounds pi ci (runMount env g ops) := by
  induction ops with
  | nil => intro g h; exact h
  | cons op rest ih =>
    intro g h
    exact ih _ (MountInv.step env defaults p0 c0 rounds pi ci g op h).1

/-- C6 (amended): take a card whose round count `roundsRequired` is a number and whose
stored progress is below it (a freshly drawn card has progress 0), and any sequence of
`startMounting`, `advanceMounting` and `endTurn` calls, the player's talents staying as
they are.  At every further call the stored `mountingProgress` never exceeds
`roundsRequired`; a mounted card is left unchanged by every call; and on a card not yet
mounted a call either changes nothing, or adds one to the progress while that stays below
`roundsRequired`, or, exactly when the progress plus one reaches `roundsRequired`, sets
`mounted = true` and resets the stored progress to 0. -/
theorem mounting_progress_law (env : Env) (g0 : Game) (pi ci : Nat) (p0 : Player) (c0 : Card)
    (rounds : Nat)
    (hp : g0.players[pi]? = some p0) (hc : cardSlot p0 ci = some c0)
    (hrounds : roundsRequired env g0 p0 c0 = some rounds)
    (hlt : c0.mountingProgress.getD 0 < rounds)
    (ops : List MountOp) (op : MountOp) :
    ∃ c1 c2, cardAt (runMount env g0 ops) pi ci = some c1 ∧
      cardAt (stepMount env (runMount env g0 ops) op) pi ci = some c2 ∧
      c2.mountingProgress.getD 0 ≤ rounds ∧
      (c1.mounted = true → c2 = c1) ∧
      (c1.mounted = false →
        c2 = c1 ∨
        (c1.mountingProgress.getD 0 + 1 = rounds ∧
          c2 = { c1 with mounted := true, mountingProgress := some 0 }) ∨
        (c1.mountingProgress.getD 0 + 1 < rounds ∧
          c2 = { c1 with mountingProgress := some (c1.mountingProgress.getD 0 + 1) })) := by
  have h0 : MountInv env g0.defaultMountingRounds p0 c0 rounds pi ci g0 :=
    ⟨rfl, hrounds, p0, c0, hp, rfl, rfl, hc, rfl, hlt⟩
  have hrun := MountInv.run env g0.defaultMountingRounds p0 c0 rounds pi ci ops g0 h0
  obtain ⟨hinv, c1, c2, h1, h2, hlaw, hlt1⟩ :=
    MountInv.step env g0.defaultMountingRounds p0 c0 rounds pi ci _ op hrun
  obtain ⟨_, k2⟩ := StepLaw.keeps _ c1 c2 hlaw hlt1
  refine ⟨c1, c2, h1, h2, Nat.le_of_lt k2, ?_, ?_⟩
  · intro hm
    rcases hlaw with h | ⟨hf, _⟩
    · exact h
    · rw [hm] at hf; cases hf
  · intro _
    rcases hlaw with h | ⟨_, ⟨hle, h⟩ | ⟨hl, h⟩⟩
    · exact Or.inl h
    · refine Or.inr (Or.inl ⟨?_, h⟩)
      simp only [jsGe, decide_eq_true_eq] at hle
      omega
    · refine Or.inr (Or.inr ⟨?_, h⟩)
      simp only [jsGe, decide_eq_false_iff_not, not_le] at hl
      exact hl

/-- C6 (amended) on a card that needs 3 rounds: after start, end of turn, advance and end
of turn the progress is 2, and the next `advanceMounting` completes the card. -/
theorem mounting_progress_law_witness :
    mountingGame.players[0]?
      = some { samplePlayer "p1" (some "ArthurHouse") 2 with
               cards := some [some (mountableCard "radio" ["geografia"])] } ∧
    roundsRequired sampleEnv mountingGame
        { samplePlayer "p1" (some "ArthurHouse") 2 with
          cards := some [some (mountableCard "radio" ["geografia"])] }
        (mountableCard "radio" ["geografia"]) = some 3 ∧
    (mountableCard "radio" ["geografia"]).mountingProgress.getD 0 < 3 ∧
    cardAt (stepMount sampleEnv (runMount sampleEnv mountingGame
        [.startMounting 0, .endTurn, .advanceMounting 0, .endTurn]) (.advanceMounting 0)) 0 0
      = some { mountableCard "radio" ["geografia"] with
               mounted := true, mountingProgress := some 0 } ∧
    ∃ c1 c2, cardAt (runMount sampleEnv mountingGame
        [.startMounting 0, .endTurn, .advanceMounting 0, .endTurn]) 0 0 = some c1 ∧
      cardAt (stepMount sampleEnv (runMount sampleEnv mountingGame
        [.startMounting 0, .endTurn, .advanceMounting 0, .endTurn]) (.advanceMounting 0)) 0 0
        = some c2 ∧
      c2.mountingProgress.getD 0 ≤ 3 ∧ (c1.mounted = true → c2 = c1) :=
  ⟨by decide, by decide, by decide, by decide,
    (mounting_progress_law sampleEnv mountingGame 0 0
      { samplePlayer "p1" (some "ArthurHouse") 2 with
        cards := some [some (mountableCard "radio" ["geografia"])] }
      (mountableCard "radio" ["geografia"]) 3 (by decide) (by decide) (by decide) (by decide)
      [.startMounting 0, .endTurn, .advanceMounting 0, .endTurn] (.advanceMounting 0)).imp
      (fun _ h => h.imp (fun _ h2 => ⟨h2.1, h2.2.1, h2.2.2.1, h2.2.2.2.1⟩))⟩

end Mounting

section Reconciler

theorem orElse_idem {α : Type} (x y : Option α) : (x <|> (x <|> y)) = (x <|> y) := by
  cases x <;> rfl

theorem mergeState_idem (old patch : Option PlayerState) :
    mergeState (some (mergeState old patch)) patch = mergeState old patch := by
  simp [mergeState, orElse_idem]

theorem updateFirst_idem (playerId : String) (f : Player → Player)
    (hid : ∀ p, (f p).id = p.id) (hf : ∀ p, f (f p) = f p) (l : List Player) :
    updateFirst playerId f (updateFirst playerId f l) = updateFirst playerId f l := by
  induction l with
  | nil => rfl
  | cons p rest ih =>
    by_cases h : p.id = playerId
    · simp [updateFirst, h, hid, hf]
    · simp [updateFirst, h, ih]

theorem applyPlayerData_id (playerData : PlayerData) (p : Player) :
    (applyPlayerData playerData p).id = p.id := by
  unfold applyPlayerData
  cases playerData.position <;> cases playerData.state <;> cases playerData.cards <;>
    cases playerData.inventory <;> simp <;> split_ifs <;> rfl

theorem applyPlayerData_idem (playerData : PlayerData) (p : Player) :
    applyPlayerData playerData (applyPlayerData playerData p) = applyPlayerData playerData p := by
  unfold applyPlayerData
  cases hpos : playerData.position with
  | none =>
    cases playerData.state <;> cases playerData.cards <;> cases playerData.inventory <;>
      simp [mergeState_idem]
  | some pos =>
    by_cases hc : pos ≠ "" ∧ some pos ≠ p.position
    · cases playerData.state <;> cases playerData.cards <;> cases playerData.inventory <;>
        simp [hc, mergeState_idem]
    · cases playerData.state <;> cases playerData.cards <;> cases playerData.inventory <;>
        simp [hc, mergeState_idem]

theorem findIndex_eq_none (playerId : String) (l : List Player)
    (h : playerId ∉ l.map (fun p => p.id)) : findIndex playerId l = none := by
  induction l with
  | nil => rfl
  | cons p rest ih =>
    have hne : p.id ≠ playerId := by
      intro he; apply h; simp [he]
    have hr : playerId ∉ rest.map (fun p => p.id) := by
      intro hm; apply h; simp only [List.map_cons, List.mem_cons]; exact Or.inr hm
    simp [findIndex, hne, ih hr]

theorem findIndex_eraseIdx (playerId : String) (l : List Player)
    (hn : (l.map (fun p => p.id)).Nodup) :
    ∀ i, findIndex playerId l = some i → findIndex playerId (l.eraseIdx i) = none := by
  induction l with
  | nil => intro i h; cases h
  | cons p rest ih =>
    intro i h
    have hn1 := List.nodup_cons.1 hn
    by_cases hp : p.id = playerId
    · simp only [findIndex, hp, if_true, Option.some.injEq] at h
      subst h
      simp only [List.eraseIdx_cons_zero]
      apply findIndex_eq_none
      rw [← hp]
      exact hn1.1
    · simp only [findIndex, hp, if_false] at h
      cases hf : findIndex playerId rest with
      | none => rw [hf] at h; cases h
      | some j =>
        rw [hf] at h
        simp only [Option.map_some', Option.some.injEq] at h
        subst h
        simp only [List.eraseIdx_cons_succ, findIndex, hp, if_false]
        rw [ih hn1.2 j hf]
        rfl

theorem removePlayerById_idem (g : Game) (playerId : String)
    (hn : (g.players.map (fun p => p.id)).Nodup) :
    removePlayerById (removePlayerById g playerId) playerId = removePlayerById g playerId := by
  cases hf : findIndex playerId g.players with
  | none => simp [removePlayerById, hf]
  | some i =>
    have h2 := findIndex_eraseIdx playerId g.players hn i hf
    simp [removePlayerById, hf, h2]

theorem calculateReachableTiles_eq (g : Game) :
    calculateReachableTiles g
      = { g with reachableTiles := (calculateReachableTiles g).reachableTiles } := by
  unfold calculateReachableTiles
  split
  · rfl
  · split
    · rfl
    · split <;> rfl

theorem startMovementPhase_eq (g : Game) :
    startMovementPhase g
      = { g with isMoving := (startMovementPhase g).isMoving
                 selectedTile := (startMovementPhase g).selectedTile
                 reachableTiles := (startMovementPhase g).reachableTiles } := by
  unfold startMovementPhase
  split
  · rfl
  · split
    · have h := calculateReachableTiles_eq { g with isMoving := true, selectedTile := none }
      have hm := (calculateReachableTiles_frame
        { g with isMoving := true, selectedTile := none }).2.2.2.2
      generalize calculateReachableTiles { g with isMoving := true, selectedTile := none } = r
        at h hm
      rw [h]
    · rfl

theorem onTurnEnded_idem (g : Game) (i : Nat) :
    onTurnEnded (onTurnEnded g i) i = onTurnEnded g i := by
  have hbase : ∀ x : Game,
      (x = clearHighlights
            { g with currentPlayerIndex := i, currentTurnActions := freshTurnActions } ∨
       x = startMovementPhase (clearHighlights
            { g with currentPlayerIndex := i, currentTurnActions := freshTurnActions })) →
      clearHighlights { x with currentPlayerIndex := i, currentTurnActions := freshTurnActions }
        = clearHighlights
            { g with currentPlayerIndex := i, currentTurnActions := freshTurnActions } := by
    intro x hx
    rcases hx with h | h
    · rw [h]; rfl
    · rw [h, startMovementPhase_eq]; rfl
  have hres : onTurnEnded g i = clearHighlights
        { g with currentPlayerIndex := i, currentTurnActions := freshTurnActions } ∨
      onTurnEnded g i = startMovementPhase (clearHighlights
        { g with currentPlayerIndex := i, currentTurnActions := freshTurnActions }) := by
    unfold onTurnEnded
    simp only
    split
    · exact Or.inl rfl
    · split
      · exact Or.inr rfl
      · exact Or.inl rfl
  have hb := hbase (onTurnEnded g i) hres
  have key : ∀ x y : Game,
      clearHighlights { x with currentPlayerIndex := i, currentTurnActions := freshTurnActions }
        = clearHighlights
            { y with currentPlayerIndex := i, currentTurnActions := freshTurnActions } →
      onTurnEnded x i = onTurnEnded y i := by
    intro x y h
    unfold onTurnEnded
    simp only [h]
  exact key _ _ hb

theorem updateFirst_ids (playerId : String) (f : Player → Player)
    (hid : ∀ p, (f p).id = p.id) (l : List Player) :
    (updateFirst playerId f l).map (fun p => p.id) = l.map (fun p => p.id) := by
  induction l with
  | nil => rfl
  | cons p rest ih =>
    by_cases h : p.id = playerId
    · simp [updateFirst, h, hid]
    · simp [updateFirst, h, ih]

theorem onPlayerAdded_ids_nodup (g : Game) (player : PlayerData)
    (hn : (g.players.map (fun p => p.id)).Nodup) :
    ((onPlayerAdded g player).players.map (fun p => p.id)).Nodup := by
  unfold onPlayerAdded
  split_ifs with h
  · exact hn
  · simp only [addRemotePlayer, List.map_append, List.map_cons, List.map_nil]
    refine List.nodup_append.2 ⟨hn, List.nodup_singleton _, ?_⟩
    intro a ha hb
    rw [List.mem_singleton] at hb
    subst hb
    apply h
    obtain ⟨p, hp, hpe⟩ := List.mem_map.1 ha
    exact List.any_eq_true.2 ⟨p, hp, by simp [hpe]⟩

theorem applyEvent_ids_nodup (g : Game) (e : RemoteEvent)
    (hn : (g.players.map (fun p => p.id)).Nodup) :
    ((applyEvent g e).players.map (fun p => p.id)).Nodup := by
  cases e with
  | roomUpdated room =>
    have hp : (onRoomUpdated g room).players = g.players := by
      unfold onRoomUpdated
      cases room.deck_quantities <;> cases room.card_quantities <;> rfl
    simp only [applyEvent, hp]; exact hn
  | playerAdded player => exact onPlayerAdded_ids_nodup g player hn
  | playerUpdated pd =>
    simp only [applyEvent, onPlayerUpdated]
    rw [updateFirst_ids _ _ (applyPlayerData_id pd)]
    exact hn
  | playerRemoved playerId =>
    simp only [applyEvent, removePlayerById]
    split
    · exact hn
    · exact hn.sublist ((List.eraseIdx_sublist _ _).map _)
  | movementConfirmed data =>
    simp only [applyEvent, onMovementConfirmed]
    rw [updateFirst_ids data.playerId (fun p => { p with position := data.newPosition })
      (fun _ => rfl)]
    exact hn
  | mainActionExecuted _ _ => exact hn
  | turnEnded i =>
    have hp : (onTurnEnded g i).players = g.players := by
      unfold onTurnEnded
      simp only
      split
      · rfl
      · split
        · exact (startMovementPhase_frame _).1
        · rfl
    simp only [applyEvent, hp]; exact hn
  | playerStateUpdated playerId state =>
    simp only [applyEvent, onPlayerStateUpdated]
    rw [updateFirst_ids playerId (fun p => { p with state := some (mergeState p.state state) })
      (fun _ => rfl)]
    exact hn

/-- C7 (amended): for every game state whose players have pairwise distinct ids and every
remote event of the kinds roomUpdated, playerAdded, playerUpdated, playerRemoved,
movementConfirmed, mainActionExecuted, turnEnded and playerStateUpdated, running the handler
twice in a row on the same event gives the same game state as running it once, and the ids
stay pairwise distinct (a repeated playerAdded inserts no second player with that id). -/
theorem applyEvent_idempotent (g : Game) (e : RemoteEvent)
    (hn : (g.players.map (fun p => p.id)).Nodup) :
    applyEvent (applyEvent g e) e = applyEvent g e ∧
    ((applyEvent (applyEvent g e) e).players.map (fun p => p.id)).Nodup := by
  have hidem : applyEvent (applyEvent g e) e = applyEvent g e := by
    cases e with
    | roomUpdated room =>
      simp only [applyEvent, onRoomUpdated]
      cases room.deck_quantities <;> cases room.card_quantities <;> rfl
    | playerAdded player =>
      simp only [applyEvent]
      by_cases h : g.players.any (fun p => p.id == player.id) = true
      · simp [onPlayerAdded, h]
      · have h2 : (addRemotePlayer g player).players.any (fun p => p.id == player.id) = true := by
          simp [addRemotePlayer]
        simp [onPlayerAdded, h, h2]
    | playerUpdated pd =>
      simp only [applyEvent, onPlayerUpdated]
      rw [updateFirst_idem _ _ (applyPlayerData_id pd) (applyPlayerData_idem pd)]
    | playerRemoved playerId => exact removePlayerById_idem g playerId hn
    | movementConfirmed data =>
      simp only [applyEvent, onMovementConfirmed]
      rw [updateFirst_idem data.playerId (fun p => { p with position := data.newPosition })
        (fun _ => rfl) (fun _ => rfl)]
    | mainActionExecuted _ _ => rfl
    | turnEnded i => exact onTurnEnded_idem g i
    | playerStateUpdated playerId state =>
      simp only [applyEvent, onPlayerStateUpdated]
      rw [updateFirst_idem playerId
        (fun p => { p with state := some (mergeState p.state state) })
        (fun _ => rfl) (fun p => by simp [mergeState_idem])]
  refine ⟨hidem, ?_⟩
  rw [hidem]
  exact applyEvent_ids_nodup g e hn

/-- C7 (amended) on the two-player registry: a duplicated `playerRemoved` for `p1` leaves
exactly `p2`. -/
theorem applyEvent_idempotent_witness :
    (twoPlayerGame.players.map (fun p => p.id)).Nodup ∧
    (applyEvent (applyEvent twoPlayerGame (.playerRemoved "p1")) (.playerRemoved "p1")).players.map
      (fun p => p.id) = ["p2"] ∧
    applyEvent (applyEvent twoPlayerGame (.playerRemoved "p1")) (.playerRemoved "p1")
      = applyEvent twoPlayerGame (.playerRemoved "p1") :=
  ⟨by decide, by decide,
    (applyEvent_idempotent twoPlayerGame (.playerRemoved "p1") (by decide)).1⟩

/-- C7 as stated fails: on a registry in which two entries carry the id `p1`, the
`playerRemoved` handler removes one entry per call, so running it twice leaves no player
while running it once leaves one. -/
theorem playerRemoved_twice_removes_two :
    (applyEvent duplicateIdGame (.playerRemoved "p1")).players.length = 1 ∧
    (applyEvent (applyEvent duplicateIdGame (.playerRemoved "p1"))
      (.playerRemoved "p1")).players.length = 0 := by
  decide

/-- C10, the code at the failing input: `p2` stands on `B`; the `movementConfirmed` event
carrying what `confirmMove("B", "p2")` broadcasts sets the position of `p2` to `undefined`,
because the handler reads `data.newPosition` and the payload has `tileId`. -/
theorem confirmMove_event_loses_position :
    twoPlayerGame.players.map (fun p => p.position) = [some "A", some "B"] ∧
    (applyEvent twoPlayerGame (.movementConfirmed (confirmMove "B" "p2"))).players.map
      (fun p => p.position) = [some "A", none] := by
  decide

end Reconciler

section Registry

theorem findIndex_lt (playerId : String) (l : List Player) :
    ∀ i, findIndex playerId l = some i → i < l.length := by
  induction l with
  | nil => intro i h; cases h
  | cons p rest ih =>
    intro i h
    by_cases hp : p.id = playerId
    · simp only [findIndex, hp, if_true, Option.some.injEq] at h
      subst h
      simp
    · simp only [findIndex, hp, if_false] at h
      cases hf : findIndex playerId rest with
      | none => rw [hf] at h; cases h
      | some j =>
        rw [hf] at h
        simp only [Option.map_some', Option.some.injEq] at h
        subst h
        have := ih j hf
        simp only [List.length_cons]
        omega

/-- C11: `removePlayerById` with an id no player has changes nothing; with a known id it
removes one player and sets `currentPlayerIndex` to 0 if it is `>=` the new length and
leaves it unchanged otherwise, so that the index is in range whenever players remain; in
particular removing a player while `currentPlayerIndex == players.length - 1` sets the
index to 0. -/
theorem removePlayerById_index (g : Game) (playerId : String) :
    (playerId ∉ g.players.map (fun p => p.id) → removePlayerById g playerId = g) ∧
    (∀ i, findIndex playerId g.players = some i →
      (removePlayerById g playerId).players = g.players.eraseIdx i ∧
      (removePlayerById g playerId).players.length + 1 = g.players.length ∧
      (removePlayerById g playerId).currentPlayerIndex
        = (if g.currentPlayerIndex ≥ (removePlayerById g playerId).players.length then 0
           else g.currentPlayerIndex) ∧
      ((removePlayerById g playerId).players ≠ [] →
        (removePlayerById g playerId).currentPlayerIndex
          < (removePlayerById g playerId).players.length) ∧
      (g.currentPlayerIndex + 1 = g.players.length →
        (removePlayerById g playerId).currentPlayerIndex = 0)) := by
  constructor
  · intro h
    simp [removePlayerById, findIndex_eq_none playerId g.players h]
  · intro i hi
    have hlt := findIndex_lt playerId g.players i hi
    have hlen : (g.players.eraseIdx i).length + 1 = g.players.length := by
      rw [List.length_eraseIdx, if_pos hlt]
      omega
    have hp : (removePlayerById g playerId).players = g.players.eraseIdx i := by
      simp [removePlayerById, hi]
    have hidx : (removePlayerById g playerId).currentPlayerIndex
        = (if g.currentPlayerIndex ≥ (g.players.eraseIdx i).length then 0
           else g.currentPlayerIndex) := by
      simp [removePlayerById, hi]
    refine ⟨hp, by rw [hp]; exact hlen, by rw [hp]; exact hidx, ?_, ?_⟩
    · intro hne
      rw [hp] at hne ⊢
      rw [hidx]
      have hpos : 0 < (g.players.eraseIdx i).length := List.length_pos.2 hne
      split_ifs with h
      · exact hpos
      · omega
    · intro hlast
      rw [hidx, if_pos (by omega)]

/-- C11, scenario 6: in the three-player game with the last player as current one,
removing that player wraps the index to 0; removing an unknown id changes nothing. -/
theorem removePlayerById_index_witness :
    findIndex "p3" { threePlayerGame with currentPlayerIndex := 2 }.players = some 2 ∧
    (removePlayerById { threePlayerGame with currentPlayerIndex := 2 } "p3").currentPlayerIndex
      = 0 ∧
    (removePlayerById { threePlayerGame with currentPlayerIndex := 2 } "p3").players.map
      (fun p => p.id) = ["p1", "p2"] ∧
    removePlayerById threePlayerGame "nobody" = threePlayerGame :=
  ⟨by decide,
    ((removePlayerById_index { threePlayerGame with currentPlayerIndex := 2 } "p3").2 2
      (by decide)).2.2.2.2 (by decide),
    by decide,
    (removePlayerById_index threePlayerGame "nobody").1 (by decide)⟩

/-- C12: `endTurn` changes nothing when the game has not started or there are no players;
otherwise it keeps the player list, sets `currentPlayerIndex` to
`(currentPlayerIndex + 1) mod players.length` and resets the turn flags to unused. -/
theorem endTurn_cases (g : Game) :
    ((g.gameStarted = false ∨ g.players.length = 0) → endTurn g = g) ∧
    (g.gameStarted = true → 0 < g.players.length →
      (endTurn g).players = g.players ∧
      (endTurn g).currentPlayerIndex = (g.currentPlayerIndex + 1) % g.players.length ∧
      (endTurn g).currentTurnActions
        = { movementUsed := false, mainActionUsed := false, bonusActions := [] }) := by
  constructor
  · intro h
    rcases h with h | h
    · simp [endTurn, h]
    · simp [endTurn, h]
  · intro hs hn
    obtain ⟨h1, h2, _, h4⟩ := endTurn_spec g hs hn
    exact ⟨h1, h2, h4⟩

/-- C12 on the three-player game: the turn passes from the second to the third player; the
same game not yet started is left as it is. -/
theorem endTurn_cases_witness :
    ({ threePlayerGame with gameStarted := false }.gameStarted = false ∨
      { threePlayerGame with gameStarted := false }.players.length = 0) ∧
    endTurn { threePlayerGame with gameStarted := false }
      = { threePlayerGame with gameStarted := false } ∧
    (endTurn threePlayerGame).currentPlayerIndex = 2 ∧
    (endTurn threePlayerGame).currentTurnActions
      = { movementUsed := false, mainActionUsed := false, bonusActions := [] } :=
  ⟨Or.inl rfl,
    (endTurn_cases { threePlayerGame with gameStarted := false }).1 (Or.inl rfl),
    ((endTurn_cases threePlayerGame).2 rfl (by decide)).2.1,
    ((endTurn_cases threePlayerGame).2 rfl (by decide)).2.2⟩

/-- C13: `onTileClick(tile)` changes nothing when no movement phase is active or `tile` is
not a key of `reachableTiles` (or there is no current player); otherwise it sets the current
player's position to `tile`, sets `movementUsed`, ends the movement phase (`isMoving` false,
`reachableTiles` empty) and changes nothing else: every other player, `mainActionUsed` and
`bonusActions` are as before. -/
theorem onTileClick_cases (g : Game) (tileId : Tile) :
    ((g.isMoving = false ∨ mapGet g.reachableTiles tileId = none ∨ currentPlayer g = none) →
      onTileClick g tileId = g) ∧
    (∀ cur, g.isMoving = true → (mapGet g.reachableTiles tileId).isSome = true →
      currentPlayer g = some cur →
      onTileClick g tileId =
        { g with
          players := g.players.set g.currentPlayerIndex { cur with position := tileId }
          currentTurnActions := { g.currentTurnActions with movementUsed := true }
          isMoving := false, selectedTile := none, reachableTiles := [] } ∧
      currentPlayer (onTileClick g tileId) = some { cur with position := tileId } ∧
      (∀ j, j ≠ g.currentPlayerIndex → (onTileClick g tileId).players[j]? = g.players[j]?) ∧
      (onTileClick g tileId).currentTurnActions.movementUsed = true ∧
      (onTileClick g tileId).currentTurnActions.mainActionUsed
        = g.currentTurnActions.mainActionUsed ∧
      (onTileClick g tileId).currentTurnActions.bonusActions
        = g.currentTurnActions.bonusActions ∧
      (onTileClick g tileId).isMoving = false ∧
      (onTileClick g tileId).reachableTiles = []) := by
  constructor
  · intro h
    rcases h with h | h | h
    · simp [onTileClick, h]
    · simp [onTileClick, h]
    · simp only [onTileClick, h]
      split_ifs <;> rfl
  · intro cur hm hr hc
    have hnone : (mapGet g.reachableTiles tileId).isNone = false := by
      cases h : mapGet g.reachableTiles tileId with
      | none => rw [h] at hr; cases hr
      | some v => rfl
    have he : onTileClick g tileId =
        { g with
          players := g.players.set g.currentPlayerIndex { cur with position := tileId }
          currentTurnActions := { g.currentTurnActions with movementUsed := true }
          isMoving := false, selectedTile := none, reachableTiles := [] } := by
      simp [onTileClick, hm, hnone, hc, finishMove, setPlayer]
    have hlt := currentPlayer_lt g cur hc
    refine ⟨he, ?_, ?_, ?_, ?_, ?_, ?_, ?_⟩
    · rw [he]; simp [currentPlayer, List.getElem?_set_self hlt]
    · intro j hj
      rw [he]
      simp only
      exact List.getElem?_set_ne (Ne.symm hj)
    all_goals rw [he]

/-- C13 on the scenario graph: during the movement phase of `p1` a click on `C` moves `p1`
there, and a click on the unreachable tile `Z` changes nothing. -/
theorem onTileClick_cases_witness :
    (movingGame.isMoving = false ∨ mapGet movingGame.reachableTiles (some "Z") = none ∨
      currentPlayer movingGame = none) ∧
    onTileClick movingGame (some "Z") = movingGame ∧
    currentPlayer (onTileClick movingGame (some "C"))
      = some (samplePlayer "p1" (some "C") 2) ∧
    (onTileClick movingGame (some "C")).reachableTiles = [] :=
  ⟨Or.inr (Or.inl (by decide)),
    (onTileClick_cases movingGame (some "Z")).1 (Or.inr (Or.inl (by decide))),
    ((onTileClick_cases movingGame (some "C")).2 (samplePlayer "p1" (some "A") 2)
      (by decide) (by decide) (by decide)).2.1,
    ((onTileClick_cases movingGame (some "C")).2 (samplePlayer "p1" (some "A") 2)
      (by decide) (by decide) (by decide)).2.2.2.2.2.2.2⟩

end Registry

section DrawEffects

theorem drawCardFromDeck_deckQuantities (env : Env) (g : Game) (d name : String) (r : Nat) :
    (drawCardFromDeck env g d name r).1.deckQuantities = g.deckQuantities := by
  unfold drawCardFromDeck
  repeat' (first | split | dsimp only)

theorem selectDeck_deckQuantities (env : Env) (g : Game) (d name : String) (r : Nat) :
    (selectDeck env g d name r).deckQuantities = g.deckQuantities ∨
    ∃ n, mapGet g.deckQuantities d = some (n + 1) ∧
      (selectDeck env g d name r).deckQuantities = mapSet g.deckQuantities d n := by
  have hdraw := drawCardFromDeck_deckQuantities env g d name r
  cases hcur : currentPlayer g with
  | none => left; simp [selectDeck, hcur]
  | some cur =>
    by_cases hemp : isDeckEmpty g d = true
    · left; simp [selectDeck, hcur, hemp]
    · simp only [selectDeck, hcur, hemp]
      cases hres : (drawCardFromDeck env g d name r).2 with
      | raised => left; simpa using hdraw
      | returned card =>
        cases hq : mapGet g.deckQuantities d with
        | none =>
          left
          simp [decrementDeck, hdraw, hq]
        | some v =>
          cases v with
          | zero =>
            left
            simp [decrementDeck, hdraw, hq]
          | succ n =>
            right
            refine ⟨n, rfl, ?_⟩
            cases card <;> simp [decrementDeck, hdraw, hq, setPlayer]

theorem selectDeck_quantity_le (env : Env) (g : Game) (d name : String) (r : Nat) (x : String) :
    getDeckQuantity (selectDeck env g d name r) x ≤ getDeckQuantity g x := by
  rcases selectDeck_deckQuantities env g d name r with h | ⟨n, hn, h⟩
  · simp only [getDeckQuantity, h]; exact Nat.le_refl _
  · simp only [getDeckQuantity, h]
    by_cases hx : d = x
    · subst hx
      rw [mapGet_mapSet_self, hn]
      simp
    · rw [mapGet_mapSet_of_ne _ _ _ _ hx]

theorem drawAll_quantity_le (env : Env) (draws : List (String × String × Nat)) (x : String) :
    ∀ g : Game, getDeckQuantity (drawAll env g draws) x ≤ getDeckQuantity g x := by
  induction draws with
  | nil => intro g; exact Nat.le_refl _
  | cons dr rest ih =>
    intro g
    simp only [drawAll]
    exact Nat.le_trans (ih _) (selectDeck_quantity_le env g dr.1 dr.2.1 dr.2.2 x)

/-- C14: `selectDeck` on a deck whose remaining total is 0 changes nothing (so
`deckQuantities`, `cardQuantities`, the current player's cards and `currentTurnActions` are
as before); and since no draw increases a total, after any further sequence of draws a draw
from that deck still changes nothing. -/
theorem selectDeck_empty_deck (env : Env) (g : Game) (d : String)
    (hempty : getDeckQuantity g d = 0) :
    (∀ name r, selectDeck env g d name r = g) ∧
    (∀ name r x, getDeckQuantity (selectDeck env g x name r) d ≤ getDeckQuantity g d) ∧
    (∀ draws name r,
      selectDeck env (drawAll env g draws) d name r = drawAll env g draws) := by
  refine ⟨fun name r => selectDeck_empty env g d name r hempty,
    fun name r x => selectDeck_quantity_le env g x name r d, ?_⟩
  intro draws name r
  apply selectDeck_empty
  have := drawAll_quantity_le env draws d g
  omega

/-- C14 on the scenario deck once its three cards are drawn: a fourth draw changes
nothing. -/
theorem selectDeck_empty_deck_witness :
    getDeckQuantity emptiedVerdeGame "verde" = 0 ∧
    playerCards (selectDeck sampleEnv emptiedVerdeGame "verde" "Verde" 2)
      = playerCards emptiedVerdeGame ∧
    selectDeck sampleEnv emptiedVerdeGame "verde" "Verde" 2 = emptiedVerdeGame :=
  ⟨by decide,
    congrArg playerCards
      ((selectDeck_empty_deck sampleEnv emptiedVerdeGame "verde" (by decide)).1 "Verde" 2),
    (selectDeck_empty_deck sampleEnv emptiedVerdeGame "verde" (by decide)).1 "Verde" 2⟩

/-- C15 (amended): a draw from deck `d` by the current player, when `deckQuantities[d] > 0`,
the cards of the deck's definition carry `nameKey` and `descriptionKey` and one of them has
a positive remaining count, picks a card of the deck whose remaining count is positive,
decreases that count by exactly one and `deckQuantities[d]` by exactly one, leaves every
other card count, every other deck's quantities and every other player unchanged, and
appends exactly one card (the object built for the picked definition, `mounted` false,
`mountingProgress` 0) to the current player's cards. -/
theorem selectDeck_draw_effect (env : Env) (g : Game) (d name : String) (r : Nat)
    (cur : Player) (deck : Deck) (c0 : CardDef)
    (hcur : currentPlayer g = some cur) (hpos : 0 < getDeckQuantity g d)
    (hdeck : mapGet (g.decksData.getD []) d = some deck)
    (hnamed : ∀ c ∈ deck.cards.getD [], hasNameKeys c = true)
    (hc0 : c0 ∈ deck.cards.getD [])
    (hc0q : 0 < (mapGet (cardQtysOf g d) c0.id).getD 0) :
    ∃ cardData ∈ deck.cards.getD [], ∃ card n,
      makeCard env cardData d name = some card ∧
      mapGet (cardQtysOf g d) cardData.id = some (n + 1) ∧
      mapGet (cardQtysOf (selectDeck env g d name r) d) cardData.id = some n ∧
      (∀ k, k ≠ cardData.id →
        mapGet (cardQtysOf (selectDeck env g d name r) d) k = mapGet (cardQtysOf g d) k) ∧
      getDeckQuantity (selectDeck env g d name r) d + 1 = getDeckQuantity g d ∧
      (∀ x, x ≠ d →
        getDeckQuantity (selectDeck env g d name r) x = getDeckQuantity g x ∧
        cardQtysOf (selectDeck env g d name r) x = cardQtysOf g x) ∧
      playerCards (selectDeck env g d name r) = playerCards g ++ [some card] ∧
      card.id = some cardData.id ∧
      card.mounted = false ∧
      card.mountingProgress = some 0 ∧
      (∀ j, j ≠ g.currentPlayerIndex →
        (selectDeck env g d name r).players[j]? = g.players[j]?) := by
  obtain ⟨cardData, card, n, t, hcd, hcard, hn, ht, he⟩ :=
    selectDeck_draw_eq env g d name r cur deck c0 hcur hpos hdeck hnamed hc0 hc0q
  obtain ⟨card1, hcard1, hid, hmounted, hprogress⟩ :=
    makeCard_of_named env cardData d name (hnamed cardData hcd)
  rw [hcard] at hcard1
  cases hcard1
  have hlt := currentPlayer_lt g cur hcur
  have hq : cardQtysOf (selectDeck env g d name r) d
      = mapSet (cardQtysOf g d) cardData.id n := by
    rw [he]; simp [cardQtysOf, mapGet_mapSet_self]
  refine ⟨cardData, hcd, card, n, hcard, hn, ?_, ?_, ?_, ?_, ?_, hid, hmounted, hprogress, ?_⟩
  · rw [hq, mapGet_mapSet_self]
  · intro k hk
    rw [hq, mapGet_mapSet_of_ne _ _ _ _ (Ne.symm hk)]
  · rw [ht, he]
    simp [getDeckQuantity, mapGet_mapSet_self]
  · intro x hx
    rw [he]
    simp [getDeckQuantity, cardQtysOf, mapGet_mapSet_of_ne _ _ _ _ (Ne.symm hx)]
  · rw [he]
    simp [playerCards, currentPlayer, hcur, List.getElem?_set_self hlt]
    simp [currentPlayer] at hcur
    simp [hcur]
  · intro j hj
    rw [he]
    simp only
    exact List.getElem?_set_ne (Ne.symm hj)

/-- C15 (amended) on the freshly reset scenario deck: the draw with random value 0 takes
`x`, whose count drops from 2 to 1, and the deck total drops from 3 to 2. -/
theorem selectDeck_draw_effect_witness :
    currentPlayer (resetDeckQuantities verdeGame)
      = some (samplePlayer "p1" (some "ArthurHouse") 2) ∧
    0 < getDeckQuantity (resetDeckQuantities verdeGame) "verde" ∧
    (∀ c ∈ [cardDef "x" (some 2), cardDef "y" (some 1)], hasNameKeys c = true) ∧
    cardQtysOf (selectDeck sampleEnv (resetDeckQuantities verdeGame) "verde" "Verde" 0) "verde"
      = [("x", 1), ("y", 1)] ∧
    getDeckQuantity (selectDeck sampleEnv (resetDeckQuantities verdeGame) "verde" "Verde" 0)
      "verde" = 2 ∧
    ∃ cardData ∈ [cardDef "x" (some 2), cardDef "y" (some 1)], ∃ card n,
      makeCard sampleEnv cardData "verde" "Verde" = some card ∧
      mapGet (cardQtysOf (resetDeckQuantities verdeGame) "verde") cardData.id = some (n + 1) ∧
      mapGet (cardQtysOf
        (selectDeck sampleEnv (resetDeckQuantities verdeGame) "verde" "Verde" 0) "verde")
        cardData.id = some n :=
  ⟨by decide, by decide, by decide, by decide, by decide,
    (selectDeck_draw_effect sampleEnv (resetDeckQuantities verdeGame) "verde" "Verde" 0
      (samplePlayer "p1" (some "ArthurHouse") 2)
      (deckOf [cardDef "x" (some 2), cardDef "y" (some 1)]) (cardDef "x" (some 2))
      (by decide) (by decide) (by decide) (by decide) (by decide) (by decide)).imp
      (fun _ h => ⟨h.1, h.2.imp (fun _ h2 => h2.imp (fun _ h3 => ⟨h3.1, h3.2.1, h3.2.2.1⟩))⟩)⟩

/-- C15 as stated fails, on two inputs where the deck total is positive and equals the sum
of the card counts.  In the first the only remaining count is stored under an id the deck
does not define: the draw finds an empty pool, lowers the total to 0, lowers no card count
and appends `null` to the player's cards.  In the second the cards of the deck carry no
translation key: the draw lowers the count of `x`, raises while it builds the card, leaves
the total at 3 and appends nothing. -/
theorem draw_without_card :
    (getDeckQuantity strangeCountGame "verde" = 1 ∧
     qtySum (cardQtysOf strangeCountGame "verde") = 1 ∧
     getDeckQuantity (selectDeck sampleEnv strangeCountGame "verde" "Verde" 0) "verde" = 0 ∧
     cardQtysOf (selectDeck sampleEnv strangeCountGame "verde" "Verde" 0) "verde"
       = [("z", 1)] ∧
     playerCards (selectDeck sampleEnv strangeCountGame "verde" "Verde" 0) = [none]) ∧
    (getDeckQuantity (resetDeckQuantities namelessGame) "verde" = 3 ∧
     qtySum (cardQtysOf (resetDeckQuantities namelessGame) "verde") = 3 ∧
     getDeckQuantity (selectDeck sampleEnv (resetDeckQuantities namelessGame)
       "verde" "Verde" 0) "verde" = 3 ∧
     cardQtysOf (selectDeck sampleEnv (resetDeckQuantities namelessGame)
       "verde" "Verde" 0) "verde" = [("x", 1), ("y", 1)] ∧
     playerCards (selectDeck sampleEnv (resetDeckQuantities namelessGame)
       "verde" "Verde" 0) = []) := by
  decide

end DrawEffects

section MountingCalls

theorem not_in_location_of_path (p : Player) (pos : String) (hpos : p.position = some pos)
    (hpath : "path".toList.isPrefixOf pos.toList = true) : isPlayerInLocation p = false := by
  unfold isPlayerInLocation
  rw [hpos]
  simp only
  split_ifs
  · rfl
  · rw [hpath]; rfl

/-- C16: `startMounting` changes nothing (so the card and `currentTurnActions` are as
before) whenever the current player stands on a path tile (the position starts with
`path`), or more generally is not on a location, or the card is already mounted, or its
`mountingProgress` is already `> 0`, or, with a round count other than 0 (a positive number,
or a value that is not a number), the main action has already been used this turn.
(`talentsOf` is the talents table read by the method; the method as wired is the case
`talentsOf = getPlayerTalents`.) -/
theorem startMounting_guards (talentsOf : Player → PlayerTalents) (g : Game)
    (cardIndex : Nat) (cur : Player) (cards : List (Option Card)) (card : Card)
    (hcur : currentPlayer g = some cur) (hcards : cur.cards = some cards)
    (hcard : cards[cardIndex]? = some (some card))
    (hguard : (∃ pos, cur.position = some pos ∧ "path".toList.isPrefixOf pos.toList = true) ∨
      isPlayerInLocation cur = false ∨ card.mounted = true ∨
      0 < card.mountingProgress.getD 0 ∨
      (calculateMountingRounds g.defaultMountingRounds card (talentsOf cur) ≠ some 0 ∧
        g.currentTurnActions.mainActionUsed = true)) :
    startMountingWith talentsOf g cardIndex = g ∧
    cardAt (startMountingWith talentsOf g cardIndex) g.currentPlayerIndex cardIndex
      = some card ∧
    (startMountingWith talentsOf g cardIndex).currentTurnActions = g.currentTurnActions := by
  have he : startMountingWith talentsOf g cardIndex = g := by
    rcases hguard with ⟨pos, hpos, hpath⟩ | h | h | h | ⟨h1, h2⟩
    · simp [startMountingWith, hcur, hcards, hcard, not_in_location_of_path cur pos hpos hpath]
    · simp [startMountingWith, hcur, hcards, hcard, h]
    · simp [startMountingWith, hcur, hcards, hcard, h]
    · simp only [startMountingWith, hcur, hcards, hcard]
      split_ifs <;> rfl
    · simp only [startMountingWith, hcur, hcards, hcard, h1, h2]
      split_ifs <;> first | rfl | contradiction
  refine ⟨he, ?_, by rw [he]⟩
  rw [he]
  unfold currentPlayer at hcur
  simp [cardAt, cardSlot, hcur, hcards, hcard]

/-- C16 on a player standing on `path001`: `startMounting` changes nothing. -/
theorem startMounting_guards_witness :
    (∃ pos, (some "path001" : Tile) = some pos ∧ "path".toList.isPrefixOf pos.toList = true) ∧
    startMounting sampleEnv pathMountingGame 0 = pathMountingGame ∧
    cardAt (startMounting sampleEnv pathMountingGame 0) 0 0
      = some (mountableCard "radio" ["geografia"]) :=
  ⟨⟨"path001", rfl, by decide⟩,
    (startMounting_guards (getPlayerTalents sampleEnv.characters) pathMountingGame 0
      { samplePlayer "p1" (some "path001") 2 with
        cards := some [some (mountableCard "radio" ["geografia"])] }
      [some (mountableCard "radio" ["geografia"])] (mountableCard "radio" ["geografia"])
      (by decide) rfl rfl (Or.inl ⟨"path001", rfl, by decide⟩)).1,
    (startMounting_guards (getPlayerTalents sampleEnv.characters) pathMountingGame 0
      { samplePlayer "p1" (some "path001") 2 with
        cards := some [some (mountableCard "radio" ["geografia"])] }
      [some (mountableCard "radio" ["geografia"])] (mountableCard "radio" ["geografia"])
      (by decide) rfl rfl (Or.inl ⟨"path001", rfl, by decide⟩)).2.1⟩

/-- C17: when no guard applies (the player is on a location, the card is not mounted and
has progress 0, the main action is unused) and the round count is not 0, `startMounting`
sets `mainActionUsed` and either completes the card at once (`mounted` true,
`mountingProgress` 0) when `roundsRequired <= 1`, or leaves it in progress with
`mountingProgress = 1` and `mounted` false when `roundsRequired > 1`, and also when the
round count is not a number; nothing else changes. -/
theorem startMounting_effect (talentsOf : Player → PlayerTalents) (g : Game)
    (cardIndex : Nat) (cur : Player) (cards : List (Option Card)) (card : Card)
    (hcur : currentPlayer g = some cur) (hcards : cur.cards = some cards)
    (hcard : cards[cardIndex]? = some (some card))
    (hloc : isPlayerInLocation cur = true) (hnm : card.mounted = false)
    (hprog : card.mountingProgress.getD 0 = 0)
    (hfree : g.currentTurnActions.mainActionUsed = false)
    (hrounds : calculateMountingRounds g.defaultMountingRounds card (talentsOf cur) ≠ some 0) :
    (startMountingWith talentsOf g cardIndex).currentTurnActions
      = { g.currentTurnActions with mainActionUsed := true } ∧
    (∀ rounds, calculateMountingRounds g.defaultMountingRounds card (talentsOf cur)
        = some rounds → rounds ≤ 1 →
      startMountingWith talentsOf g cardIndex
        = setCard { g with currentTurnActions :=
                      { g.currentTurnActions with mainActionUsed := true } }
            cur cards cardIndex { card with mounted := true, mountingProgress := some 0 } ∧
      cardAt (startMountingWith talentsOf g cardIndex) g.currentPlayerIndex cardIndex
        = some { card with mounted := true, mountingProgress := some 0 }) ∧
    ((calculateMountingRounds g.defaultMountingRounds card (talentsOf cur) = none ∨
        ∃ rounds, calculateMountingRounds g.defaultMountingRounds card (talentsOf cur)
          = some rounds ∧ 1 < rounds) →
      startMountingWith talentsOf g cardIndex
        = setCard { g with currentTurnActions :=
                      { g.currentTurnActions with mainActionUsed := true } }
            cur cards cardIndex { card with mountingProgress := some 1 } ∧
      cardAt (startMountingWith talentsOf g cardIndex) g.currentPlayerIndex cardIndex
        = some { card with mounted := false, mountingProgress := some 1 }) := by
  have hlt := currentPlayer_lt g cur hcur
  have hci : cardIndex < cards.length := by
    obtain ⟨h, _⟩ := List.getElem?_eq_some_iff.1 hcard
    exact h
  by_cases hle : jsGe 1 (calculateMountingRounds g.defaultMountingRounds card (talentsOf cur))
      = true
  · have he : startMountingWith talentsOf g cardIndex
        = setCard { g with currentTurnActions :=
                      { g.currentTurnActions with mainActionUsed := true } }
            cur cards cardIndex { card with mounted := true, mountingProgress := some 0 } := by
      simp [startMountingWith, hcur, hcards, hcard, hloc, hnm, hprog, hrounds, hfree, hle]
    refine ⟨by rw [he]; rfl, fun _ _ _ => ⟨he, ?_⟩, fun h => ?_⟩
    · rw [he]
      simp [cardAt, cardSlot, setCard, setPlayer, List.getElem?_set_self hlt,
        List.getElem?_set_self hci]
    · rcases h with h | ⟨rounds, h, h1⟩
      · rw [h] at hle; simp [jsGe] at hle
      · rw [h] at hle; simp only [jsGe, decide_eq_true_eq] at hle; omega
  · have he : startMountingWith talentsOf g cardIndex
        = setCard { g with currentTurnActions :=
                      { g.currentTurnActions with mainActionUsed := true } }
            cur cards cardIndex { card with mountingProgress := some 1 } := by
      simp [startMountingWith, hcur, hcards, hcard, hloc, hnm, hprog, hrounds, hfree, hle]
    refine ⟨by rw [he]; rfl, fun rounds h h1 => ?_, fun _ => ⟨he, ?_⟩⟩
    · rw [h] at hle; simp only [jsGe, decide_eq_true_eq] at hle; omega
    · rw [he]
      simp [cardAt, cardSlot, setCard, setPlayer, List.getElem?_set_self hlt,
        List.getElem?_set_self hci, hnm]

/-- C17 on the card that needs 3 rounds: `startMounting` uses the main action and leaves the
card with progress 1, not mounted. -/
theorem startMounting_effect_witness :
    isPlayerInLocation { samplePlayer "p1" (some "ArthurHouse") 2 with
        cards := some [some (mountableCard "radio" ["geografia"])] } = true ∧
    roundsRequired sampleEnv mountingGame
        { samplePlayer "p1" (some "ArthurHouse") 2 with
          cards := some [some (mountableCard "radio" ["geografia"])] }
        (mountableCard "radio" ["geografia"]) = some 3 ∧
    (startMounting sampleEnv mountingGame 0).currentTurnActions.mainActionUsed = true ∧
    cardAt (startMounting sampleEnv mountingGame 0) 0 0
      = some { mountableCard "radio" ["geografia"] with
               mounted := false, mountingProgress := some 1 } :=
  ⟨by decide, by decide,
    congrArg TurnActions.mainActionUsed
      (startMounting_effect (getPlayerTalents sampleEnv.characters) mountingGame 0
        { samplePlayer "p1" (some "ArthurHouse") 2 with
          cards := some [some (mountableCard "radio" ["geografia"])] }
        [some (mountableCard "radio" ["geografia"])] (mountableCard "radio" ["geografia"])
        (by decide) rfl rfl (by decide) rfl rfl rfl (by decide)).1,
    ((startMounting_effect (getPlayerTalents sampleEnv.characters) mountingGame 0
        { samplePlayer "p1" (some "ArthurHouse") 2 with
          cards := some [some (mountableCard "radio" ["geografia"])] }
        [some (mountableCard "radio" ["geografia"])] (mountableCard "radio" ["geografia"])
        (by decide) rfl rfl (by decide) rfl rfl rfl (by decide)).2.2
      (Or.inr ⟨3, by decide, by decide⟩)).2⟩

/-- C18: `advanceMounting` changes nothing (card and turn flags as before) when the current
player is on a path tile (or otherwise not on a location), the main action is already used,
the card is mounted, or `mountingProgress` is 0 (not started); otherwise it sets
`mainActionUsed` and adds exactly one to `mountingProgress`, except that when the new
progress reaches `roundsRequired` it sets `mounted = true` and resets `mountingProgress`
to 0.  (A round count that is not a number is never reached: the progress is then raised
by one.) -/
theorem advanceMounting_cases (talentsOf : Player → PlayerTalents) (g : Game)
    (cardIndex : Nat) (cur : Player) (cards : List (Option Card)) (card : Card)
    (hcur : currentPlayer g = some cur) (hcards : cur.cards = some cards)
    (hcard : cards[cardIndex]? = some (some card)) :
    (((∃ pos, cur.position = some pos ∧ "path".toList.isPrefixOf pos.toList = true) ∨
        isPlayerInLocation cur = false ∨ g.currentTurnActions.mainActionUsed = true ∨
        card.mounted = true ∨ card.mountingProgress.getD 0 = 0) →
      advanceMountingWith talentsOf g cardIndex = g) ∧
    (isPlayerInLocation cur = true → g.currentTurnActions.mainActionUsed = false →
      card.mounted = false → 0 < card.mountingProgress.getD 0 →
      (advanceMountingWith talentsOf g cardIndex).currentTurnActions
        = { g.currentTurnActions with mainActionUsed := true } ∧
      (∀ rounds, calculateMountingRounds g.defaultMountingRounds card (talentsOf cur)
          = some rounds → rounds ≤ card.mountingProgress.getD 0 + 1 →
        cardAt (advanceMountingWith talentsOf g cardIndex) g.currentPlayerIndex cardIndex
          = some { card with mounted := true, mountingProgress := some 0 }) ∧
      ((calculateMountingRounds g.defaultMountingRounds card (talentsOf cur) = none ∨
          ∃ rounds, calculateMountingRounds g.defaultMountingRounds card (talentsOf cur)
            = some rounds ∧ card.mountingProgress.getD 0 + 1 < rounds) →
        cardAt (advanceMountingWith talentsOf g cardIndex) g.currentPlayerIndex cardIndex
          = some { card with mountingProgress := some (card.mountingProgress.getD 0 + 1) })) := by
  have hlt := currentPlayer_lt g cur hcur
  have hci : cardIndex < cards.length := by
    obtain ⟨h, _⟩ := List.getElem?_eq_some_iff.1 hcard
    exact h
  constructor
  · intro hguard
    rcases hguard with ⟨pos, hpos, hpath⟩ | h | h | h | h
    · simp [advanceMountingWith, hcur, hcards, hcard,
        not_in_location_of_path cur pos hpos hpath]
    · simp [advanceMountingWith, hcur, hcards, hcard, h]
    · simp only [advanceMountingWith, hcur, hcards, hcard, h]
      split_ifs <;> rfl
    · simp only [advanceMountingWith, hcur, hcards, hcard, h]
      split_ifs <;> rfl
    · simp only [advanceMountingWith, hcur, hcards, hcard, h]
      split_ifs <;> rfl
  · intro hloc hfree hnm hpos
    have hp0 : card.mountingProgress.getD 0 ≠ 0 := by omega
    by_cases hle : jsGe (card.mountingProgress.getD 0 + 1)
        (calculateMountingRounds g.defaultMountingRounds card (talentsOf cur)) = true
    · have he : advanceMountingWith talentsOf g cardIndex
          = setCard { g with currentTurnActions :=
                        { g.currentTurnActions with mainActionUsed := true } }
              cur cards cardIndex { card with mounted := true, mountingProgress := some 0 } := by
        simp [advanceMountingWith, hcur, hcards, hcard, hloc, hnm, hp0, hfree, hle]
      refine ⟨by rw [he]; rfl, fun _ _ _ => ?_, fun h => ?_⟩
      · rw [he]
        simp [cardAt, cardSlot, setCard, setPlayer, List.getElem?_set_self hlt,
          List.getElem?_set_self hci]
      · rcases h with h | ⟨rounds, h, h1⟩
        · rw [h] at hle; simp [jsGe] at hle
        · rw [h] at hle; simp only [jsGe, decide_eq_true_eq] at hle; omega
    · have he : advanceMountingWith talentsOf g cardIndex
          = setCard { g with currentTurnActions :=
                        { g.currentTurnActions with mainActionUsed := true } }
              cur cards cardIndex
              { card with mountingProgress := some (card.mountingProgress.getD 0 + 1) } := by
        simp [advanceMountingWith, hcur, hcards, hcard, hloc, hnm, hp0, hfree, hle]
      refine ⟨by rw [he]; rfl, fun rounds h h1 => ?_, fun _ => ?_⟩
      · rw [h] at hle; simp only [jsGe, decide_eq_true_eq] at hle; omega
      · rw [he]
        simp [cardAt, cardSlot, setCard, setPlayer, List.getElem?_set_self hlt,
          List.getElem?_set_self hci]

/-- C18 on the card that needs 3 rounds: `advanceMounting` on the card not yet started
changes nothing; on the card with progress 1, in a new turn, it gives progress 2. -/
theorem advanceMounting_cases_witness :
    advanceMounting sampleEnv mountingGame 0 = mountingGame ∧
    cardAt startedMountingGame 0 0
      = some { mountableCard "radio" ["geografia"] with mountingProgress := some 1 } ∧
    cardAt (advanceMounting sampleEnv startedMountingGame 0) 0 0
      = some { mountableCard "radio" ["geografia"] with mountingProgress := some 2 } :=
  ⟨(advanceMounting_cases (getPlayerTalents sampleEnv.characters) mountingGame 0
      { samplePlayer "p1" (some "ArthurHouse") 2 with
        cards := some [some (mountableCard "radio" ["geografia"])] }
      [some (mountableCard "radio" ["geografia"])] (mountableCard "radio" ["geografia"])
      (by decide) rfl rfl).1 (Or.inr (Or.inr (Or.inr (Or.inr rfl)))),
    by decide,
    ((advanceMounting_cases (getPlayerTalents sampleEnv.characters) startedMountingGame 0
      { samplePlayer "p1" (some "ArthurHouse") 2 with
        cards := some [some { mountableCard "radio" ["geografia"] with
                              mountingProgress := some 1 }] }
      [some { mountableCard "radio" ["geografia"] with mountingProgress := some 1 }]
      { mountableCard "radio" ["geografia"] with mountingProgress := some 1 }
      (by decide) rfl rfl).2 (by decide) (by decide) rfl (by decide)).2.2
      (Or.inr ⟨3, by decide, by decide⟩)⟩

end MountingCalls

section TurnGating

theorem calculateReachableTiles_setLocal (g : Game) (m : Bool) (l : Option String) :
    calculateReachableTiles (setLocal g m l) = setLocal (calculateReachableTiles g) m l := by
  unfold calculateReachableTiles
  have hc : currentPlayer (setLocal g m l) = currentPlayer g := rfl
  rw [hc]
  cases currentPlayer g with
  | none => rfl
  | some p =>
    simp only
    cases p.state with
    | none => rfl
    | some st =>
      simp only
      have hconn : (setLocal g m l).connections = g.connections := rfl
      rw [hconn]
      cases bfsLoop (neighbors g.connections) st.movement (bfsFuel g.connections)
        [p.position] [(p.position, 0)] [] <;> rfl

theorem startMovementPhase_setLocal (g : Game) (m : Bool) (l : Option String) :
    startMovementPhase (setLocal g m l) = setLocal (startMovementPhase g) m l := by
  unfold startMovementPhase
  have hc : currentPlayer (setLocal g m l) = currentPlayer g := rfl
  rw [hc]
  cases currentPlayer g with
  | none => rfl
  | some p =>
    simp only
    have ha : (setLocal g m l).currentTurnActions = g.currentTurnActions := rfl
    rw [ha]
    split_ifs
    · exact calculateReachableTiles_setLocal { g with isMoving := true, selectedTile := none } m l
    · rfl

theorem endTurn_setLocal (g : Game) (m : Bool) (l : Option String) :
    endTurn (setLocal g m l) = setLocal (endTurn g) m l := by
  have hnext : ∀ x : Game, nextTurn (setLocal x m l) = setLocal (nextTurn x) m l := by
    intro x
    unfold nextTurn
    simp only
    have hc : currentPlayer
        { setLocal x m l with
          currentPlayerIndex := ((setLocal x m l).currentPlayerIndex + 1)
            % (setLocal x m l).players.length }
        = currentPlayer
          { x with currentPlayerIndex := (x.currentPlayerIndex + 1) % x.players.length } := rfl
    rw [hc]
    cases currentPlayer
        { x with currentPlayerIndex := (x.currentPlayerIndex + 1) % x.players.length } with
    | none => rfl
    | some p =>
      simp only
      split_ifs
      · rfl
      · exact startMovementPhase_setLocal
          { x with currentPlayerIndex := (x.currentPlayerIndex + 1) % x.players.length } m l
  unfold endTurn
  have h1 : (setLocal g m l).gameStarted = g.gameStarted := rfl
  have h2 : (setLocal g m l).players = g.players := rfl
  rw [h1, h2]
  split_ifs
  · rfl
  · rfl
  · exact hnext { g with currentTurnActions := freshTurnActions }

theorem onTileClick_setLocal (g : Game) (m : Bool) (l : Option String) (t : Tile) :
    onTileClick (setLocal g m l) t = setLocal (onTileClick g t) m l := by
  unfold onTileClick
  have h1 : (setLocal g m l).isMoving = g.isMoving := rfl
  have h2 : (setLocal g m l).reachableTiles = g.reachableTiles := rfl
  have hc : currentPlayer (setLocal g m l) = currentPlayer g := rfl
  rw [h1, h2, hc]
  split_ifs
  · rfl
  · rfl
  · cases currentPlayer g <;> rfl

theorem selectDeck_setLocal (env : Env) (g : Game) (m : Bool) (l : Option String)
    (d name : String) (r : Nat) :
    selectDeck env (setLocal g m l) d name r = setLocal (selectDeck env g d name r) m l := by
  have hdraw : drawCardFromDeck env (setLocal g m l) d name r
      = (setLocal (drawCardFromDeck env g d name r).1 m l,
         (drawCardFromDeck env g d name r).2) := by
    unfold drawCardFromDeck
    have hd : (setLocal g m l).decksData = g.decksData := rfl
    have hq : cardQtysOf (setLocal g m l) d = cardQtysOf g d := rfl
    rw [hd, hq]
    repeat' (first | split | dsimp only)
    all_goals rfl
  have hdec : ∀ x : Game, decrementDeck (setLocal x m l) d
      = (setLocal (decrementDeck x d).1 m l, (decrementDeck x d).2) := by
    intro x
    unfold decrementDeck
    have hx : (setLocal x m l).deckQuantities = x.deckQuantities := rfl
    rw [hx]
    split <;> rfl
  unfold selectDeck
  have hc : currentPlayer (setLocal g m l) = currentPlayer g := rfl
  have he : isDeckEmpty (setLocal g m l) d = isDeckEmpty g d := rfl
  rw [hc]
  cases currentPlayer g with
  | none => rfl
  | some cur =>
    simp only [he, hdraw, hdec]
    repeat' (first | split | dsimp only)
    all_goals rfl

theorem startMountingWith_setLocal (talentsOf : Player → PlayerTalents) (g : Game) (m : Bool)
    (l : Option String) (i : Nat) :
    startMountingWith talentsOf (setLocal g m l) i
      = setLocal (startMountingWith talentsOf g i) m l := by
  unfold startMountingWith
  have hc : currentPlayer (setLocal g m l) = currentPlayer g := rfl
  rw [hc]
  cases currentPlayer g with
  | none => rfl
  | some cur =>
    simp only
    cases cur.cards with
    | none => rfl
    | some cards =>
      simp only
      cases cards[i]? with
      | none => rfl
      | some oc =>
        cases oc with
        | none => rfl
        | some card =>
          simp only
          have hd : (setLocal g m l).defaultMountingRounds = g.defaultMountingRounds := rfl
          have ha : (setLocal g m l).currentTurnActions = g.currentTurnActions := rfl
          rw [hd, ha]
          split_ifs <;> rfl

theorem advanceMountingWith_setLocal (talentsOf : Player → PlayerTalents) (g : Game) (m : Bool)
    (l : Option String) (i : Nat) :
    advanceMountingWith talentsOf (setLocal g m l) i
      = setLocal (advanceMountingWith talentsOf g i) m l := by
  unfold advanceMountingWith
  have hc : currentPlayer (setLocal g m l) = currentPlayer g := rfl
  rw [hc]
  cases currentPlayer g with
  | none => rfl
  | some cur =>
    simp only
    cases cur.cards with
    | none => rfl
    | some cards =>
      simp only
      cases cards[i]? with
      | none => rfl
      | some oc =>
        cases oc with
        | none => rfl
        | some card =>
          simp only
          have hd : (setLocal g m l).defaultMountingRounds = g.defaultMountingRounds := rfl
          have ha : (setLocal g m l).currentTurnActions = g.currentTurnActions := rfl
          rw [hd, ha]
          split_ifs <;> rfl

/-- C20 (amended): `isMyTurn()` holds in single-player mode, and in multiplayer mode exactly
when there is a current player whose id equals `localPlayerId`; but the mutating turn
operations (`onTileClick`, `endTurn`, `selectDeck`, `startMounting`, `advanceMounting`) do
not consult it: what they do to positions, turn state, decks and inventories is the same
whatever `isMultiplayer` and `localPlayerId` are, so they act on the current player also on
another player's turn. -/
theorem turn_operations_ignore_local (env : Env) (g : Game) (m : Bool) (l : Option String) :
    (isMyTurn g = true ↔
      (g.isMultiplayer = false ∨
        ∃ p, currentPlayer g = some p ∧ g.localPlayerId = some p.id)) ∧
    (∀ t, onTileClick (setLocal g m l) t = setLocal (onTileClick g t) m l) ∧
    endTurn (setLocal g m l) = setLocal (endTurn g) m l ∧
    (∀ d name r,
      selectDeck env (setLocal g m l) d name r = setLocal (selectDeck env g d name r) m l) ∧
    (∀ i, startMounting env (setLocal g m l) i = setLocal (startMounting env g i) m l) ∧
    (∀ i, advanceMounting env (setLocal g m l) i = setLocal (advanceMounting env g i) m l) := by
  refine ⟨?_, fun t => onTileClick_setLocal g m l t, endTurn_setLocal g m l,
    fun d name r => selectDeck_setLocal env g m l d name r,
    fun i => startMountingWith_setLocal _ g m l i,
    fun i => advanceMountingWith_setLocal _ g m l i⟩
  unfold isMyTurn isLocalPlayer
  cases hm : g.isMultiplayer with
  | false => simp
  | true =>
    cases hc : currentPlayer g with
    | none => simp
    | some p => simp

/-- C20 as stated fails: in multiplayer mode, on the turn of `p2` while the local player is
`p1` (`isMyTurn()` is false), `endTurn` still passes the turn and `onTileClick` still moves
`p2`. -/
theorem operations_run_on_other_turn :
    otherTurnGame.isMultiplayer = true ∧ isMyTurn otherTurnGame = false ∧
    otherTurnGame.currentPlayerIndex = 1 ∧ (endTurn otherTurnGame).currentPlayerIndex = 0 ∧
    otherTurnGame.players.map (fun p => p.position) = [some "A", some "B"] ∧
    (onTileClick otherTurnGame (some "C")).players.map (fun p => p.position)
      = [some "A", some "C"] := by
  decide

/-- C19, the code at the failing input: the first `selectDeck` of the turn draws a card and
sets `mainActionUsed`; a second `selectDeck` in the same turn, with `mainActionUsed` already
true, draws another card and lowers the deck total again. -/
theorem second_draw_in_same_turn :
    (selectDeck sampleEnv (resetDeckQuantities verdeGame) "verde" "Verde"
        0).currentTurnActions.mainActionUsed = true ∧
    (playerCards (selectDeck sampleEnv (resetDeckQuantities verdeGame) "verde" "Verde"
        0)).length = 1 ∧
    (playerCards (selectDeck sampleEnv
        (selectDeck sampleEnv (resetDeckQuantities verdeGame) "verde" "Verde" 0)
        "verde" "Verde" 0)).length = 2 ∧
    getDeckQuantity (selectDeck sampleEnv
        (selectDeck sampleEnv (resetDeckQuantities verdeGame) "verde" "Verde" 0)
        "verde" "Verde" 0) "verde" = 1 := by
  decide

end TurnGating

section EventBus

/-- C21 (amended): `handleGameAction` ignores a broadcast whose `senderId` equals the local
`playerId`: whatever the registered handlers, the listener state is unchanged.  For a
broadcast of any other sender with a known action type it makes exactly one `emit` call,
named by that type; the call carries `action.data`, except that `playerRemoved` carries
`action.data.playerId` (and raises a `TypeError`, emitting nothing, when the data is `null`
or `undefined`) and `gameReset` carries nothing.  An unknown type emits nothing. -/
theorem handleGameAction_emits {σ : Type} (eventHandlers : EventHandlers σ)
    (playerId : Option String) (action : Action) (s : σ) :
    (isOwnAction action.senderId playerId = true →
      handleGameAction eventHandlers playerId action s = some s) ∧
    (isOwnAction action.senderId playerId = false →
      (∀ type ∈ knownActionTypes, action.type = .str type →
        type ≠ "playerRemoved" → type ≠ "gameReset" →
        handleGameAction eventHandlers playerId action s
          = some (emit eventHandlers type action.data s)) ∧
      (action.type = .str "playerRemoved" →
        ∀ removed, dataPlayerId action.data = some removed →
          handleGameAction eventHandlers playerId action s
            = some (emit eventHandlers "playerRemoved" removed s)) ∧
      (action.type = .str "playerRemoved" → dataPlayerId action.data = none →
        handleGameAction eventHandlers playerId action s = none) ∧
      (action.type = .str "gameReset" →
        handleGameAction eventHandlers playerId action s
          = some (emit eventHandlers "gameReset" .undefined s)) ∧
      (∀ type, action.type = .str type → type ∉ knownActionTypes →
        handleGameAction eventHandlers playerId action s = some s)) := by
  refine ⟨fun h => by simp [handleGameAction, h], fun h => ⟨?_, ?_, ?_, ?_, ?_⟩⟩
  · intro type hmem htype hr hg
    simp only [knownActionTypes, List.mem_cons, List.mem_singleton, List.not_mem_nil,
      or_false] at hmem
    rcases hmem with rfl | rfl | rfl | rfl | rfl | rfl | rfl | rfl | rfl | rfl | rfl | rfl <;>
      first
      | exact absurd rfl hr
      | exact absurd rfl hg
      | simp [handleGameAction, h, htype]
  · intro htype removed hrem
    simp [handleGameAction, h, htype, hrem]
  · intro htype hrem
    simp [handleGameAction, h, htype, hrem]
  · intro htype
    simp [handleGameAction, h, htype]
  · intro type htype hnot
    simp only [knownActionTypes, List.mem_cons, List.mem_singleton, List.not_mem_nil,
      or_false, not_or] at hnot
    obtain ⟨h1, h2, h3, h4, h5, h6, h7, h8, h9, h10, h11, h12⟩ := hnot
    simp [handleGameAction, h, htype, h1, h2, h3, h4, h5, h6, h7, h8, h9, h10, h11, h12]

/-- C21 (amended) on a log of the emitted events: the removal broadcast is ignored by the
client that sent it, and a `turnEnded` broadcast of that client reaches another client as
one `turnEnded` event with the broadcast's data. -/
theorem handleGameAction_emits_witness :
    handleGameAction logHandlers (some "client-b") removalAction [] = some [] ∧
    handleGameAction logHandlers (some "client-a")
        { type := .str "turnEnded", data := .obj [("currentPlayerIndex", .num 1)],
          senderId := .str "client-b" } []
      = some [("turnEnded", .obj [("currentPlayerIndex", .num 1)])] :=
  ⟨(handleGameAction_emits logHandlers (some "client-b") removalAction []).1 (by decide),
    ((handleGameAction_emits logHandlers (some "client-a")
        { type := .str "turnEnded", data := .obj [("currentPlayerIndex", .num 1)],
          senderId := .str "client-b" } []).2 (by decide)).1 "turnEnded" (by decide) rfl
      (by decide) (by decide)⟩

/-- C21 as stated fails for `playerRemoved`: the broadcast of another client with data
`{ playerId: "p2" }` reaches the listeners as the string `"p2"`, not as the action's data
(and `gameReset` with data `{}` reaches them as `undefined`). -/
theorem playerRemoved_event_carries_id :
    isOwnAction removalAction.senderId (some "client-a") = false ∧
    handleGameAction logHandlers (some "client-a") removalAction []
      = some [("playerRemoved", .str "p2")] ∧
    emit logHandlers "playerRemoved" removalAction.data []
      = [("playerRemoved", .obj [("playerId", .str "p2")])] ∧
    handleGameAction logHandlers (some "client-a") removalAction []
      ≠ some (emit logHandlers "playerRemoved" removalAction.data []) ∧
    handleGameAction logHandlers (some "client-a")
        { type := .str "gameReset", data := .obj [], senderId := .str "client-b" } []
      = some [("gameReset", .undefined)] := by
  refine ⟨by decide, ?_, ?_, ?_, ?_⟩
  · rfl
  · rfl
  · intro h
    have h1 : handleGameAction logHandlers (some "client-a") removalAction []
        = some [("playerRemoved", .str "p2")] := rfl
    have h2 : emit logHandlers "playerRemoved" removalAction.data []
        = [("playerRemoved", .obj [("playerId", .str "p2")])] := rfl
    rw [h1, h2] at h
    simp at h
  · rfl

end EventBus

section PlayerUpdates

theorem updateFirst_of_findIndex_none (playerId : String) (f : Player → Player) :
    ∀ l : List Player, findIndex playerId l = none → updateFirst playerId f l = l := by
  intro l
  induction l with
  | nil => intro _; rfl
  | cons p rest ih =>
    intro h
    by_cases hp : p.id = playerId
    · simp [findIndex, hp] at h
    · simp only [findIndex, hp, if_false, Option.map_eq_none'] at h
      simp [updateFirst, hp, ih h]

theorem updateFirst_eq_set (playerId : String) (f : Player → Player) :
    ∀ (l : List Player) (i : Nat) (p : Player), findIndex playerId l = some i →
      l[i]? = some p → updateFirst playerId f l = l.set i (f p) := by
  intro l
  induction l with
  | nil => intro i p h; cases h
  | cons q rest ih =>
    intro i p h hp
    by_cases hq : q.id = playerId
    · simp only [findIndex, hq, if_true, Option.some.injEq] at h
      subst h
      simp only [List.getElem?_cons_zero, Option.some.injEq] at hp
      subst hp
      simp [updateFirst, hq]
    · simp only [findIndex, hq, if_false] at h
      cases hf : findIndex playerId rest with
      | none => rw [hf] at h; cases h
      | some j =>
        rw [hf] at h
        simp only [Option.map_some', Option.some.injEq] at h
        subst h
        simp only [List.getElem?_cons_succ] at hp
        simp [updateFirst, hq, ih j p hf hp]

/-- C22 (amended): the `playerUpdated` handler changes nothing when no player has the id;
otherwise it changes only the first player with that id, and there an update without a
position leaves the position unchanged, an update without state leaves the state unchanged,
a state update overrides exactly the keys it contains, and an update without cards and
without inventory leaves the cards unchanged; id, name, character and colour are kept. -/
theorem onPlayerUpdated_frame (g : Game) (playerData : PlayerData) :
    (findIndex playerData.id g.players = none → onPlayerUpdated g playerData = g) ∧
    (∀ (i : Nat) (p : Player), findIndex playerData.id g.players = some i →
      g.players[i]? = some p →
      onPlayerUpdated g playerData
        = { g with players := g.players.set i (applyPlayerData playerData p) } ∧
      (∀ j : Nat, j ≠ i → (onPlayerUpdated g playerData).players[j]? = g.players[j]?) ∧
      ((playerData.position = none ∨ playerData.position = some "") →
        (applyPlayerData playerData p).position = p.position) ∧
      (playerData.state = none → (applyPlayerData playerData p).state = p.state) ∧
      (∀ st, playerData.state = some st →
        ∃ st1, (applyPlayerData playerData p).state = some st1 ∧
          st1.characterId = (st.characterId <|> p.state.bind (fun o => o.characterId)) ∧
          st1.currentHealth = (st.currentHealth <|> p.state.bind (fun o => o.currentHealth)) ∧
          st1.maxHealth = (st.maxHealth <|> p.state.bind (fun o => o.maxHealth)) ∧
          st1.movement = (st.movement <|> p.state.bind (fun o => o.movement)) ∧
          st1.talentLevels = (st.talentLevels <|> p.state.bind (fun o => o.talentLevels)) ∧
          st1.effects = (st.effects <|> p.state.bind (fun o => o.effects))) ∧
      (playerData.cards = none → playerData.inventory = none →
        (applyPlayerData playerData p).cards = p.cards) ∧
      (applyPlayerData playerData p).id = p.id ∧
      (applyPlayerData playerData p).name = p.name ∧
      (applyPlayerData playerData p).characterId = p.characterId ∧
      (applyPlayerData playerData p).color = p.color) := by
  constructor
  · intro h
    simp [onPlayerUpdated, updateFirst_of_findIndex_none _ _ _ h]
  · intro i p hi hp
    have he : onPlayerUpdated g playerData
        = { g with players := g.players.set i (applyPlayerData playerData p) } := by
      simp [onPlayerUpdated, updateFirst_eq_set _ _ _ i p hi hp]
    refine ⟨he, ?_, ?_, ?_, ?_, ?_, ?_, ?_, ?_, ?_⟩
    · intro j hj
      rw [he]
      simp only
      exact List.getElem?_set_ne (Ne.symm hj)
    · intro h
      unfold applyPlayerData
      rcases h with h | h
      · rw [h]; simp only; repeat' split
        all_goals rfl
      · rw [h]; simp only; repeat' split
        all_goals first | rfl | simp_all
    · intro h
      unfold applyPlayerData
      rw [h]; simp only; repeat' split
      all_goals rfl
    · intro st h
      have hst : (applyPlayerData playerData p).state = some (mergeState p.state (some st)) := by
        unfold applyPlayerData
        rw [h]; simp only; repeat' split
        all_goals rfl
      refine ⟨_, hst, ?_⟩
      cases hps : p.state with
      | none => simp [mergeState, emptyState]
      | some o => simp [mergeState, emptyState]
    · intro hc hinv
      unfold applyPlayerData
      rw [hc, hinv]; simp only; repeat' split
      all_goals rfl
    all_goals
      unfold applyPlayerData
      simp only
      repeat' split
      all_goals rfl

/-- C22 (amended) on the two-player game: an update of `p2` with a position and the state
key `currentHealth` moves `p2`, sets that key, keeps the other state keys and the cards
of `p2`, and leaves `p1` as it is. -/
theorem onPlayerUpdated_frame_witness :
    findIndex healthUpdate.id twoPlayerGame.players = some 1 ∧
    twoPlayerGame.players[1]? = some (samplePlayer "p2" (some "B") 1) ∧
    (onPlayerUpdated twoPlayerGame healthUpdate).players[0]? = twoPlayerGame.players[0]? ∧
    (onPlayerUpdated twoPlayerGame healthUpdate).players[1]?
      = some { samplePlayer "p2" (some "B") 1 with
               position := some "C"
               state := some { characterId := some "c-p2", currentHealth := some 3,
                               maxHealth := some 5, movement := some 1,
                               talentLevels := some [], effects := some [] } } :=
  ⟨by decide, by decide,
    ((onPlayerUpdated_frame twoPlayerGame healthUpdate).2 1 (samplePlayer "p2" (some "B") 1)
      (by decide) (by decide)).2.1 0 (by decide),
    by decide⟩

/-- C22 as stated fails: an update without `cards`, whose `inventory` object has no
`cards` key either, replaces the player's one card by the empty list; so does a row of
`room_players` without inventory, which `dbPlayerToGamePlayer` turns into an update with
`cards: []`. -/
theorem update_without_cards_clears_cards :
    inventoryOnlyUpdate.cards = none ∧
    playerCards mountingGame = [some (mountableCard "radio" ["geografia"])] ∧
    playerCards (onPlayerUpdated mountingGame inventoryOnlyUpdate) = [] ∧
    playerCards (onPlayerUpdated mountingGame
      (dbPlayerToGamePlayer
        { player_id := "p1", player_name := "p1", character_id := "c-p1", color := none,
          position := some "path002", player_state := none, inventory := none })) = [] := by
  decide

end PlayerUpdates

section UniqueIds

theorem any_id_iff (players : List Player) (id : String) :
    players.any (fun p => p.id == id) = true ↔ id ∈ players.map (fun p => p.id) := by
  rw [List.any_eq_true, List.mem_map]
  constructor
  · rintro ⟨p, hp, he⟩
    exact ⟨p, hp, by simpa using he⟩
  · rintro ⟨p, hp, he⟩
    exact ⟨p, hp, by simp [he]⟩

theorem syncPlayer_ids_nodup (g : Game) (serverPlayer : PlayerData)
    (hn : (g.players.map (fun p => p.id)).Nodup) :
    ((syncPlayer g serverPlayer).players.map (fun p => p.id)).Nodup := by
  unfold syncPlayer
  split_ifs with h
  · simp only
    rw [updateFirst_ids serverPlayer.id
      (fun p => { p with position := serverPlayer.position, state := serverPlayer.state })
      (fun _ => rfl)]
    exact hn
  · simp only [addRemotePlayer, List.map_append, List.map_cons, List.map_nil]
    refine List.nodup_append.2 ⟨hn, List.nodup_singleton _, ?_⟩
    intro a ha hb
    rw [List.mem_singleton] at hb
    subst hb
    exact h ((any_id_iff _ _).2 ha)

theorem foldl_syncPlayer_ids_nodup (serverPlayers : List PlayerData) :
    ∀ g : Game, (g.players.map (fun p => p.id)).Nodup →
      ((serverPlayers.foldl syncPlayer g).players.map (fun p => p.id)).Nodup := by
  induction serverPlayers with
  | nil => intro g hn; exact hn
  | cons sp rest ih =>
    intro g hn
    exact ih _ (syncPlayer_ids_nodup g sp hn)

theorem syncGameState_ids_nodup (g : Game) (state : ServerState)
    (hn : (g.players.map (fun p => p.id)).Nodup) :
    ((syncGameState g state).players.map (fun p => p.id)).Nodup := by
  unfold syncGameState
  simp only
  exact List.Nodup.sublist (List.Sublist.map _ (List.filter_sublist _))
    (foldl_syncPlayer_ids_nodup state.players _ hn)

theorem loadGameState_players (tileCenters : List String) (room : Room)
    (dbPlayers : List DbPlayer) (g : Game) :
    (loadGameState tileCenters true (some room) dbPlayers g).players
      = g.players ++ dbPlayers.map (loadedPlayer tileCenters) := by
  rcases room with ⟨⟨index, actions, deckQ, cardQ⟩, status⟩
  cases deckQ <;> cases cardQ <;> simp [loadGameState]

theorem loadedPlayer_ids (tileCenters : List String) (dbPlayers : List DbPlayer) :
    (dbPlayers.map (loadedPlayer tileCenters)).map (fun p => p.id)
      = dbPlayers.map (fun r => r.player_id) := by
  rw [List.map_map]
  rfl

theorem loadGameState_ids_nodup (tileCenters : List String) (connected : Bool)
    (currentRoom : Option Room) (dbPlayers : List DbPlayer) (g : Game)
    (hn : (g.players.map (fun p => p.id)).Nodup)
    (hrows : (dbPlayers.map (fun r => r.player_id)).Nodup)
    (hnew : ∀ r ∈ dbPlayers, r.player_id ∉ g.players.map (fun p => p.id)) :
    ((loadGameState tileCenters connected currentRoom dbPlayers g).players.map
      (fun p => p.id)).Nodup := by
  cases connected with
  | false => simpa [loadGameState] using hn
  | true =>
    cases currentRoom with
    | none => simpa [loadGameState] using hn
    | some room =>
      rw [loadGameState_players, List.map_append, loadedPlayer_ids]
      refine List.nodup_append.2 ⟨hn, hrows, ?_⟩
      intro a ha hb
      obtain ⟨r, hr, hre⟩ := List.mem_map.1 hb
      exact hnew r hr (by rw [hre]; exact ha)

/-- C23: the `playerAdded` handler and `syncGameState` keep the ids of the registry
pairwise distinct, and so does `loadGameState` when no row carries an id the registry
already holds; but `loadGameState` does not look for a known id before it pushes a row,
so loading the one row of `p1` into the registry that already holds `p1` yields two players
with the id `p1`. -/
theorem loadGameState_duplicates_id :
    (∀ (g : Game) (player : PlayerData), (g.players.map (fun p => p.id)).Nodup →
      ((onPlayerAdded g player).players.map (fun p => p.id)).Nodup) ∧
    (∀ (g : Game) (state : ServerState), (g.players.map (fun p => p.id)).Nodup →
      ((syncGameState g state).players.map (fun p => p.id)).Nodup) ∧
    (∀ (tileCenters : List String) (connected : Bool) (currentRoom : Option Room)
      (dbPlayers : List DbPlayer) (g : Game),
      (g.players.map (fun p => p.id)).Nodup →
      (dbPlayers.map (fun r => r.player_id)).Nodup →
      (∀ r ∈ dbPlayers, r.player_id ∉ g.players.map (fun p => p.id)) →
      ((loadGameState tileCenters connected currentRoom dbPlayers g).players.map
        (fun p => p.id)).Nodup) ∧
    (lineGame.players.map (fun p => p.id)).Nodup ∧
    ([playerRow "p1"].map (fun r => r.player_id)).Nodup ∧
    (loadGameState ["path001"] true (some playingRoom) [playerRow "p1"] lineGame).players.map
      (fun p => p.id) = ["p1", "p1"] ∧
    ¬ ((loadGameState ["path001"] true (some playingRoom) [playerRow "p1"]
        lineGame).players.map (fun p => p.id)).Nodup :=
  ⟨onPlayerAdded_ids_nodup, syncGameState_ids_nodup, loadGameState_ids_nodup,
    by decide, by decide, by decide, by decide⟩

end UniqueIds

section CharacterState

theorem objGet_mapSet_self {β : Type} (obj : List (String × β)) (key : String) (v : β) :
    objGet (mapSet obj key v) key = .own v := by
  unfold objGet
  rw [mapGet_mapSet_self]

theorem objGet_objSet_of_ne {β : Type} (obj : List (String × β)) (key key1 : String) (v : β)
    (hne : key ≠ key1) : objGet (objSet obj key v) key1 = objGet obj key1 := by
  unfold objSet
  split_ifs
  · rfl
  · unfold objGet
    rw [mapGet_mapSet_of_ne _ _ _ _ hne]

theorem mapGet_objSet_cases {β : Type} (obj : List (String × β)) (key key1 : String)
    (v w : β) (h : mapGet (objSet obj key v) key1 = some w) :
    w = v ∨ mapGet obj key1 = some w := by
  unfold objSet at h
  by_cases hp : key = "__proto__" ∧ (mapGet obj key).isNone = true
  · rw [if_pos hp] at h; exact Or.inr h
  · rw [if_neg hp] at h
    by_cases hk : key = key1
    · subst hk
      rw [mapGet_mapSet_self] at h
      exact Or.inl (Option.some.inj h).symm
    · rw [mapGet_mapSet_of_ne _ _ _ _ hk] at h
      exact Or.inr h

theorem created_levels_zero (talents : List Talent) :
    ∀ (acc : List (String × Level)), (∀ k v, mapGet acc k = some v → v = Level.num 0) →
      ∀ k v,
        mapGet (talents.foldl
          (fun talentLevels talent => objSet talentLevels talent.id (Level.num 0)) acc) k
          = some v →
        v = Level.num 0 := by
  induction talents with
  | nil => intro acc h; exact h
  | cons t rest ih =>
    intro acc h
    apply ih
    intro k v hk
    rcases mapGet_objSet_cases acc t.id k _ v hk with h1 | h1
    · exact h1
    · exact h k v h1

/-- A fresh state reads level 0 for every name that is not a member of
`Object.prototype`. -/
theorem storedLevel_created (character : Character) (t : String)
    (ht : t ∉ objectPrototypeKeys) :
    storedLevel (createPlayerState character) t = Level.num 0 := by
  have hfold : (createPlayerState character).talentLevels.getD []
      = character.talents.foldl
          (fun talentLevels talent => objSet talentLevels talent.id (Level.num 0)) [] := rfl
  unfold storedLevel objGet
  rw [hfold]
  cases h : mapGet (character.talents.foldl
      (fun talentLevels talent => objSet talentLevels talent.id (Level.num 0)) []) t with
  | none => simp [ht, levelOrZero]
  | some v =>
    have := created_levels_zero character.talents [] (by intro k v hk; simp [mapGet] at hk) t v h
    simp [this, levelOrZero]

theorem createPlayerState_derived (character : Character) :
    DerivedOk character (createPlayerState character) := by
  refine ⟨rfl, ?_, ?_⟩
  · rw [storedLevel_created character "max_health" (by decide)]; rfl
  · rw [storedLevel_created character "movement" (by decide)]; rfl

theorem storedLevel_upgraded (s s1 : PlayerState) (levels : List (String × Level))
    (talentId : String) (v : Level)
    (h1 : s1.talentLevels = some (objSet levels talentId v))
    (hl : s.talentLevels = some levels) (t : String) (hproto : t ≠ "__proto__") :
    storedLevel s1 t = if talentId = t then v else storedLevel s t := by
  unfold storedLevel
  rw [h1, hl]
  simp only [Option.getD_some]
  split_ifs with h
  · subst h
    rw [objSet_eq_mapSet _ _ _ hproto, objGet_mapSet_self]
    rfl
  · rw [objGet_objSet_of_ne _ _ _ _ h]

theorem upgradeTalent_derived (s : PlayerState) (character : Character) (talentId : String)
    (h : DerivedOk character s) :
    ∃ r, upgradeTalent s character talentId = some r ∧ DerivedOk character r.2 := by
  obtain ⟨hsome, hmax, hmov⟩ := h
  obtain ⟨levels, hl⟩ := Option.isSome_iff_exists.1 hsome
  unfold upgradeTalent
  rw [hl]
  simp only
  split_ifs with hge h1 h2
  · exact ⟨_, rfl, hsome, hmax, hmov⟩
  · subst h1
    refine ⟨_, rfl, rfl, ?_, ?_⟩
    · simp only
      rw [storedLevel_upgraded s _ levels "max_health" _ rfl hl "max_health" (by decide)]
      simp
    · simp only
      rw [storedLevel_upgraded s _ levels "max_health" _ rfl hl "movement" (by decide)]
      simp [hmov]
  · subst h2
    refine ⟨_, rfl, rfl, ?_, ?_⟩
    · simp only
      rw [storedLevel_upgraded s _ levels "movement" _ rfl hl "max_health" (by decide)]
      simp [hmax]
    · simp only
      rw [storedLevel_upgraded s _ levels "movement" _ rfl hl "movement" (by decide)]
      simp
  · refine ⟨_, rfl, rfl, ?_, ?_⟩
    · simp only
      rw [storedLevel_upgraded s _ levels talentId _ rfl hl "max_health" (by decide)]
      simp [h1, hmax]
    · simp only
      rw [storedLevel_upgraded s _ levels talentId _ rfl hl "movement" (by decide)]
      simp [h2, hmov]

theorem modifyHealth_derived (s : PlayerState) (character : Character) (amount : Int)
    (h : DerivedOk character s) : DerivedOk character (modifyHealth s amount) := h

theorem runStateOps_derived (character : Character) (ops : List StateOp) :
    ∀ s, DerivedOk character s →
      ∃ s1, runStateOps character s ops = some s1 ∧ DerivedOk character s1 := by
  induction ops with
  | nil => intro s h; exact ⟨s, rfl, h⟩
  | cons op rest ih =>
    intro s h
    cases op with
    | upgradeTalent talentId =>
      obtain ⟨r, hr, hd⟩ := upgradeTalent_derived s character talentId h
      obtain ⟨s1, hs1, hd1⟩ := ih r.2 hd
      exact ⟨s1, by simp [runStateOps, hr, hs1], hd1⟩
    | modifyHealth amount =>
      obtain ⟨s1, hs1, hd1⟩ := ih _ (modifyHealth_derived s character amount h)
      exact ⟨s1, by simp [runStateOps, hs1], hd1⟩

/-- C24, the code at the failing inputs.  The talents of the first character have
non-empty level lists, with `max_health` values 5 and 3: after losing 4 health the state
holds 1, and the upgrade of `max_health` adds the difference 3 - 5 to it and leaves
`currentHealth` at -1, below 0, where `modifyHealth` clamps (losing 20 leaves 0).  For the
name `constructor`, which is no talent of the scenario character (maximum level 0), the
level read is an inherited member: the upgrade is not refused, returns true and stores a
string as the level.  For a character with a talent named `__proto__` and one level
(maximum level 0), `createPlayerState` stores no level for it, the level read is the
prototype object, which is not `<=` the maximum, and the upgrade at the maximum level
returns true. -/
theorem upgrade_leaves_negative_health :
    ((∀ t ∈ shrinkingCharacter.talents, t.levels ≠ []) ∧
     (runStateOps shrinkingCharacter (createPlayerState shrinkingCharacter)
       [.modifyHealth (-4)]).bind (fun s => s.currentHealth) = some 1 ∧
     (runStateOps shrinkingCharacter (createPlayerState shrinkingCharacter)
       [.modifyHealth (-4), .upgradeTalent "max_health"]).bind (fun s => s.currentHealth)
       = some (-1) ∧
     (runStateOps shrinkingCharacter (createPlayerState shrinkingCharacter)
       [.modifyHealth (-4), .upgradeTalent "max_health"]).bind (fun s => s.maxHealth)
       = some 3 ∧
     (runStateOps shrinkingCharacter (createPlayerState shrinkingCharacter)
       [.modifyHealth (-20)]).bind (fun s => s.currentHealth) = some 0) ∧
    (getMaxTalentLevel scenarioCharacter "constructor" = 0 ∧
     (upgradeTalent (createPlayerState scenarioCharacter) scenarioCharacter "constructor").map
       (fun r => (r.1, r.2.talentLevels))
       = some (true, some [("max_health", 0), ("movement", 0), ("constructor", .text 1)])) ∧
    ((∀ t ∈ protoCharacter.talents, t.levels ≠ []) ∧
     getMaxTalentLevel protoCharacter "__proto__" = 0 ∧
     (createPlayerState protoCharacter).talentLevels = some [("max_health", 0)] ∧
     storedLevel (createPlayerState protoCharacter) "__proto__" = .member ∧
     levelLe (storedLevel (createPlayerState protoCharacter) "__proto__")
       (getMaxTalentLevel protoCharacter "__proto__") = false ∧
     (upgradeTalent (createPlayerState protoCharacter) protoCharacter "__proto__").map
       (fun r => (r.1, r.2.talentLevels)) = some (true, some [("max_health", 0)])) := by
  refine ⟨⟨?_, ?_, ?_, ?_, ?_⟩, ⟨?_, ?_⟩, ⟨?_, ?_, ?_, ?_, ?_, ?_⟩⟩ <;> decide

/-- C25: `createPlayerState` followed by any sequence of `upgradeTalent` (and
`modifyHealth`) calls runs without error and ends in a state whose `maxHealth` is
`getTalentValue(character, 'max_health', talentLevels['max_health'])` and whose `movement`
is `getTalentValue(character, 'movement', talentLevels['movement'])`; an upgrade of any
other talent leaves `maxHealth`, `currentHealth` and `movement` unchanged. -/
theorem derived_fields_follow_levels (character : Character) (ops : List StateOp) :
    (∃ s, runStateOps character (createPlayerState character) ops = some s ∧
      s.maxHealth = getTalentValue character "max_health" (storedLevel s "max_health") ∧
      s.movement = getTalentValue character "movement" (storedLevel s "movement")) ∧
    (∀ (s : PlayerState) (talentId : String) (r : Bool × PlayerState),
      talentId ≠ "max_health" → talentId ≠ "movement" →
      upgradeTalent s character talentId = some r →
      r.2.maxHealth = s.maxHealth ∧ r.2.currentHealth = s.currentHealth ∧
      r.2.movement = s.movement) := by
  constructor
  · obtain ⟨s, hs, _, hmax, hmov⟩ :=
      runStateOps_derived character ops (createPlayerState character)
        (createPlayerState_derived character)
    exact ⟨s, hs, hmax, hmov⟩
  · intro s talentId r h1 h2 hr
    unfold upgradeTalent at hr
    cases hl : s.talentLevels with
    | none => rw [hl] at hr; cases hr
    | some levels =>
      rw [hl] at hr
      simp only [h1, h2, if_false] at hr
      split_ifs at hr
      · cases hr; exact ⟨rfl, rfl, rfl⟩
      · cases hr; exact ⟨rfl, rfl, rfl⟩

/-- C25 on the scenario character: after the scenario calls `maxHealth` is 6, the value
of `max_health` at the stored level 1, and `movement` is 3. -/
theorem derived_fields_follow_levels_witness :
    getTalentValue scenarioCharacter "max_health" 1 = some 6 ∧
    getTalentValue scenarioCharacter "movement" 1 = some 3 ∧
    runStateOps scenarioCharacter (createPlayerState scenarioCharacter) scenarioOps
      = some { characterId := some "arthur", currentHealth := some 3, maxHealth := some 6,
               movement := some 3,
               talentLevels := some [("max_health", 1), ("movement", 1)],
               effects := some [] } ∧
    ∃ s, runStateOps scenarioCharacter (createPlayerState scenarioCharacter) scenarioOps
        = some s ∧
      s.maxHealth = getTalentValue scenarioCharacter "max_health" (storedLevel s "max_health") ∧
      s.movement = getTalentValue scenarioCharacter "movement" (storedLevel s "movement") :=
  ⟨by decide, by decide, by decide,
    (derived_fields_follow_levels scenarioCharacter scenarioOps).1⟩

end CharacterState

section CardGroups

theorem statusKey_cases (card : Card) :
    statusKey card = "ready" ∨ statusKey card = "mounted" ∨ statusKey card = "mounting" ∨
      statusKey card = "unmounted" := by
  unfold statusKey
  split_ifs <;> simp

theorem key_text_inj (a b s t : String)
    (hs : s = "ready" ∨ s = "mounted" ∨ s = "mounting" ∨ s = "unmounted")
    (ht : t = "ready" ∨ t = "mounted" ∨ t = "mounting" ∨ t = "unmounted")
    (h : a ++ "_" ++ s = b ++ "_" ++ t) : a = b ∧ s = t := by
  have hd := congrArg (fun x => x.data.reverse) h
  simp only [String.data_append, List.reverse_append] at hd
  rcases hs with rfl | rfl | rfl | rfl <;> rcases ht with rfl | rfl | rfl | rfl <;>
    simp at hd <;> exact ⟨String.ext hd, rfl⟩

theorem groupKey_eq_iff (c d : Card) :
    groupKey c = groupKey d ↔ idText c.id = idText d.id ∧ statusKey c = statusKey d := by
  constructor
  · intro h
    exact key_text_inj _ _ _ _ (statusKey_cases c) (statusKey_cases d) h
  · rintro ⟨h1, h2⟩
    unfold groupKey
    rw [h1, h2]

theorem mem_keyMembers (key : String) (cards : List Card) :
    ∀ (index i : Nat) (c : Card), (i, c) ∈ keyMembers key cards index ↔
      index ≤ i ∧ cards[i - index]? = some c ∧ groupKey c = key := by
  induction cards with
  | nil => intro index i c; simp [keyMembers]
  | cons d rest ih =>
    intro index i c
    have hstep : (i, c) ∈ keyMembers key rest (index + 1) ↔
        index + 1 ≤ i ∧ rest[i - (index + 1)]? = some c ∧ groupKey c = key := ih (index + 1) i c
    by_cases hi : i = index
    · subst hi
      have hno : (i, c) ∉ keyMembers key rest (i + 1) := by
        rw [hstep]; omega
      by_cases hd : groupKey d = key
      · simp only [keyMembers, hd, if_true, List.mem_cons, Prod.mk.injEq, true_and,
          Nat.sub_self, List.getElem?_cons_zero, Option.some.injEq, Nat.le_refl]
        constructor
        · rintro (h | h)
          · subst h; exact ⟨rfl, hd⟩
          · exact absurd h hno
        · rintro ⟨h, _⟩
          exact Or.inl h.symm
      · simp only [keyMembers, hd, if_false, Nat.sub_self, List.getElem?_cons_zero,
          Option.some.injEq, Nat.le_refl, true_and]
        constructor
        · intro h; exact absurd h hno
        · rintro ⟨h, hk⟩
          subst h
          exact absurd hk hd
    · have hrest : (index ≤ i ∧ (d :: rest)[i - index]? = some c ∧ groupKey c = key) ↔
          (index + 1 ≤ i ∧ rest[i - (index + 1)]? = some c ∧ groupKey c = key) := by
        constructor
        · rintro ⟨h1, h2, h3⟩
          have hlt : index + 1 ≤ i := by omega
          have he : i - index = (i - (index + 1)) + 1 := by omega
          rw [he, List.getElem?_cons_succ] at h2
          exact ⟨hlt, h2, h3⟩
        · rintro ⟨h1, h2, h3⟩
          have he : i - index = (i - (index + 1)) + 1 := by omega
          refine ⟨by omega, ?_, h3⟩
          rw [he, List.getElem?_cons_succ]
          exact h2
      rw [hrest, ← hstep]
      by_cases hd : groupKey d = key
      · simp only [keyMembers, hd, if_true, List.mem_cons, Prod.mk.injEq]
        constructor
        · rintro (⟨h, _⟩ | h)
          · exact absurd h hi
          · exact h
        · intro h; exact Or.inr h
      · simp only [keyMembers, hd, if_false]

theorem keyMembers_indices_sorted (key : String) (cards : List Card) :
    ∀ index : Nat, ((keyMembers key cards index).map Prod.fst).Pairwise (· < ·) := by
  induction cards with
  | nil => intro index; simp [keyMembers]
  | cons d rest ih =>
    intro index
    by_cases hd : groupKey d = key
    · simp only [keyMembers, hd, if_true, List.map_cons, List.pairwise_cons]
      refine ⟨?_, ih (index + 1)⟩
      intro j hj
      obtain ⟨⟨j1, c⟩, hmem, hje⟩ := List.mem_map.1 hj
      simp only at hje
      subst hje
      have := ((mem_keyMembers key rest (index + 1) j1 c).1 hmem).1
      omega
    · simp only [keyMembers, hd, if_false]
      exact ih (index + 1)

theorem extendGroup_some (g : CardGroup) (members : List (Nat × Card)) :
    extendGroup (some g) members
      = some { cards := g.cards ++ members.map Prod.snd
               indices := g.indices ++ members.map Prod.fst
               statusKey := g.statusKey } := by
  cases members with
  | nil => simp [extendGroup]
  | cons m rest => rfl

theorem groupCardsLoop_spec (cards : List Card) :
    ∀ (index : Nat) (groups : List (String × CardGroup)),
      ∃ final, groupCardsLoop (cards.map some) index groups = some final ∧
        ((groups.map Prod.fst).Nodup → (final.map Prod.fst).Nodup) ∧
        ∀ key, mapGet final key = extendGroup (mapGet groups key) (keyMembers key cards index) := by
  induction cards with
  | nil =>
    intro index groups
    exact ⟨groups, rfl, fun h => h, fun key => rfl⟩
  | cons c rest ih =>
    intro index groups
    obtain ⟨final, hrun, hnd, hget⟩ := ih (index + 1) (addToGroup groups c index)
    refine ⟨final, ?_, ?_, ?_⟩
    · simpa [groupCardsLoop] using hrun
    · intro h
      exact hnd (mapSet_keys_nodup _ _ _ h)
    · intro key
      rw [hget key]
      by_cases hk : groupKey c = key
      · subst hk
        simp only [addToGroup, mapGet_mapSet_self, keyMembers, if_true, extendGroup_some]
        simp [extendGroup, List.append_assoc]
      · simp only [addToGroup, keyMembers, hk, if_false]
        rw [mapGet_mapSet_of_ne _ _ _ _ hk]

theorem extendGroup_none_eq_some (members : List (Nat × Card)) (grp : CardGroup)
    (h : extendGroup none members = some grp) :
    grp.indices = members.map Prod.fst ∧ grp.cards = members.map Prod.snd ∧
      ∃ m ∈ members, grp.statusKey = statusKey m.2 := by
  cases members with
  | nil => simp [extendGroup] at h
  | cons m rest =>
    obtain ⟨i, c⟩ := m
    simp only [extendGroup, Option.getD_none, List.nil_append, Option.some.injEq] at h
    subst h
    exact ⟨rfl, rfl, (i, c), List.mem_cons_self _ _, rfl⟩

theorem groupCards_groups (cards : List Card) :
    ∃ final : List (String × CardGroup),
      groupCards (cards.map some) = some (final.map Prod.snd) ∧
      (final.map Prod.fst).Nodup ∧
      ∀ key, mapGet final key = extendGroup none (keyMembers key cards 0) := by
  obtain ⟨final, hrun, hnd, hget⟩ := groupCardsLoop_spec cards 0 []
  refine ⟨final, ?_, hnd List.nodup_nil, ?_⟩
  · simp [groupCards, hrun]
  · intro key
    rw [hget key]
    rfl

/-- C26 (amended): `groupCards` derives one status for every card (`ready` iff `mounting`
is `null`; otherwise `mounted` iff `mounted` is true; otherwise `mounting` iff
`mountingProgress > 0`; otherwise `unmounted`) and returns groups that partition the card
indices: every index `0..n-1` lies in exactly one group, once; a group's cards are the
cards at its indices and its `statusKey` is the status of all of them; and two cards fall in
the same group iff they have the same status and the same id as the key renders it (an
absent id reads `undefined`). -/
theorem groupCards_partition (cards : List Card) :
    ∃ groups, groupCards (cards.map some) = some groups ∧
      (∀ i, i < cards.length → ∃! grp, grp ∈ groups ∧ i ∈ grp.indices) ∧
      (∀ grp ∈ groups, grp.indices.Nodup ∧
        grp.cards.map some = grp.indices.map (fun i => cards[i]?) ∧
        ∀ c ∈ grp.cards, statusKey c = grp.statusKey) ∧
      (∀ (i j : Nat) (ci cj : Card), cards[i]? = some ci → cards[j]? = some cj →
        ((∃ grp ∈ groups, i ∈ grp.indices ∧ j ∈ grp.indices) ↔
          idText ci.id = idText cj.id ∧ statusKey ci = statusKey cj)) ∧
      (∀ c : Card,
        (statusKey c = "ready" ↔ (c.mounting = none ∧ c.mountingAbsent = false)) ∧
        (statusKey c = "mounted" ↔
          ¬ (c.mounting = none ∧ c.mountingAbsent = false) ∧ c.mounted = true) ∧
        (statusKey c = "mounting" ↔
          ¬ (c.mounting = none ∧ c.mountingAbsent = false) ∧ c.mounted = false ∧
            0 < c.mountingProgress.getD 0) ∧
        (statusKey c = "unmounted" ↔
          ¬ (c.mounting = none ∧ c.mountingAbsent = false) ∧ c.mounted = false ∧
            c.mountingProgress.getD 0 = 0)) := by
  obtain ⟨final, hrun, hnd, hget⟩ := groupCards_groups cards
  -- every group is the group of a key, and holds the members of that key
  have hgroup : ∀ grp, grp ∈ final.map Prod.snd →
      ∃ key, mapGet final key = some grp ∧
        grp.indices = (keyMembers key cards 0).map Prod.fst ∧
        grp.cards = (keyMembers key cards 0).map Prod.snd ∧
        ∃ m ∈ keyMembers key cards 0, grp.statusKey = statusKey m.2 := by
    intro grp hg
    obtain ⟨⟨key, g1⟩, hmem, hge⟩ := List.mem_map.1 hg
    simp only at hge
    subst hge
    have hk := mapGet_eq_some_of_mem final key g1 hnd hmem
    have hk1 := hk
    rw [hget key] at hk1
    obtain ⟨h1, h2, h3⟩ := extendGroup_none_eq_some _ _ hk1
    exact ⟨key, hk, h1, h2, h3⟩
  -- the group of the key of a card holds the index of that card
  have hfind : ∀ (i : Nat) (c : Card), cards[i]? = some c →
      ∃ grp, mapGet final (groupKey c) = some grp ∧ grp ∈ final.map Prod.snd ∧
        i ∈ grp.indices := by
    intro i c hc
    have hmem : (i, c) ∈ keyMembers (groupKey c) cards 0 :=
      (mem_keyMembers _ cards 0 i c).2 ⟨Nat.zero_le _, by simpa using hc, rfl⟩
    cases hm : keyMembers (groupKey c) cards 0 with
    | nil => rw [hm] at hmem; cases hmem
    | cons m rest =>
      have hsome : ∃ grp, mapGet final (groupKey c) = some grp := by
        rw [hget, hm]
        exact ⟨_, rfl⟩
      obtain ⟨grp, hgrp⟩ := hsome
      have hin : grp ∈ final.map Prod.snd :=
        List.mem_map.2 ⟨(groupKey c, grp), mem_of_mapGet_eq_some _ _ _ hgrp, rfl⟩
      have hk1 := hgrp
      rw [hget] at hk1
      obtain ⟨h1, _, _⟩ := extendGroup_none_eq_some _ _ hk1
      refine ⟨grp, hgrp, hin, ?_⟩
      rw [h1]
      exact List.mem_map.2 ⟨(i, c), hmem, rfl⟩
  -- an index in the group of a key belongs to a card with that key
  have hkey : ∀ (key : String) (grp : CardGroup) (i : Nat) (c : Card),
      grp.indices = (keyMembers key cards 0).map Prod.fst → i ∈ grp.indices →
      cards[i]? = some c → groupKey c = key := by
    intro key grp i c hidx hi hc
    rw [hidx] at hi
    obtain ⟨⟨i1, c1⟩, hmem, hie⟩ := List.mem_map.1 hi
    simp only at hie
    subst hie
    obtain ⟨_, hget1, hk⟩ := (mem_keyMembers key cards 0 i1 c1).1 hmem
    simp only [Nat.sub_zero] at hget1
    rw [hget1] at hc
    cases hc
    exact hk
  refine ⟨final.map Prod.snd, hrun, ?_, ?_, ?_, ?_⟩
  · intro i hi
    have hc : cards[i]? = some (cards[i]) := List.getElem?_eq_getElem hi
    obtain ⟨grp, hgrp, hin, hmem⟩ := hfind i _ hc
    refine ⟨grp, ⟨hin, hmem⟩, ?_⟩
    rintro g1 ⟨hg1, hi1⟩
    obtain ⟨key, hk, hidx, _, _⟩ := hgroup g1 hg1
    have hke := hkey key g1 i _ hidx hi1 hc
    rw [← hke, hgrp] at hk
    exact (Option.some.inj hk).symm
  · intro grp hg
    obtain ⟨key, _, hidx, hcards, m, hm, hstatus⟩ := hgroup grp hg
    refine ⟨?_, ?_, ?_⟩
    · rw [hidx]
      exact (keyMembers_indices_sorted key cards 0).imp (fun h => Nat.ne_of_lt h)
    · rw [hidx, hcards, List.map_map, List.map_map]
      apply List.map_congr_left
      rintro ⟨i, c⟩ hmem
      obtain ⟨_, hget1, _⟩ := (mem_keyMembers key cards 0 i c).1 hmem
      simpa using hget1.symm
    · intro c hc
      rw [hcards] at hc
      obtain ⟨⟨i, c1⟩, hmem, hce⟩ := List.mem_map.1 hc
      simp only at hce
      subst hce
      have hk1 := ((mem_keyMembers key cards 0 i c1).1 hmem).2.2
      have hk2 := ((mem_keyMembers key cards 0 m.1 m.2).1 hm).2.2
      rw [hstatus]
      exact ((groupKey_eq_iff c1 m.2).1 (hk1.trans hk2.symm)).2
  · intro i j ci cj hi hj
    rw [← groupKey_eq_iff]
    constructor
    · rintro ⟨grp, hg, hgi, hgj⟩
      obtain ⟨key, _, hidx, _, _⟩ := hgroup grp hg
      rw [hkey key grp i ci hidx hgi hi, hkey key grp j cj hidx hgj hj]
    · intro hk
      obtain ⟨grp, hgrp, hin, hmem⟩ := hfind i ci hi
      obtain ⟨g1, hg1, _, hmem1⟩ := hfind j cj hj
      rw [← hk, hgrp] at hg1
      cases hg1
      exact ⟨grp, hin, hmem, hmem1⟩
  · intro c
    unfold statusKey
    by_cases h1 : c.mounting = none ∧ c.mountingAbsent = false
    · simp [h1]
    · by_cases h2 : c.mounted = true
      · simp [h1, h2]
      · by_cases h3 : 0 < c.mountingProgress.getD 0
        · simp [h1, h2, h3]
          omega
        · simp [h1, h2, h3]
          omega

/-- C26 (amended) on four cards: the two fresh `radio` cards share a group, the `radio`
in progress and the ready `mapa` have groups of their own. -/
theorem groupCards_partition_witness :
    groupCards scenarioCards
      = some [{ cards := [mountableCard "radio" ["geografia"],
                          mountableCard "radio" ["geografia"]],
                indices := [0, 2], statusKey := "unmounted" },
              { cards := [readyCard (some "mapa")], indices := [1], statusKey := "ready" },
              { cards := [{ mountableCard "radio" ["geografia"] with
                            mountingProgress := some 2 }],
                indices := [3], statusKey := "mounting" }] ∧
    ∃ groups,
      groupCards
        ([mountableCard "radio" ["geografia"], readyCard (some "mapa"),
          mountableCard "radio" ["geografia"],
          { mountableCard "radio" ["geografia"] with mountingProgress := some 2 }].map some)
        = some groups ∧
      ∀ i, i < 4 → ∃! grp, grp ∈ groups ∧ i ∈ grp.indices :=
  ⟨by decide,
    (groupCards_partition
      [mountableCard "radio" ["geografia"], readyCard (some "mapa"),
       mountableCard "radio" ["geografia"],
       { mountableCard "radio" ["geografia"] with mountingProgress := some 2 }]).imp
      (fun _ h => ⟨h.1, h.2.1⟩)⟩

/-- C26 as stated fails on the ids: a card without `id` and a card whose id is the string
`undefined` have different ids and the same status, and `groupCards` puts them in one
group, because the key renders both ids as `undefined`. -/
theorem groupCards_merges_absent_id :
    (readyCard none).id ≠ (readyCard (some "undefined")).id ∧
    statusKey (readyCard none) = statusKey (readyCard (some "undefined")) ∧
    groupCards [some (readyCard none), some (readyCard (some "undefined"))]
      = some [{ cards := [readyCard none, readyCard (some "undefined")],
                indices := [0, 1], statusKey := "ready" }] := by
  decide

end CardGroups

section DeckChoices

theorem availableDecksLoop_eq (g : Game) (result : Int) (decks : List (String × Deck)) :
    availableDecksLoop g result decks
      = (decks.filter (fun kd => decide (kd.2.minRoll ≤ result ∧ result ≤ kd.2.maxRoll))).map
          (fun kd => deckChoice g kd.1 kd.2) := by
  induction decks with
  | nil => rfl
  | cons kd rest ih =>
    obtain ⟨key, deck⟩ := kd
    by_cases h : deck.minRoll ≤ result ∧ result ≤ deck.maxRoll
    · have h1 : result ≥ deck.minRoll ∧ result ≤ deck.maxRoll := h
      simp [availableDecksLoop, h1, h, ih]
    · have h1 : ¬ (result ≥ deck.minRoll ∧ result ≤ deck.maxRoll) := h
      simp [availableDecksLoop, h1, h, ih]

/-- C27: `getAvailableDecks(roll)` lists, in the order of the configuration, one entry for
exactly the configured decks with `minRoll <= roll <= maxRoll`; every entry carries the
deck's remaining total as `quantity` and has `isEmpty` true iff that quantity is 0; a deck
in range with nothing left is listed (as empty), and every entry listed comes from a deck
whose range contains the roll.  Without deck data the list is empty. -/
theorem getAvailableDecks_spec (g : Game) (result : Int) :
    getAvailableDecks g result
      = ((g.decksData.getD []).filter
          (fun kd => decide (kd.2.minRoll ≤ result ∧ result ≤ kd.2.maxRoll))).map
          (fun kd => deckChoice g kd.1 kd.2) ∧
    (getAvailableDecks g result).map (fun ch => ch.id)
      = ((g.decksData.getD []).filter
          (fun kd => decide (kd.2.minRoll ≤ result ∧ result ≤ kd.2.maxRoll))).map Prod.fst ∧
    (∀ ch ∈ getAvailableDecks g result,
      ch.quantity = getDeckQuantity g ch.id ∧ (ch.isEmpty = true ↔ ch.quantity = 0) ∧
      ∃ deck, (ch.id, deck) ∈ g.decksData.getD [] ∧ deck.minRoll ≤ result ∧
        result ≤ deck.maxRoll) ∧
    (∀ key deck, (key, deck) ∈ g.decksData.getD [] → deck.minRoll ≤ result →
      result ≤ deck.maxRoll →
      ∃ ch ∈ getAvailableDecks g result, ch.id = key ∧ ch.quantity = getDeckQuantity g key ∧
        (getDeckQuantity g key = 0 → ch.isEmpty = true)) := by
  have he : getAvailableDecks g result
      = ((g.decksData.getD []).filter
          (fun kd => decide (kd.2.minRoll ≤ result ∧ result ≤ kd.2.maxRoll))).map
          (fun kd => deckChoice g kd.1 kd.2) := by
    unfold getAvailableDecks
    cases g.decksData with
    | none => rfl
    | some decks => exact availableDecksLoop_eq g result decks
  refine ⟨he, ?_, ?_, ?_⟩
  · rw [he, List.map_map]
    rfl
  · intro ch hch
    rw [he] at hch
    obtain ⟨⟨key, deck⟩, hmem, hce⟩ := List.mem_map.1 hch
    obtain ⟨hin, hrange⟩ := List.mem_filter.1 hmem
    simp only at hce
    subst hce
    simp only [decide_eq_true_eq] at hrange
    refine ⟨rfl, ?_, deck, hin, hrange.1, hrange.2⟩
    simp [deckChoice]
  · intro key deck hin h1 h2
    refine ⟨deckChoice g key deck, ?_, rfl, rfl, ?_⟩
    · rw [he]
      exact List.mem_map.2 ⟨(key, deck),
        List.mem_filter.2 ⟨hin, by simp [h1, h2]⟩, rfl⟩
    · intro h0
      simp [deckChoice, h0]

/-- C27 on the scenario deck once it is exhausted: a roll of 7 still lists `verde`, with
quantity 0 and `isEmpty`; a roll of 21, outside the range 1-20, lists nothing. -/
theorem getAvailableDecks_spec_witness :
    getAvailableDecks emptiedVerdeGame 7
      = [{ id := "verde", name := some "Verde", color := none, range := "1-20",
           quantity := 0, isEmpty := true }] ∧
    getAvailableDecks emptiedVerdeGame 21 = [] ∧
    (getAvailableDecks emptiedVerdeGame 7).map (fun ch => ch.id)
      = ((emptiedVerdeGame.decksData.getD []).filter
          (fun kd => decide (kd.2.minRoll ≤ 7 ∧ 7 ≤ kd.2.maxRoll))).map Prod.fst :=
  ⟨by decide, by decide, (getAvailableDecks_spec emptiedVerdeGame 7).2.1⟩

end DeckChoices

section BonusActions

theorem executeBonusAction_frame (g : Game) (selected : Option String) :
    (executeBonusAction g selected).players = g.players ∧
    (executeBonusAction g selected).currentPlayerIndex = g.currentPlayerIndex ∧
    (executeBonusAction g selected).currentTurnActions.movementUsed
      = g.currentTurnActions.movementUsed ∧
    (executeBonusAction g selected).currentTurnActions.mainActionUsed
      = g.currentTurnActions.mainActionUsed := by
  unfold executeBonusAction
  repeat' split
  all_goals exact ⟨rfl, rfl, rfl, rfl⟩

theorem executeBonusAction_new (g : Game) (action : String) (cur : Player)
    (hne : action ≠ "") (hcur : currentPlayer g = some cur)
    (hnew : action ∉ g.currentTurnActions.bonusActions) :
    executeBonusAction g (some action)
      = { g with currentTurnActions :=
            { g.currentTurnActions with
              bonusActions := g.currentTurnActions.bonusActions ++ [action] } } := by
  simp [executeBonusAction, hne, hcur, hnew]

theorem executeBonusAction_nodup (g : Game) (selected : Option String)
    (h : g.currentTurnActions.bonusActions.Nodup) :
    (executeBonusAction g selected).currentTurnActions.bonusActions.Nodup := by
  unfold executeBonusAction
  repeat' split
  all_goals first
    | exact h
    | (rename_i hnot
       exact List.nodup_append.2 ⟨h, List.nodup_singleton _, by
        intro a ha hb
        rw [List.mem_singleton] at hb
        subst hb
        exact hnot ha⟩)

theorem runBonusActions_nodup (actions : List String) :
    ∀ g : Game, g.currentTurnActions.bonusActions.Nodup →
      (runBonusActions g actions).currentTurnActions.bonusActions.Nodup := by
  induction actions with
  | nil => intro g h; exact h
  | cons a rest ih =>
    intro g h
    exact ih _ (executeBonusAction_nodup g (some a) h)

theorem runBonusActions_distinct (actions : List String) :
    ∀ (g : Game) (cur : Player), currentPlayer g = some cur → actions.Nodup →
      (∀ a ∈ actions, a ≠ "" ∧ a ∉ g.currentTurnActions.bonusActions) →
      (runBonusActions g actions).currentTurnActions.bonusActions
        = g.currentTurnActions.bonusActions ++ actions := by
  induction actions with
  | nil => intro g cur _ _ _; simp [runBonusActions]
  | cons a rest ih =>
    intro g cur hcur hnd hall
    obtain ⟨hane, hanew⟩ := hall a (List.mem_cons_self _ _)
    have hnd1 := List.nodup_cons.1 hnd
    have he := executeBonusAction_new g a cur hane hcur hanew
    have hstep : runBonusActions g (a :: rest)
        = runBonusActions (executeBonusAction g (some a)) rest := rfl
    rw [hstep, ih (executeBonusAction g (some a)) cur ?_ hnd1.2 ?_]
    · rw [he]; simp
    · rw [he]; exact hcur
    · intro b hb
      obtain ⟨hbne, hbnew⟩ := hall b (List.mem_cons_of_mem _ hb)
      refine ⟨hbne, ?_⟩
      rw [he]
      simp only [List.mem_append, List.mem_singleton, not_or]
      refine ⟨hbnew, ?_⟩
      intro hba
      subst hba
      exact hnd1.1 hb

/-- C28: `executeBonusAction` with an action already in `bonusActions` changes nothing;
with a new one (a selection is made and there is a current player) it appends it exactly
once and changes nothing else, so `movementUsed` and `mainActionUsed` are as before.  Hence
calls never produce a duplicate in `bonusActions`, and distinct new actions used one after
the other are all recorded. -/
theorem executeBonusAction_once (g : Game) :
    (∀ action, action ∈ g.currentTurnActions.bonusActions →
      executeBonusAction g (some action) = g) ∧
    (∀ action cur, action ≠ "" → currentPlayer g = some cur →
      action ∉ g.currentTurnActions.bonusActions →
      executeBonusAction g (some action)
        = { g with currentTurnActions :=
              { g.currentTurnActions with
                bonusActions := g.currentTurnActions.bonusActions ++ [action] } } ∧
      (executeBonusAction g (some action)).currentTurnActions.bonusActions.count action = 1 ∧
      (executeBonusAction g (some action)).currentTurnActions.movementUsed
        = g.currentTurnActions.movementUsed ∧
      (executeBonusAction g (some action)).currentTurnActions.mainActionUsed
        = g.currentTurnActions.mainActionUsed) ∧
    (∀ actions, g.currentTurnActions.bonusActions.Nodup →
      (runBonusActions g actions).currentTurnActions.bonusActions.Nodup) ∧
    (∀ actions cur, currentPlayer g = some cur → actions.Nodup →
      (∀ a ∈ actions, a ≠ "" ∧ a ∉ g.currentTurnActions.bonusActions) →
      (runBonusActions g actions).currentTurnActions.bonusActions
        = g.currentTurnActions.bonusActions ++ actions) := by
  refine ⟨?_, ?_, ?_, ?_⟩
  · intro action h
    simp only [executeBonusAction, h, if_true]
    split_ifs
    · rfl
    · split <;> rfl
  · intro action cur hne hcur hnew
    have he := executeBonusAction_new g action cur hne hcur hnew
    refine ⟨he, ?_, (executeBonusAction_frame g (some action)).2.2.1,
      (executeBonusAction_frame g (some action)).2.2.2⟩
    rw [he]
    simp [List.count_append, List.count_eq_zero_of_not_mem hnew]
  · intro actions h
    exact runBonusActions_nodup actions g h
  · intro actions cur hcur hnd hall
    exact runBonusActions_distinct actions g cur hcur hnd hall

/-- C28 on the three-player game, whose current player has used the bonus action `x`:
`x` again changes nothing, and `y`, `z`, `y` leave the actions `x`, `y`, `z`. -/
theorem executeBonusAction_once_witness :
    executeBonusAction threePlayerGame (some "x") = threePlayerGame ∧
    (runBonusActions threePlayerGame ["y", "z", "y"]).currentTurnActions
      = { movementUsed := true, mainActionUsed := true, bonusActions := ["x", "y", "z"] } ∧
    (runBonusActions threePlayerGame ["y", "z"]).currentTurnActions.bonusActions
      = threePlayerGame.currentTurnActions.bonusActions ++ ["y", "z"] :=
  ⟨(executeBonusAction_once threePlayerGame).1 "x" (by decide), by decide,
    (executeBonusAction_once threePlayerGame).2.2.2 ["y", "z"]
      (samplePlayer "p2" (some "B") 1) (by decide) (by decide) (by decide)⟩

end BonusActions

section IndexRange

theorem removePlayerById_in_range (g : Game) (playerId : String)
    (h : g.currentPlayerIndex < g.players.length)
    (hne : (removePlayerById g playerId).players ≠ []) :
    (removePlayerById g playerId).currentPlayerIndex
      < (removePlayerById g playerId).players.length := by
  unfold removePlayerById at hne ⊢
  cases hf : findIndex playerId g.players with
  | none => simpa [hf] using h
  | some i =>
    rw [hf] at hne
    simp only at hne ⊢
    have hpos : 0 < (g.players.eraseIdx i).length := List.length_pos.2 hne
    split_ifs with hge
    · exact hpos
    · omega

/-- C29: `endTurn`, `nextTurn` and `removePlayerById` leave `currentPlayerIndex` in range
whenever players remain; `removePlayerFromSetup` filters the player list and never looks at
the index, so with three players and the last one as current player, removing `p1` leaves
two players and the index 2. -/
theorem removePlayerFromSetup_index_out_of_range :
    (∀ g : Game, g.players ≠ [] → g.currentPlayerIndex < g.players.length →
      (endTurn g).players = g.players ∧
      (endTurn g).currentPlayerIndex < (endTurn g).players.length) ∧
    (∀ g : Game, g.players ≠ [] →
      (nextTurn g).players = g.players ∧
      (nextTurn g).currentPlayerIndex < (nextTurn g).players.length) ∧
    (∀ (g : Game) (playerId : String), g.currentPlayerIndex < g.players.length →
      (removePlayerById g playerId).players ≠ [] →
      (removePlayerById g playerId).currentPlayerIndex
        < (removePlayerById g playerId).players.length) ∧
    { threePlayerGame with currentPlayerIndex := 2 }.currentPlayerIndex
      < { threePlayerGame with currentPlayerIndex := 2 }.players.length ∧
    (removePlayerFromSetup { threePlayerGame with currentPlayerIndex := 2 } "p1").players.map
      (fun p => p.id) = ["p2", "p3"] ∧
    (removePlayerFromSetup { threePlayerGame with currentPlayerIndex := 2 }
      "p1").currentPlayerIndex = 2 ∧
    ¬ ((removePlayerFromSetup { threePlayerGame with currentPlayerIndex := 2 }
        "p1").currentPlayerIndex
      < (removePlayerFromSetup { threePlayerGame with currentPlayerIndex := 2 }
        "p1").players.length) ∧
    currentPlayer (removePlayerFromSetup { threePlayerGame with currentPlayerIndex := 2 } "p1")
      = none := by
  refine ⟨?_, ?_, removePlayerById_in_range, by decide, by decide, by decide, by decide,
    by decide⟩
  · intro g hne hlt
    have hpos : 0 < g.players.length := List.length_pos.2 hne
    by_cases hs : g.gameStarted = true
    · obtain ⟨h1, h2, _, _⟩ := endTurn_spec g hs hpos
      refine ⟨h1, ?_⟩
      rw [h1, h2]
      exact Nat.mod_lt _ hpos
    · have he : endTurn g = g := by simp [endTurn, hs]
      rw [he]
      exact ⟨rfl, hlt⟩
  · intro g hne
    have hpos : 0 < g.players.length := List.length_pos.2 hne
    obtain ⟨h1, h2, _, _⟩ := nextTurn_frame g
    refine ⟨h1, ?_⟩
    rw [h1, h2]
    exact Nat.mod_lt _ hpos

end IndexRange

section WiredRounds

theorem foldl_talents_no_rounds (talents : List Talent) (f : Talent → TalentInfo)
    (hf : ∀ t, (f t).mountingRounds = none) :
    ∀ init : PlayerTalents,
      (∀ k info, mapGet init k = some info → info.mountingRounds = none) →
      ∀ k info,
        mapGet (talents.foldl (fun acc t => objSet acc t.id (f t)) init) k = some info →
        info.mountingRounds = none := by
  induction talents with
  | nil => intro init h k info hk; exact h k info hk
  | cons t rest ih =>
    intro init h k info hk
    simp only [List.foldl_cons] at hk
    refine ih (objSet init t.id (f t)) ?_ k info hk
    intro k1 info1 hk1
    unfold objSet at hk1
    split_ifs at hk1
    · exact h k1 info1 hk1
    · by_cases hkk : t.id = k1
      · subst hkk
        rw [mapGet_mapSet_self] at hk1
        cases hk1
        exact hf t
      · rw [mapGet_mapSet_of_ne _ _ _ _ hkk] at hk1
        exact h k1 info1 hk1

theorem getPlayerTalents_no_rounds (characters : List Character) (p : Player)
    (k : String) (info : TalentInfo) (h : mapGet (getPlayerTalents characters p) k = some info) :
    info.mountingRounds = none := by
  unfold getPlayerTalents at h
  split at h
  · simp [mapGet] at h
  · exact foldl_talents_no_rounds _ _ (fun _ => rfl) []
      (by intro k1 i1 h1; simp [mapGet] at h1) k info h

/-- With the table `getPlayerTalents` builds, the candidate of a talent is read from the
defaults alone. -/
theorem candidateRounds_wired (defaults : List (String × Nat)) (characters : List Character)
    (p : Player) (t : String) :
    candidateRounds defaults (getPlayerTalents characters p) t
      = candidateRounds defaults [] t := by
  unfold candidateRounds
  have hnone : (mapGet (getPlayerTalents characters p) t).bind (fun info => info.mountingRounds)
      = none := by
    cases h : mapGet (getPlayerTalents characters p) t with
    | none => rfl
    | some info => simpa using getPlayerTalents_no_rounds characters p t info h
  rw [hnone]
  rfl

/-- A talent with an own default, or whose name is not a member of `Object.prototype`, has
the candidate `defaultMountingRounds[t] || 5`. -/
theorem candidateRounds_default (defaults : List (String × Nat)) (t : String)
    (h : (mapGet defaults t).isSome = true ∨ t ∉ objectPrototypeKeys) :
    candidateRounds defaults [] t = some (jsOrNat (mapGet defaults t) 5) := by
  unfold candidateRounds objGet
  simp only [mapGet, Option.bind]
  cases hg : mapGet defaults t with
  | some v => cases v <;> rfl
  | none =>
    rw [hg] at h
    rcases h with h | h
    · simp at h
    · simp [h, jsOrNat]

theorem bestRoundsLoop_of_rounds (defaults : List (String × Nat)) (pt pt1 : PlayerTalents) :
    ∀ (talents : List String) (best : BestRounds),
      (∀ t ∈ talents, candidateRounds defaults pt1 t = candidateRounds defaults pt t) →
      bestRoundsLoop defaults pt1 talents best = bestRoundsLoop defaults pt talents best := by
  intro talents
  induction talents with
  | nil => intro best _; rfl
  | cons t rest ih =>
    intro best h
    simp only [bestRoundsLoop, h t (List.mem_cons_self _ _)]
    exact ih _ (fun t1 ht1 => h t1 (List.mem_cons_of_mem _ ht1))

/-- The loop over candidates that are all numbers ends on the least of them. -/
theorem bestRoundsLoop_num (defaults : List (String × Nat)) (pt : PlayerTalents)
    (cand : String → Nat) :
    ∀ (talents : List String) (best : BestRounds),
      (∀ t ∈ talents, candidateRounds defaults pt t = some (cand t)) →
      best ≠ .nan → (talents ≠ [] ∨ ∃ b0, best = .num b0) →
      ∃ b, bestRoundsLoop defaults pt talents best = .num b ∧
        (best = .num b ∨ ∃ t ∈ talents, b = cand t) ∧
        (∀ t ∈ talents, b ≤ cand t) ∧
        (∀ b0, best = .num b0 → b ≤ b0) := by
  intro talents
  induction talents with
  | nil =>
    intro best _ _ h
    rcases h with h | ⟨b0, h⟩
    · exact absurd rfl h
    · subst h
      refine ⟨b0, rfl, Or.inl rfl, ?_, ?_⟩
      · intro t ht; cases ht
      · intro b1 hb1; cases hb1; exact Nat.le_refl _
  | cons t rest ih =>
    intro best hc hbest _
    have hct := hc t (List.mem_cons_self _ _)
    obtain ⟨m, hm, m1, m2, m3⟩ : ∃ m, jsMin best (some (cand t)) = .num m ∧ m ≤ cand t ∧
        (∀ b0, best = .num b0 → m ≤ b0) ∧ (m = cand t ∨ best = .num m) := by
      cases best with
      | nan => exact absurd rfl hbest
      | infinity =>
        exact ⟨cand t, rfl, Nat.le_refl _, (fun b0 h => by cases h), Or.inl rfl⟩
      | num b0 =>
        refine ⟨min b0 (cand t), rfl, Nat.min_le_right _ _,
          (fun b1 h => by cases h; exact Nat.min_le_left _ _), ?_⟩
        rcases Nat.le_total b0 (cand t) with h | h
        · right; rw [Nat.min_eq_left h]
        · left; rw [Nat.min_eq_right h]
    obtain ⟨b, hb, hsrc, hle, hbm⟩ := ih (.num m)
      (fun t1 ht1 => hc t1 (List.mem_cons_of_mem _ ht1)) (by simp) (Or.inr ⟨m, rfl⟩)
    have hbm1 : b ≤ m := hbm m rfl
    refine ⟨b, by simp only [bestRoundsLoop, hct, hm]; exact hb, ?_, ?_, ?_⟩
    · rcases hsrc with h | ⟨t1, ht1, h⟩
      · have hb1 : m = b := by cases h; rfl
        rcases m3 with h3 | h3
        · exact Or.inr ⟨t, List.mem_cons_self _ _, by rw [← hb1, h3]⟩
        · exact Or.inl (by rw [h3, hb1])
      · exact Or.inr ⟨t1, List.mem_cons_of_mem _ ht1, h⟩
    · intro t1 ht1
      rcases List.mem_cons.1 ht1 with h | h
      · rw [h]; omega
      · exact hle t1 h
    · intro b0 hb0
      have := m2 b0 hb0
      omega

/-- C30: the round count `calculateMountingRounds(card, getPlayerTalents(player))` that
`startMounting` and `advanceMounting` use is the same for every player, whatever the talent
levels; and for a card with a non-empty `requiredTalents` list each of whose talents has a
default of its own or a name that is not a member of `Object.prototype`, it is the least of
the per-talent defaults `defaultMountingRounds[t] || 5` over the required talents, and at
least 1.  But for a card that requires `constructor`, a talent with no configured default,
the lookup `defaultMountingRounds[talentId]` gives the inherited function instead of
`undefined`, the count is `NaN` where the claim says 5, also next to a talent with a
default, and the card is not mounted by the fifth call: the progress goes on to 5. -/
theorem wired_rounds_inherited_name :
    (∀ (env : Env) (g : Game) (p p1 : Player) (c : Card),
      roundsRequired env g p1 c = roundsRequired env g p c) ∧
    (∀ (env : Env) (g : Game) (p : Player) (c : Card) (talents : List String),
      talents ≠ [] → c.mounting = some { requiredTalents := some talents } →
      (∀ t ∈ talents,
        (mapGet g.defaultMountingRounds t).isSome = true ∨ t ∉ objectPrototypeKeys) →
      ∃ rounds, roundsRequired env g p c = some rounds ∧ 1 ≤ rounds ∧
        (∃ t ∈ talents, rounds = jsOrNat (mapGet g.defaultMountingRounds t) 5) ∧
        (∀ t ∈ talents, rounds ≤ jsOrNat (mapGet g.defaultMountingRounds t) 5)) ∧
    roundsRequired sampleEnv mountingGame (samplePlayer "p1" (some "ArthurHouse") 2)
      (mountableCard "radio" ["geografia"]) = some 3 ∧
    roundsRequired sampleEnv mountingGame (samplePlayer "p1" (some "ArthurHouse") 2)
      (mountableCard "radio" ["desenho"]) = some 5 ∧
    mapGet inheritedTalentGame.defaultMountingRounds "constructor" = none ∧
    roundsRequired sampleEnv inheritedTalentGame (samplePlayer "p1" (some "ArthurHouse") 2)
      (mountableCard "radio" ["constructor"]) = none ∧
    roundsRequired sampleEnv inheritedTalentGame (samplePlayer "p1" (some "ArthurHouse") 2)
      (mountableCard "radio" ["geografia", "constructor"]) = none ∧
    (cardAt (runMount sampleEnv inheritedTalentGame
        [.startMounting 0, .endTurn, .advanceMounting 0, .endTurn, .advanceMounting 0,
         .endTurn, .advanceMounting 0, .endTurn, .advanceMounting 0]) 0 0).map
        (fun c => (c.mounted, c.mountingProgress)) = some (false, some 5) := by
  have hsame : ∀ (env : Env) (g : Game) (p : Player) (c : Card),
      roundsRequired env g p c = calculateMountingRounds g.defaultMountingRounds c [] := by
    intro env g p c
    have hloop : ∀ talents : List String,
        bestRoundsLoop g.defaultMountingRounds (getPlayerTalents env.characters p) talents
            .infinity
          = bestRoundsLoop g.defaultMountingRounds [] talents .infinity := by
      intro talents
      apply bestRoundsLoop_of_rounds
      intro t _
      rw [candidateRounds_wired]
    unfold roundsRequired calculateMountingRounds getBestMountingTalent
    simp only [hloop]
  refine ⟨?_, ?_, by decide, by decide, by decide, by decide, by decide, by decide⟩
  · intro env g p p1 c
    rw [hsame, hsame]
  · intro env g p c talents hne hc hown
    have hlen : talents.length ≠ 0 := by
      intro h; exact hne (List.length_eq_zero.1 h)
    obtain ⟨b, hb, hsrc, hle, _⟩ := bestRoundsLoop_num g.defaultMountingRounds []
      (fun t => jsOrNat (mapGet g.defaultMountingRounds t) 5) talents .infinity
      (fun t ht => candidateRounds_default g.defaultMountingRounds t (hown t ht))
      (by simp) (Or.inl hne)
    have hval : roundsRequired env g p c = some b := by
      rw [hsame]
      simp [calculateMountingRounds, hc, getBestMountingTalent, hlen, hb]
    have hpos : ∀ t, 1 ≤ jsOrNat (mapGet g.defaultMountingRounds t) 5 := by
      intro t
      cases mapGet g.defaultMountingRounds t with
      | none => simp [jsOrNat]
      | some v => cases v <;> simp [jsOrNat]
    rcases hsrc with h | ⟨t, ht, hte⟩
    · cases h
    · exact ⟨b, hval, by rw [hte]; exact hpos t, ⟨t, ht, hte⟩, hle⟩

end WiredRounds

end MundoSombrio
